import Mathlib

/-!
# Verification of the ITCH 5.0 feed handler core

Shallow embedding of the market-data engine:

* `message_types.hpp` — message size catalogue (`get_message_size`);
* `itch_parser.hpp` — `ITCHParser::parse_message` and
  `TemplateParser::parse_message`, with `ParserStats`;
* `order_book.hpp` — `ObjectPool`, `OrderMap` (linear-probing hash with
  backward-shift deletion), `PriceLevel`, `OrderBook`, `OrderBookManager`;
* `feed_handler.hpp` — the `FeedHandler` order-message callbacks.

Conventions of the embedding:

* Machine integers are modelled by `Nat`/`Int`.  `Quantity` (`uint32_t`)
  arithmetic in the book never underflows (every subtraction is bounded by a
  previous read of the same field), so cached totals are tracked exactly; the
  `uint32_t` value of any counter is the `Nat` value taken `% 2^32`.  `Price`
  (`int64_t`) is `Int`; `Price::MAX` is `2^63 - 1`.
* Pointers have value semantics here: the order-id index stores the order
  records themselves, and a price level stores the ids of its orders, exactly
  mirroring the source discipline (pool owns the record, the level list and
  the id index are non-owning views of it).  An in-place mutation of a record
  through a pointer becomes an update of the record stored in the index.
* Raw byte buffers are total functions `Nat → Char`; the length argument
  delimits the valid prefix, as for the `const char*` / `max_len` pairs in
  the source.
* Callbacks are recorded as emitted event values rather than invoked.
* The unbounded probe loops of `OrderMap` take explicit fuel; the reachable
  states proved below always stop the loops well inside the supplied fuel,
  so the fuelled functions agree with the source loops there.
-/

set_option maxHeartbeats 1000000

namespace Itch

/-- Order side.  The source stores the raw char and only ever tests
`is_buy` (`== 'B'`); the model collapses every non-`'B'` indicator to
`Sell` accordingly. -/
inductive Side where
  | Buy : Side
  | Sell : Side
deriving DecidableEq, Repr, Inhabited

/-- `char_to_side` from `common.hpp`: the cast keeps only what `is_buy`
observes. -/
def char_to_side (c : Char) : Side :=
  if c = 'B' then Side.Buy else Side.Sell

/-- `is_buy` from `common.hpp`. -/
def is_buy (s : Side) : Bool :=
  match s with
  | Side.Buy => true
  | Side.Sell => false

/-- `std::numeric_limits<Price>::max()` for `Price = int64_t`. -/
def priceMax : Int := 2 ^ 63 - 1

/-- The book-resident order record (`struct Order` in `order_book.hpp`,
without the intrusive links, which are represented by the level lists). -/
structure Order where
  order_id : Nat
  price : Int
  quantity : Nat
  original_qty : Nat
  stock_locate : Nat
  side : Side
  timestamp : Nat
deriving DecidableEq, Repr, Inhabited

/-- A price level (`class PriceLevel`): FIFO list of the ids of its resident
orders (head = oldest), with the cached totals. -/
structure PriceLevel where
  price : Int
  orders : List Nat
  total_quantity : Nat
  order_count : Nat
deriving DecidableEq, Repr, Inhabited

/-- `PriceLevel::add_order`: append at the tail, update caches.  `qty` is the
appended record's `quantity` field read by the source. -/
def PriceLevel.add_order (l : PriceLevel) (oid : Nat) (qty : Nat) : PriceLevel :=
  { l with
    orders := l.orders ++ [oid]
    total_quantity := l.total_quantity + qty
    order_count := l.order_count + 1 }

/-- `PriceLevel::remove_order`: unlink, update caches.  `qty` is the removed
record's current `quantity` field. -/
def PriceLevel.remove_order (l : PriceLevel) (oid : Nat) (qty : Nat) : PriceLevel :=
  { l with
    orders := l.orders.erase oid
    total_quantity := l.total_quantity - qty
    order_count := l.order_count - 1 }

/-- `PriceLevel::reduce_quantity`: the record's quantity is reduced in place
(that update lives in the book's index in this model); the level subtracts
`delta` from its total and, when the record reached zero, removes it
(`remove_order` then subtracts the record's now-zero quantity).
`newQty` is the record's quantity after the in-place reduction. -/
def PriceLevel.reduce_quantity (l : PriceLevel) (oid : Nat) (newQty delta : Nat) :
    PriceLevel :=
  let l' := { l with total_quantity := l.total_quantity - delta }
  if newQty = 0 then l'.remove_order oid newQty else l'

/-- The cached best bid / offer (`struct BBO`), with its default field
initialisers. -/
structure BBO where
  bid_price : Int := 0
  ask_price : Int := priceMax
  bid_quantity : Nat := 0
  ask_quantity : Nat := 0
deriving DecidableEq, Repr, Inhabited

def BBO.has_bid (b : BBO) : Bool := decide (0 < b.bid_quantity)

def BBO.has_ask (b : BBO) : Bool := decide (0 < b.ask_quantity)

/-- `ObjectPool<Order>`: a LIFO free list plus the count of allocated
blocks (block storage is append-only).  Slots are value-modelled; a freshly
allocated slot holds the default record (the source leaves it
uninitialised and every acquirer overwrites all fields). -/
structure Pool where
  free : List Order
  blocks : Nat
deriving DecidableEq, Repr, Inhabited

def Pool.BlockSize : Nat := 4096

/-- `ObjectPool::allocate_block`. -/
def Pool.allocate_block (p : Pool) : Pool :=
  { free := List.replicate Pool.BlockSize default ++ p.free
    blocks := p.blocks + 1 }

/-- `ObjectPool::acquire`. -/
def Pool.acquire (p : Pool) : Order × Pool :=
  let p := if p.free.isEmpty then p.allocate_block else p
  match p.free with
  | [] => (default, p)   -- unreachable: allocate_block refilled the list
  | o :: rest => (o, { p with free := rest })

/-- `ObjectPool::release`. -/
def Pool.release (p : Pool) (o : Order) : Pool :=
  { p with free := o :: p.free }

/-- `ObjectPool` constructor: allocates one block. -/
def Pool.init : Pool := Pool.allocate_block { free := [], blocks := 0 }

/-!
## The per-instrument order book

The order-id index (`OrderMap orders_`) is modelled as an association list
with unique keys; the linear-probing implementation behind it is verified
separately below (`OrderMap` section), where it is shown to realise exactly
this finite-map behaviour on its reachable states.  The two `std::map`s are
modelled as lists of levels kept sorted by the map's comparator (bids by
`>`, asks by `<`), with first-element access at the head.
-/

/-- Lookup in the order-id index (`orders_.find`). -/
def lookupIdx (os : List (Nat × Order)) (id : Nat) : Option Order :=
  (os.find? (fun p => p.1 == id)).map (·.2)

/-- Insertion into the order-id index (`orders_.put`). -/
def putIdx (os : List (Nat × Order)) (id : Nat) (o : Order) : List (Nat × Order) :=
  os ++ [(id, o)]

/-- Removal from the order-id index (`orders_.remove`). -/
def removeIdx (os : List (Nat × Order)) (id : Nat) : List (Nat × Order) :=
  os.filter (fun p => !(p.1 == id))

/-- In-place mutation of the record the index maps `id` to (the source
mutates the pooled record through the `Order*` held by the index). -/
def setIdx (os : List (Nat × Order)) (id : Nat) (o : Order) : List (Nat × Order) :=
  os.map (fun p => if p.1 == id then (p.1, o) else p)

/-- `std::map::find` on a level list. -/
def findLevel (p : Int) (ls : List PriceLevel) : Option PriceLevel :=
  ls.find? (fun l => l.price == p)

/-- Apply `f` to the (unique) level keyed `p`. -/
def modifyLevel (p : Int) (f : PriceLevel → PriceLevel) (ls : List PriceLevel) :
    List PriceLevel :=
  ls.map (fun l => if l.price == p then f l else l)

/-- `std::map::erase` of the level keyed `p`. -/
def eraseLevel (p : Int) (ls : List PriceLevel) : List PriceLevel :=
  ls.filter (fun l => !(l.price == p))

/-- `std::map::emplace` of a fresh empty level, keeping the comparator order
(`bef a b` ↔ the map places key `a` strictly before key `b`). -/
def insertLevelSorted (bef : Int → Int → Bool) (lvl : PriceLevel) :
    List PriceLevel → List PriceLevel
  | [] => [lvl]
  | l :: ls =>
      if bef lvl.price l.price then lvl :: l :: ls
      else l :: insertLevelSorted bef lvl ls

/-- Bid-map comparator `std::greater<Price>`: highest price first. -/
def befBid (a b : Int) : Bool := decide (b < a)

/-- Ask-map comparator `std::less<Price>`: lowest price first. -/
def befAsk (a b : Int) : Bool := decide (a < b)

/-- `class OrderBook` (one instrument). -/
structure OrderBook where
  stock_locate : Nat
  bids : List PriceLevel
  asks : List PriceLevel
  orders : List (Nat × Order)
  bbo : BBO
  order_count : Nat
deriving DecidableEq, Repr, Inhabited

/-- `OrderBook(StockLocate)` constructor (and the default constructor for
locate 0): empty book, default BBO. -/
def OrderBook.init (loc : Nat) : OrderBook :=
  { stock_locate := loc, bids := [], asks := [], orders := [], bbo := {}, order_count := 0 }

/-- `OrderBook::update_best_bid`. -/
def OrderBook.update_best_bid (b : OrderBook) : OrderBook :=
  match b.bids with
  | [] => { b with bbo := { b.bbo with bid_price := 0, bid_quantity := 0 } }
  | best :: _ =>
      { b with bbo := { b.bbo with bid_price := best.price, bid_quantity := best.total_quantity } }

/-- `OrderBook::update_best_ask`. -/
def OrderBook.update_best_ask (b : OrderBook) : OrderBook :=
  match b.asks with
  | [] => { b with bbo := { b.bbo with ask_price := priceMax, ask_quantity := 0 } }
  | best :: _ =>
      { b with bbo := { b.bbo with ask_price := best.price, ask_quantity := best.total_quantity } }

/-- The level-list part of `OrderBook::add_order` (identical for either
side): find-or-emplace the level at `price`, then append the order. -/
def addToLevels (bef : Int → Int → Bool) (price : Int) (oid qty : Nat)
    (ls : List PriceLevel) : List PriceLevel :=
  let ls' :=
    match findLevel price ls with
    | some _ => ls
    | none =>
        insertLevelSorted bef
          { price := price, orders := [], total_quantity := 0, order_count := 0 } ls
  modifyLevel price (fun l => l.add_order oid qty) ls'

/-- `OrderBook::add_order`.  Returns the inserted record (`Order*`), or
`none` for a duplicate id. -/
def OrderBook.add_order (b : OrderBook) (order_id : Nat) (side : Side) (price : Int)
    (quantity : Nat) (timestamp : Nat) (pool : Pool) : Option Order × OrderBook × Pool :=
  match lookupIdx b.orders order_id with
  | some _ => (none, b, pool)
  | none =>
    let (_slot, pool) := pool.acquire
    let ord : Order :=
      { order_id := order_id, price := price, quantity := quantity,
        original_qty := quantity, stock_locate := b.stock_locate,
        side := side, timestamp := timestamp }
    let b := { b with orders := putIdx b.orders order_id ord }
    let b :=
      if is_buy side then
        OrderBook.update_best_bid
          { b with bids := addToLevels befBid price order_id quantity b.bids }
      else
        OrderBook.update_best_ask
          { b with asks := addToLevels befAsk price order_id quantity b.asks }
    (some ord, { b with order_count := b.order_count + 1 }, pool)

/-- The level-list part of `OrderBook::execute_order`: reduce the record's
level by `exec` and erase the level when it empties. -/
def reduceInLevels (price : Int) (oid : Nat) (newQty exec : Nat)
    (ls : List PriceLevel) : List PriceLevel :=
  match findLevel price ls with
  | none => ls
  | some _ =>
    let ls := modifyLevel price (fun l => l.reduce_quantity oid newQty exec) ls
    match findLevel price ls with
    | some l => if l.order_count = 0 then eraseLevel price ls else ls
    | none => ls

/-- The level-list part of `OrderBook::delete_order`. -/
def removeInLevels (price : Int) (oid : Nat) (qty : Nat)
    (ls : List PriceLevel) : List PriceLevel :=
  match findLevel price ls with
  | none => ls
  | some _ =>
    let ls := modifyLevel price (fun l => l.remove_order oid qty) ls
    match findLevel price ls with
    | some l => if l.order_count = 0 then eraseLevel price ls else ls
    | none => ls

/-- `OrderBook::execute_order`. -/
def OrderBook.execute_order (b : OrderBook) (order_id : Nat) (quantity : Nat)
    (pool : Pool) : Nat × OrderBook × Pool :=
  match lookupIdx b.orders order_id with
  | none => (0, b, pool)
  | some ord =>
    let exec_qty := min quantity ord.quantity
    let ord' := { ord with quantity := ord.quantity - exec_qty }
    let b := { b with orders := setIdx b.orders order_id ord' }
    let b :=
      if is_buy ord.side then
        OrderBook.update_best_bid
          { b with bids := reduceInLevels ord.price order_id ord'.quantity exec_qty b.bids }
      else
        OrderBook.update_best_ask
          { b with asks := reduceInLevels ord.price order_id ord'.quantity exec_qty b.asks }
    if ord'.quantity = 0 then
      (exec_qty,
       { b with orders := removeIdx b.orders order_id, order_count := b.order_count - 1 },
       pool.release ord')
    else
      (exec_qty, b, pool)

/-- `OrderBook::cancel_order` forwards to `execute_order`. -/
def OrderBook.cancel_order (b : OrderBook) (order_id : Nat) (quantity : Nat)
    (pool : Pool) : Nat × OrderBook × Pool :=
  b.execute_order order_id quantity pool

/-- `OrderBook::delete_order`. -/
def OrderBook.delete_order (b : OrderBook) (order_id : Nat) (pool : Pool) :
    Bool × OrderBook × Pool :=
  match lookupIdx b.orders order_id with
  | none => (false, b, pool)
  | some ord =>
    let b :=
      if is_buy ord.side then
        OrderBook.update_best_bid
          { b with bids := removeInLevels ord.price order_id ord.quantity b.bids }
      else
        OrderBook.update_best_ask
          { b with asks := removeInLevels ord.price order_id ord.quantity b.asks }
    (true,
     { b with orders := removeIdx b.orders order_id, order_count := b.order_count - 1 },
     pool.release ord)

/-- `OrderBook::replace_order`. -/
def OrderBook.replace_order (b : OrderBook) (old_order_id new_order_id : Nat)
    (new_quantity : Nat) (new_price : Int) (timestamp : Nat) (pool : Pool) :
    Option Order × OrderBook × Pool :=
  match lookupIdx b.orders old_order_id with
  | none => (none, b, pool)
  | some old_order =>
    let side := old_order.side
    let (_, b, pool) := b.delete_order old_order_id pool
    b.add_order new_order_id side new_price new_quantity timestamp pool

/-- `OrderBook::get_order`. -/
def OrderBook.get_order (b : OrderBook) (order_id : Nat) : Option Order :=
  lookupIdx b.orders order_id

/-!
## The book manager

`OrderBookManager` keeps a vector of `MAX_SYMBOLS` default-constructed books
and the shared pool.  `get_book` indexes the vector without a bounds check;
the unchecked access is modelled as an `Option`, `none` standing for the
out-of-bounds (undefined-behaviour) case.
-/

/-- `class OrderBookManager`. -/
structure OrderBookManager where
  books : List OrderBook
  pool : Pool
deriving DecidableEq, Repr, Inhabited

def OrderBookManager.MAX_SYMBOLS : Nat := 8192

/-- `OrderBookManager` constructor: `books_.resize(MAX_SYMBOLS)` default
constructs every book (locate 0). -/
def OrderBookManager.init : OrderBookManager :=
  { books := List.replicate OrderBookManager.MAX_SYMBOLS (OrderBook.init 0)
    pool := Pool.init }

/-- `OrderBookManager::get_book`: the unchecked `books_[stock_locate]`
access; in bounds, lazily (re)initialises the slot whose stored locate is 0
and returns the stored book together with the updated manager. -/
def OrderBookManager.get_book (m : OrderBookManager) (stock_locate : Nat) :
    Option (OrderBook × OrderBookManager) :=
  if h : stock_locate < m.books.length then
    let cur := m.books.get ⟨stock_locate, h⟩
    if cur.stock_locate = 0 then
      let fresh := OrderBook.init stock_locate
      some (fresh, { m with books := m.books.set stock_locate fresh })
    else
      some (cur, m)
  else none

/-- `OrderBookManager::has_book`: the range test short-circuits, so the
vector is only read in bounds. -/
def OrderBookManager.has_book (m : OrderBookManager) (stock_locate : Nat) : Bool :=
  if h : stock_locate < m.books.length then
    decide ((m.books.get ⟨stock_locate, h⟩).stock_locate ≠ 0)
  else false

/-- Store a (mutated-through-reference) book back into the manager's
vector: the source mutates `books_[locate]` in place. -/
def OrderBookManager.setBook (m : OrderBookManager) (stock_locate : Nat)
    (b : OrderBook) (pool : Pool) : OrderBookManager :=
  { books := m.books.set stock_locate b, pool := pool }

/-!
## Parser: message catalogue and `parse_message`

`get_message_size` transcribes the `switch` in `message_types.hpp`; the
sizes are the `sizeof` values pinned there by `static_assert`s.
-/

/-- `get_message_size` from `message_types.hpp`. -/
def get_message_size (type : Char) : Nat :=
  match type with
  | 'S' => 12
  | 'R' => 39
  | 'H' => 25
  | 'Y' => 20
  | 'L' => 26
  | 'V' => 35
  | 'W' => 12
  | 'K' => 28
  | 'J' => 35
  | 'h' => 21
  | 'A' => 36
  | 'F' => 40
  | 'E' => 31
  | 'C' => 36
  | 'X' => 23
  | 'D' => 19
  | 'U' => 35
  | 'P' => 44
  | 'Q' => 40
  | 'B' => 19
  | 'I' => 50
  | 'N' => 20
  | _ => 0

/-- `endian::be48_to_host` applied at offset 5 of the buffer
(`ITCHParser::extract_timestamp`). -/
def extract_timestamp (data : Nat → Char) : Nat :=
  (data 5).toNat * 256 ^ 5 + (data 6).toNat * 256 ^ 4 + (data 7).toNat * 256 ^ 3 +
    (data 8).toNat * 256 ^ 2 + (data 9).toNat * 256 + (data 10).toNat

/-- `struct ParserStats`. -/
structure ParserStats where
  messages_parsed : Nat
  bytes_processed : Nat
  parse_errors : Nat
  message_type_counts : Char → Nat

def ParserStats.init : ParserStats :=
  { messages_parsed := 0, bytes_processed := 0, parse_errors := 0,
    message_type_counts := fun _ => 0 }

/-- The observable effect of one parser callback: either the error
callback, or the typed dispatch for the tag (which of the 22 `on_*`
callbacks runs is determined by the tag). -/
inductive ParserEvent where
  | parseError (reason : String) : ParserEvent
  | dispatch (msgType : Char) (ts : Nat) : ParserEvent
deriving DecidableEq, Repr

/-- `class ITCHParser` state: whether a handler is attached, and the
statistics. -/
structure ITCHParser where
  hasHandler : Bool
  stats : ParserStats

/-- `ITCHParser::parse_message`.  Returns the consumed byte count, the new
parser state and the callbacks invoked. -/
def ITCHParser.parse_message (p : ITCHParser) (data : Nat → Char) (max_len : Nat) :
    Nat × ITCHParser × List ParserEvent :=
  if max_len = 0 then (0, p, [])
  else
    let msg_type := data 0
    let msg_size := get_message_size msg_type
    if msg_size = 0 then
      (1,
       { p with stats := { p.stats with parse_errors := p.stats.parse_errors + 1 } },
       if p.hasHandler then [ParserEvent.parseError "Unknown message type"] else [])
    else if max_len < msg_size then (0, p, [])
    else
      let ts := extract_timestamp data
      let evs := if p.hasHandler then [ParserEvent.dispatch msg_type ts] else []
      (msg_size,
       { p with stats :=
          { messages_parsed := p.stats.messages_parsed + 1
            bytes_processed := p.stats.bytes_processed + msg_size
            parse_errors := p.stats.parse_errors
            message_type_counts := fun c =>
              if c = msg_type then p.stats.message_type_counts c + 1
              else p.stats.message_type_counts c } },
       evs)

/-- `TemplateParser::parse_message`: folds the unknown-tag case into the
short-read case (returns 0, no error counter, no error callback), never
touches its `stats_`, and dispatches unconditionally through its handler
pointer. -/
def TemplateParser.parse_message (stats : ParserStats) (data : Nat → Char)
    (max_len : Nat) : Nat × ParserStats × List ParserEvent :=
  if max_len = 0 then (0, stats, [])
  else
    let msg_type := data 0
    let msg_size := get_message_size msg_type
    if msg_size = 0 ∨ max_len < msg_size then (0, stats, [])
    else
      let ts := extract_timestamp data
      (msg_size, stats, [ParserEvent.dispatch msg_type ts])

/-!
## Feed handler

The order-message structs carry the fields the handlers read.  The
`endian::beXX_to_host` conversions are bijections on the fixed-width
values; the model's message fields hold the already-converted (host-order)
values, so the conversion sites in the handlers become the identity.
-/

/-- `AddOrderMessage` ('A') / the shared fields of `AddOrderMPIDMessage`
('F'), host-order. -/
structure AddOrderMessage where
  stock_locate : Nat
  order_ref_number : Nat
  buy_sell_indicator : Char
  shares : Nat
  price : Int
deriving DecidableEq, Repr

/-- `OrderExecutedMessage` ('E'), host-order. -/
structure OrderExecutedMessage where
  stock_locate : Nat
  order_ref_number : Nat
  executed_shares : Nat
  match_number : Nat
deriving DecidableEq, Repr

/-- `OrderExecutedPriceMessage` ('C'), host-order. -/
structure OrderExecutedPriceMessage where
  stock_locate : Nat
  order_ref_number : Nat
  executed_shares : Nat
  match_number : Nat
  execution_price : Int
deriving DecidableEq, Repr

/-- `OrderCancelMessage` ('X'), host-order. -/
structure OrderCancelMessage where
  stock_locate : Nat
  order_ref_number : Nat
  cancelled_shares : Nat
deriving DecidableEq, Repr

/-- `OrderDeleteMessage` ('D'), host-order. -/
structure OrderDeleteMessage where
  stock_locate : Nat
  order_ref_number : Nat
deriving DecidableEq, Repr

/-- `OrderReplaceMessage` ('U'), host-order. -/
structure OrderReplaceMessage where
  stock_locate : Nat
  original_order_ref_number : Nat
  new_order_ref_number : Nat
  shares : Nat
  price : Int
deriving DecidableEq, Repr

/-- `FeedMetrics` (counters only; the latency histograms are out-of-scope
observability). -/
structure FeedMetrics where
  messages_processed : Nat
  orders_added : Nat
  orders_executed : Nat
  orders_cancelled : Nat
  orders_deleted : Nat
  orders_replaced : Nat
  trades : Nat
  bbo_updates : Nat
deriving DecidableEq, Repr

def FeedMetrics.init : FeedMetrics :=
  { messages_processed := 0, orders_added := 0, orders_executed := 0,
    orders_cancelled := 0, orders_deleted := 0, orders_replaced := 0,
    trades := 0, bbo_updates := 0 }

/-- The subscriber-visible events (`FeedEventHandler` callbacks). -/
inductive FeedEvent where
  | trade (stock_locate : Nat) (price : Int) (quantity : Nat) (order_ref : Nat)
      (match_number : Nat) (side : Side) (timestamp : Nat) : FeedEvent
  | bboUpdate (stock_locate : Nat) (old_bbo new_bbo : BBO) (timestamp : Nat) : FeedEvent
deriving DecidableEq, Repr

/-- `class FeedHandler` state: the book manager, the counters, whether an
event handler is attached, and the locate filter. -/
structure FeedHandler where
  mgr : OrderBookManager
  metrics : FeedMetrics
  hasEventHandler : Bool
  symbol_filter : List Nat
  use_filter : Bool
  collect_metrics : Bool
deriving Repr

/-- The locate filter test: `use_filter_ && symbol_filter_.count(locate) == 0`
means "skip". -/
def FeedHandler.filteredOut (fh : FeedHandler) (locate : Nat) : Bool :=
  fh.use_filter && !(fh.symbol_filter.contains locate)

/-- The post-mutation BBO comparison shared by every order handler:
an event fires iff bid price or ask price changed. -/
def bboChanged (oldB newB : BBO) : Bool :=
  !(oldB.bid_price == newB.bid_price) || !(oldB.ask_price == newB.ask_price)

/-- The tail every order handler ends with: if a subscriber is attached and
the BBO price moved, emit the event and bump `bbo_updates`. -/
def FeedHandler.emitBBO (fh : FeedHandler) (locate : Nat) (old_bbo new_bbo : BBO)
    (ts : Nat) : FeedHandler × List FeedEvent :=
  if fh.hasEventHandler then
    if bboChanged old_bbo new_bbo then
      ({ fh with metrics := { fh.metrics with bbo_updates := fh.metrics.bbo_updates + 1 } },
       [FeedEvent.bboUpdate locate old_bbo new_bbo ts])
    else (fh, [])
  else (fh, [])

/-- `FeedHandler::on_add_order` ('A').  Counters increment only under
`collect_metrics_`; the book mutation's return value is ignored.  The
out-of-bounds `get_book` access (locate ≥ MAX_SYMBOLS) is undefined in the
source and modelled as a no-op. -/
def FeedHandler.on_add_order (fh : FeedHandler) (msg : AddOrderMessage) (ts : Nat) :
    FeedHandler × List FeedEvent :=
  let locate := msg.stock_locate
  if fh.filteredOut locate then (fh, [])
  else
    match fh.mgr.get_book locate with
    | none => (fh, [])
    | some (book, mgr) =>
      let old_bbo := if fh.hasEventHandler then book.bbo else {}
      let (_, book, pool) :=
        book.add_order msg.order_ref_number (char_to_side msg.buy_sell_indicator)
          msg.price msg.shares ts mgr.pool
      let mgr := mgr.setBook locate book pool
      let metrics :=
        if fh.collect_metrics then
          { fh.metrics with
            orders_added := fh.metrics.orders_added + 1
            messages_processed := fh.metrics.messages_processed + 1 }
        else fh.metrics
      FeedHandler.emitBBO { fh with mgr := mgr, metrics := metrics }
        locate old_bbo book.bbo ts

/-- `FeedHandler::on_add_order_mpid` ('F').  Identical to `on_add_order`
except that `orders_added` and `messages_processed` increment
unconditionally. -/
def FeedHandler.on_add_order_mpid (fh : FeedHandler) (msg : AddOrderMessage)
    (ts : Nat) : FeedHandler × List FeedEvent :=
  let locate := msg.stock_locate
  if fh.filteredOut locate then (fh, [])
  else
    match fh.mgr.get_book locate with
    | none => (fh, [])
    | some (book, mgr) =>
      let old_bbo := if fh.hasEventHandler then book.bbo else {}
      let (_, book, pool) :=
        book.add_order msg.order_ref_number (char_to_side msg.buy_sell_indicator)
          msg.price msg.shares ts mgr.pool
      let mgr := mgr.setBook locate book pool
      let metrics :=
        { fh.metrics with
          orders_added := fh.metrics.orders_added + 1
          messages_processed := fh.metrics.messages_processed + 1 }
      FeedHandler.emitBBO { fh with mgr := mgr, metrics := metrics }
        locate old_bbo book.bbo ts

/-- `FeedHandler::on_order_executed` ('E'): trade event (against the
still-live resting order) before the mutation, then unconditional
counters, then the BBO comparison. -/
def FeedHandler.on_order_executed (fh : FeedHandler) (msg : OrderExecutedMessage)
    (ts : Nat) : FeedHandler × List FeedEvent :=
  let locate := msg.stock_locate
  if fh.filteredOut locate then (fh, [])
  else
    match fh.mgr.get_book locate with
    | none => (fh, [])
    | some (book, mgr) =>
      let old_bbo := if fh.hasEventHandler then book.bbo else {}
      let order_id := msg.order_ref_number
      let exec_shares := msg.executed_shares
      let (tradeEvs, book, pool) :=
        match book.get_order order_id with
        | some ord =>
          let evs :=
            if fh.hasEventHandler then
              [FeedEvent.trade locate ord.price exec_shares order_id
                msg.match_number ord.side ts]
            else []
          let (_, book, pool) := book.execute_order order_id exec_shares mgr.pool
          (evs, book, pool)
        | none => ([], book, mgr.pool)
      let mgr := mgr.setBook locate book pool
      let metrics :=
        { fh.metrics with
          orders_executed := fh.metrics.orders_executed + 1
          trades := fh.metrics.trades + 1
          messages_processed := fh.metrics.messages_processed + 1 }
      let (fh, bboEvs) :=
        FeedHandler.emitBBO { fh with mgr := mgr, metrics := metrics }
          locate old_bbo book.bbo ts
      (fh, tradeEvs ++ bboEvs)

/-- `FeedHandler::on_order_executed_price` ('C'). -/
def FeedHandler.on_order_executed_price (fh : FeedHandler)
    (msg : OrderExecutedPriceMessage) (ts : Nat) : FeedHandler × List FeedEvent :=
  let locate := msg.stock_locate
  if fh.filteredOut locate then (fh, [])
  else
    match fh.mgr.get_book locate with
    | none => (fh, [])
    | some (book, mgr) =>
      let old_bbo := if fh.hasEventHandler then book.bbo else {}
      let order_id := msg.order_ref_number
      let exec_shares := msg.executed_shares
      let (tradeEvs, book, pool) :=
        match book.get_order order_id with
        | some ord =>
          let evs :=
            if fh.hasEventHandler then
              [FeedEvent.trade locate msg.execution_price exec_shares order_id
                msg.match_number ord.side ts]
            else []
          let (_, book, pool) := book.execute_order order_id exec_shares mgr.pool
          (evs, book, pool)
        | none => ([], book, mgr.pool)
      let mgr := mgr.setBook locate book pool
      let metrics :=
        { fh.metrics with
          orders_executed := fh.metrics.orders_executed + 1
          trades := fh.metrics.trades + 1
          messages_processed := fh.metrics.messages_processed + 1 }
      let (fh, bboEvs) :=
        FeedHandler.emitBBO { fh with mgr := mgr, metrics := metrics }
          locate old_bbo book.bbo ts
      (fh, tradeEvs ++ bboEvs)

/-- `FeedHandler::on_order_cancel` ('X'). -/
def FeedHandler.on_order_cancel (fh : FeedHandler) (msg : OrderCancelMessage)
    (ts : Nat) : FeedHandler × List FeedEvent :=
  let locate := msg.stock_locate
  if fh.filteredOut locate then (fh, [])
  else
    match fh.mgr.get_book locate with
    | none => (fh, [])
    | some (book, mgr) =>
      let old_bbo := if fh.hasEventHandler then book.bbo else {}
      let (_, book, pool) :=
        book.cancel_order msg.order_ref_number msg.cancelled_shares mgr.pool
      let mgr := mgr.setBook locate book pool
      let metrics :=
        { fh.metrics with
          orders_cancelled := fh.metrics.orders_cancelled + 1
          messages_processed := fh.metrics.messages_processed + 1 }
      FeedHandler.emitBBO { fh with mgr := mgr, metrics := metrics }
        locate old_bbo book.bbo ts

/-- `FeedHandler::on_order_delete` ('D'). -/
def FeedHandler.on_order_delete (fh : FeedHandler) (msg : OrderDeleteMessage)
    (ts : Nat) : FeedHandler × List FeedEvent :=
  let locate := msg.stock_locate
  if fh.filteredOut locate then (fh, [])
  else
    match fh.mgr.get_book locate with
    | none => (fh, [])
    | some (book, mgr) =>
      let old_bbo := if fh.hasEventHandler then book.bbo else {}
      let (_, book, pool) := book.delete_order msg.order_ref_number mgr.pool
      let mgr := mgr.setBook locate book pool
      let metrics :=
        { fh.metrics with
          orders_deleted := fh.metrics.orders_deleted + 1
          messages_processed := fh.metrics.messages_processed + 1 }
      FeedHandler.emitBBO { fh with mgr := mgr, metrics := metrics }
        locate old_bbo book.bbo ts

/-- `FeedHandler::on_order_replace` ('U'). -/
def FeedHandler.on_order_replace (fh : FeedHandler) (msg : OrderReplaceMessage)
    (ts : Nat) : FeedHandler × List FeedEvent :=
  let locate := msg.stock_locate
  if fh.filteredOut locate then (fh, [])
  else
    match fh.mgr.get_book locate with
    | none => (fh, [])
    | some (book, mgr) =>
      let old_bbo := if fh.hasEventHandler then book.bbo else {}
      let (_, book, pool) :=
        book.replace_order msg.original_order_ref_number msg.new_order_ref_number
          msg.shares msg.price ts mgr.pool
      let mgr := mgr.setBook locate book pool
      let metrics :=
        { fh.metrics with
          orders_replaced := fh.metrics.orders_replaced + 1
          messages_processed := fh.metrics.messages_processed + 1 }
      FeedHandler.emitBBO { fh with mgr := mgr, metrics := metrics }
        locate old_bbo book.bbo ts

/-- The order-modifying message family (types 'A', 'F', 'E', 'C', 'X', 'D',
'U'). -/
inductive OrderModMsg where
  | addOrder (msg : AddOrderMessage) : OrderModMsg
  | addOrderMPID (msg : AddOrderMessage) : OrderModMsg
  | orderExecuted (msg : OrderExecutedMessage) : OrderModMsg
  | orderExecutedPrice (msg : OrderExecutedPriceMessage) : OrderModMsg
  | orderCancel (msg : OrderCancelMessage) : OrderModMsg
  | orderDelete (msg : OrderDeleteMessage) : OrderModMsg
  | orderReplace (msg : OrderReplaceMessage) : OrderModMsg
deriving DecidableEq, Repr

/-- The stock locate of an order-modifying message. -/
def OrderModMsg.locate : OrderModMsg → Nat
  | .addOrder m => m.stock_locate
  | .addOrderMPID m => m.stock_locate
  | .orderExecuted m => m.stock_locate
  | .orderExecutedPrice m => m.stock_locate
  | .orderCancel m => m.stock_locate
  | .orderDelete m => m.stock_locate
  | .orderReplace m => m.stock_locate

/-- Dispatch of an order-modifying message to its `FeedHandler` callback. -/
def FeedHandler.processOrderMsg (fh : FeedHandler) (m : OrderModMsg) (ts : Nat) :
    FeedHandler × List FeedEvent :=
  match m with
  | .addOrder msg => fh.on_add_order msg ts
  | .addOrderMPID msg => fh.on_add_order_mpid msg ts
  | .orderExecuted msg => fh.on_order_executed msg ts
  | .orderExecutedPrice msg => fh.on_order_executed_price msg ts
  | .orderCancel msg => fh.on_order_cancel msg ts
  | .orderDelete msg => fh.on_order_delete msg ts
  | .orderReplace msg => fh.on_order_replace msg ts

/-!
## Operation sequences on a book, and reachable manager states
-/

/-- One book mutation, as named in the `OrderBook` interface. -/
inductive BookOp where
  | add (order_id : Nat) (side : Side) (price : Int) (quantity ts : Nat) : BookOp
  | exec (order_id quantity : Nat) : BookOp
  | cancel (order_id quantity : Nat) : BookOp
  | del (order_id : Nat) : BookOp
  | replace (old_id new_id quantity : Nat) (price : Int) (ts : Nat) : BookOp
deriving DecidableEq, Repr

/-- Apply one mutation, discarding the returned value. -/
def applyBookOp (b : OrderBook) (pool : Pool) : BookOp → OrderBook × Pool
  | .add id sd pr q ts => let r := b.add_order id sd pr q ts pool; (r.2.1, r.2.2)
  | .exec id q => let r := b.execute_order id q pool; (r.2.1, r.2.2)
  | .cancel id q => let r := b.cancel_order id q pool; (r.2.1, r.2.2)
  | .del id => let r := b.delete_order id pool; (r.2.1, r.2.2)
  | .replace o n q pr ts => let r := b.replace_order o n q pr ts pool; (r.2.1, r.2.2)

/-- Run a sequence of mutations. -/
def runBook (b : OrderBook) (pool : Pool) : List BookOp → OrderBook × Pool
  | [] => (b, pool)
  | op :: ops =>
    let r := applyBookOp b pool op
    runBook r.1 r.2 ops

/-- Manager states reachable from construction by `get_book` calls and book
mutations applied through the stored books. -/
inductive MgrReach : OrderBookManager → Prop where
  | init : MgrReach OrderBookManager.init
  | get_book (m : OrderBookManager) (L : Nat) (b' : OrderBook) (m' : OrderBookManager) :
      MgrReach m → m.get_book L = some (b', m') → MgrReach m'
  | mutate (m : OrderBookManager) (L : Nat) (op : BookOp) (h : L < m.books.length) :
      MgrReach m →
      MgrReach (m.setBook L (applyBookOp (m.books.get ⟨L, h⟩) m.pool op).1
        (applyBookOp (m.books.get ⟨L, h⟩) m.pool op).2)

/-!
## Lemmas about the order-id index
-/

theorem lookupIdx_nil (id : Nat) : lookupIdx [] id = none := rfl

theorem lookupIdx_cons (p : Nat × Order) (os : List (Nat × Order)) (id : Nat) :
    lookupIdx (p :: os) id = if p.1 = id then some p.2 else lookupIdx os id := by
  by_cases h : p.1 = id
  · simp [lookupIdx, List.find?_cons, h]
  · simp only [lookupIdx, List.find?_cons]
    rw [show (p.1 == id) = false by simpa using h]
    simp [h]

theorem lookupIdx_eq_none_iff (os : List (Nat × Order)) (id : Nat) :
    lookupIdx os id = none ↔ ∀ p ∈ os, p.1 ≠ id := by
  induction os with
  | nil => simp [lookupIdx_nil]
  | cons p os ih =>
    rw [lookupIdx_cons]
    by_cases h : p.1 = id <;> simp [h, ih]

theorem lookupIdx_mem {os : List (Nat × Order)} {id : Nat} {o : Order}
    (h : lookupIdx os id = some o) : (id, o) ∈ os := by
  induction os with
  | nil => simp [lookupIdx_nil] at h
  | cons p os ih =>
    rw [lookupIdx_cons] at h
    by_cases hp : p.1 = id
    · rw [if_pos hp] at h
      injection h with h
      obtain ⟨k, v⟩ := p
      simp only at hp h
      subst hp
      subst h
      exact List.mem_cons_self _ _
    · rw [if_neg hp] at h
      exact List.mem_cons_of_mem _ (ih h)

theorem lookupIdx_append (os os' : List (Nat × Order)) (id : Nat) :
    lookupIdx (os ++ os') id =
      match lookupIdx os id with
      | some o => some o
      | none => lookupIdx os' id := by
  induction os with
  | nil => simp [lookupIdx_nil]
  | cons p os ih =>
    rw [List.cons_append, lookupIdx_cons, lookupIdx_cons]
    by_cases h : p.1 = id <;> simp [h, ih]

theorem lookupIdx_putIdx (os : List (Nat × Order)) (id k : Nat) (o : Order) :
    lookupIdx (putIdx os id o) k =
      match lookupIdx os k with
      | some v => some v
      | none => if id = k then some o else none := by
  rw [putIdx, lookupIdx_append]
  cases lookupIdx os k <;> simp [lookupIdx_cons, lookupIdx_nil]

theorem lookupIdx_setIdx (os : List (Nat × Order)) (id k : Nat) (o : Order) :
    lookupIdx (setIdx os id o) k =
      if k = id then (lookupIdx os id).map (fun _ => o) else lookupIdx os k := by
  induction os with
  | nil =>
    simp only [setIdx, List.map_nil, lookupIdx_nil]
    split <;> rfl
  | cons p os ih =>
    obtain ⟨a, v⟩ := p
    simp only [setIdx, List.map_cons] at ih ⊢
    by_cases h1 : a = id <;> by_cases h3 : k = id
    · subst h1; subst h3
      simp_all [lookupIdx_cons]
    · subst h1
      have h2 : ¬a = k := fun hh => h3 hh.symm
      simp_all [lookupIdx_cons]
    · subst h3
      have h2 : ¬a = k := h1
      simp_all [lookupIdx_cons]
    · by_cases h2 : a = k
      · subst h2
        simp_all [lookupIdx_cons]
      · simp_all [lookupIdx_cons]

theorem lookupIdx_removeIdx (os : List (Nat × Order)) (id k : Nat) :
    lookupIdx (removeIdx os id) k = if k = id then none else lookupIdx os k := by
  induction os with
  | nil =>
    simp only [removeIdx, List.filter_nil, lookupIdx_nil]
    split <;> rfl
  | cons p os ih =>
    obtain ⟨a, v⟩ := p
    simp only [removeIdx, List.filter_cons] at ih ⊢
    by_cases h1 : a = id <;> by_cases h3 : k = id
    · subst h1; subst h3
      simp_all [lookupIdx_cons]
    · subst h1
      have h2 : ¬a = k := fun hh => h3 hh.symm
      simp_all [lookupIdx_cons]
    · subst h3
      have h2 : ¬a = k := h1
      simp_all [lookupIdx_cons]
    · by_cases h2 : a = k
      · subst h2
        simp_all [lookupIdx_cons]
      · simp_all [lookupIdx_cons]

theorem keys_putIdx (os : List (Nat × Order)) (id : Nat) (o : Order) :
    (putIdx os id o).map Prod.fst = os.map Prod.fst ++ [id] := by
  simp [putIdx]

theorem keys_setIdx (os : List (Nat × Order)) (id : Nat) (o : Order) :
    (setIdx os id o).map Prod.fst = os.map Prod.fst := by
  unfold setIdx
  rw [List.map_map]
  refine List.map_congr_left ?_
  intro p _
  by_cases h : p.1 = id <;> simp [h]

theorem keys_removeIdx_nodup {os : List (Nat × Order)} (id : Nat)
    (h : (os.map Prod.fst).Nodup) : ((removeIdx os id).map Prod.fst).Nodup :=
  h.sublist (List.Sublist.map _ (List.filter_sublist _))

theorem lookupIdx_isSome_iff (os : List (Nat × Order)) (id : Nat) :
    (lookupIdx os id).isSome ↔ id ∈ os.map Prod.fst := by
  induction os with
  | nil => simp [lookupIdx_nil]
  | cons p os ih =>
    rw [lookupIdx_cons]
    by_cases h : p.1 = id
    · simp [h]
    · simp only [if_neg h, List.map_cons, List.mem_cons]
      rw [ih]
      constructor
      · exact Or.inr
      · rintro (h' | h')
        · exact absurd h'.symm h
        · exact h'

/-!
## Quantity sums over a level's order-id list
-/

/-- The quantity the index currently records for `oid` (0 when absent). -/
def qtyOf (os : List (Nat × Order)) (oid : Nat) : Nat :=
  ((lookupIdx os oid).map Order.quantity).getD 0

/-- Sum of indexed quantities over a list of order ids. -/
def sumQty (os : List (Nat × Order)) (ids : List Nat) : Nat :=
  (ids.map (qtyOf os)).sum

theorem sumQty_nil (os : List (Nat × Order)) : sumQty os [] = 0 := rfl

theorem sumQty_cons (os : List (Nat × Order)) (oid : Nat) (ids : List Nat) :
    sumQty os (oid :: ids) = qtyOf os oid + sumQty os ids := by
  simp [sumQty]

theorem sumQty_append_one (os : List (Nat × Order)) (ids : List Nat) (oid : Nat) :
    sumQty os (ids ++ [oid]) = sumQty os ids + qtyOf os oid := by
  simp [sumQty]

theorem sumQty_congr {os os' : List (Nat × Order)} {ids : List Nat}
    (h : ∀ oid ∈ ids, lookupIdx os' oid = lookupIdx os oid) :
    sumQty os' ids = sumQty os ids := by
  unfold sumQty
  congr 1
  exact List.map_congr_left fun oid hm => by simp [qtyOf, h oid hm]

theorem sumQty_perm (os : List (Nat × Order)) {ids ids' : List Nat}
    (h : ids.Perm ids') : sumQty os ids = sumQty os ids' :=
  (h.map (qtyOf os)).sum_eq

theorem sumQty_erase_of_mem (os : List (Nat × Order)) {ids : List Nat} {oid : Nat}
    (h : oid ∈ ids) : sumQty os ids = qtyOf os oid + sumQty os (ids.erase oid) := by
  rw [sumQty_perm os (List.perm_cons_erase h), sumQty_cons]

/-!
## Lemmas about the sorted level lists
-/

theorem findLevel_some {p : Int} {ls : List PriceLevel} {l : PriceLevel}
    (h : findLevel p ls = some l) : l ∈ ls ∧ l.price = p := by
  unfold findLevel at h
  exact ⟨List.mem_of_find?_eq_some h, by simpa using List.find?_some h⟩

theorem findLevel_eq_none {p : Int} {ls : List PriceLevel} :
    findLevel p ls = none ↔ ∀ l ∈ ls, l.price ≠ p := by
  unfold findLevel
  rw [List.find?_eq_none]
  simp

theorem findLevel_isSome {p : Int} {ls : List PriceLevel} :
    (findLevel p ls).isSome ↔ ∃ l ∈ ls, l.price = p := by
  rcases h : findLevel p ls with _ | l
  · rw [findLevel_eq_none] at h
    simpa using fun l hl hp => (h l hl) hp
  · have := findLevel_some h
    simp only [Option.isSome_some, true_iff]
    exact ⟨l, this.1, this.2⟩

theorem mem_insertLevelSorted {bef : Int → Int → Bool} {lvl x : PriceLevel}
    {ls : List PriceLevel} :
    x ∈ insertLevelSorted bef lvl ls ↔ x = lvl ∨ x ∈ ls := by
  induction ls with
  | nil => simp [insertLevelSorted]
  | cons l ls ih =>
    unfold insertLevelSorted
    by_cases h : bef lvl.price l.price <;> simp [h, ih] <;> tauto

/-- The strict-weak-order facts the two comparators provide. -/
structure BefOK (bef : Int → Int → Bool) : Prop where
  irrefl : ∀ a : Int, bef a a = false
  total : ∀ a b : Int, a ≠ b → bef a b = true ∨ bef b a = true
  trans : ∀ a b c : Int, bef a b = true → bef b c = true → bef a c = true
  asymm : ∀ a b : Int, bef a b = true → bef b a = false

theorem befBid_ok : BefOK befBid := by
  refine ⟨?_, ?_, ?_, ?_⟩ <;> intros <;> simp_all [befBid] <;> omega

theorem befAsk_ok : BefOK befAsk := by
  refine ⟨?_, ?_, ?_, ?_⟩ <;> intros <;> simp_all [befAsk] <;> omega

/-- Sortedness of a level list: pairwise comparator order on the prices. -/
def LevelsSorted (bef : Int → Int → Bool) (ls : List PriceLevel) : Prop :=
  List.Pairwise (fun a b => bef a.price b.price = true) ls

theorem LevelsSorted.insert {bef : Int → Int → Bool} (hok : BefOK bef)
    {lvl : PriceLevel} {ls : List PriceLevel}
    (hfresh : ∀ l ∈ ls, l.price ≠ lvl.price)
    (hpw : LevelsSorted bef ls) :
    LevelsSorted bef (insertLevelSorted bef lvl ls) := by
  induction ls with
  | nil => simp [insertLevelSorted, LevelsSorted]
  | cons l ls ih =>
    rw [LevelsSorted, List.pairwise_cons] at hpw
    unfold insertLevelSorted
    by_cases h : bef lvl.price l.price = true
    · rw [if_pos h]
      refine List.Pairwise.cons ?_ (List.Pairwise.cons hpw.1 hpw.2)
      intro y hy
      rcases List.mem_cons.mp hy with rfl | hy
      · exact h
      · exact hok.trans _ _ _ h (hpw.1 y hy)
    · rw [if_neg h]
      refine List.Pairwise.cons ?_
        (ih (fun l' hl' => hfresh l' (List.mem_cons_of_mem _ hl')) hpw.2)
      intro y hy
      rcases mem_insertLevelSorted.mp hy with rfl | hy
      · rcases hok.total l.price y.price
          (fun he => hfresh l (List.mem_cons_self _ _) he) with h' | h'
        · exact h'
        · exact absurd h' (by simpa using h)
      · exact hpw.1 y hy

theorem mem_modifyLevel {p : Int} {f : PriceLevel → PriceLevel} {ls : List PriceLevel}
    {x : PriceLevel} :
    x ∈ modifyLevel p f ls ↔ ∃ y ∈ ls, x = if y.price = p then f y else y := by
  unfold modifyLevel
  rw [List.mem_map]
  constructor
  · rintro ⟨y, hy, rfl⟩
    exact ⟨y, hy, by by_cases h : y.price = p <;> simp [h]⟩
  · rintro ⟨y, hy, rfl⟩
    exact ⟨y, hy, by by_cases h : y.price = p <;> simp [h]⟩

theorem LevelsSorted.modify {bef : Int → Int → Bool} {p : Int}
    {f : PriceLevel → PriceLevel} {ls : List PriceLevel}
    (hf : ∀ l, (f l).price = l.price) (hpw : LevelsSorted bef ls) :
    LevelsSorted bef (modifyLevel p f ls) := by
  unfold modifyLevel LevelsSorted
  rw [List.pairwise_map]
  refine hpw.imp ?_
  intro a b h
  have ha : (if a.price == p then f a else a).price = a.price := by
    by_cases hc : a.price = p <;> simp [hc, hf]
  have hb : (if b.price == p then f b else b).price = b.price := by
    by_cases hc : b.price = p <;> simp [hc, hf]
  rw [ha, hb]
  exact h

theorem mem_eraseLevel {p : Int} {ls : List PriceLevel} {x : PriceLevel} :
    x ∈ eraseLevel p ls ↔ x ∈ ls ∧ x.price ≠ p := by
  simp [eraseLevel, List.mem_filter]

theorem LevelsSorted.erase {bef : Int → Int → Bool} {p : Int} {ls : List PriceLevel}
    (hpw : LevelsSorted bef ls) : LevelsSorted bef (eraseLevel p ls) :=
  hpw.sublist (List.filter_sublist _)

/-- In a sorted list, prices identify levels. -/
theorem LevelsSorted.price_inj {bef : Int → Int → Bool} (hok : BefOK bef)
    {ls : List PriceLevel} (hpw : LevelsSorted bef ls) {l₁ l₂ : PriceLevel}
    (h₁ : l₁ ∈ ls) (h₂ : l₂ ∈ ls) (hp : l₁.price = l₂.price) : l₁ = l₂ := by
  induction ls with
  | nil => cases h₁
  | cons l ls ih =>
    rw [LevelsSorted, List.pairwise_cons] at hpw
    rcases List.mem_cons.mp h₁ with h₁e | h₁m
    · rcases List.mem_cons.mp h₂ with h₂e | h₂m
      · rw [h₁e, h₂e]
      · subst h₁e
        have := hpw.1 l₂ h₂m
        rw [hp] at this
        exact absurd this (by simp [hok.irrefl])
    · rcases List.mem_cons.mp h₂ with h₂e | h₂m
      · subst h₂e
        have := hpw.1 l₁ h₁m
        rw [← hp] at this
        exact absurd this (by simp [hok.irrefl])
      · exact ih hpw.2 h₁m h₂m

/-!
## Well-formedness of a book

The invariant every reachable book satisfies: sorted level lists whose
cached totals and counts agree with the indexed order records, an index
with unique keys whose records each sit in the level of their price and
side, and a BBO cache that mirrors the heads of the two level lists.
-/

/-- Per-level consistency against the index `os`. -/
structure LevelOK (os : List (Nat × Order)) (sd : Side) (lvl : PriceLevel) : Prop where
  nonempty : lvl.orders ≠ []
  nodup : lvl.orders.Nodup
  member : ∀ oid ∈ lvl.orders,
    ∃ o, lookupIdx os oid = some o ∧ o.price = lvl.price ∧ o.side = sd
  total : lvl.total_quantity = sumQty os lvl.orders
  count : lvl.order_count = lvl.orders.length

/-- One side of the book: sorted, and every level consistent. -/
structure SideInv (os : List (Nat × Order)) (sd : Side) (bef : Int → Int → Bool)
    (ls : List PriceLevel) : Prop where
  sorted : LevelsSorted bef ls
  levels : ∀ lvl ∈ ls, LevelOK os sd lvl

/-- The bid half of the BBO cache mirrors the head of `bids`. -/
def bboBidOK (b : OrderBook) : Prop :=
  match b.bids with
  | [] => b.bbo.bid_price = 0 ∧ b.bbo.bid_quantity = 0
  | best :: _ => b.bbo.bid_price = best.price ∧ b.bbo.bid_quantity = best.total_quantity

/-- The ask half of the BBO cache mirrors the head of `asks`. -/
def bboAskOK (b : OrderBook) : Prop :=
  match b.asks with
  | [] => b.bbo.ask_price = priceMax ∧ b.bbo.ask_quantity = 0
  | best :: _ => b.bbo.ask_price = best.price ∧ b.bbo.ask_quantity = best.total_quantity

/-- The level list an order of side `sd` lives in. -/
def OrderBook.sideLevels (b : OrderBook) (sd : Side) : List PriceLevel :=
  match sd with
  | Side.Buy => b.bids
  | Side.Sell => b.asks

/-- Well-formedness of a whole book. -/
structure WFBook (b : OrderBook) : Prop where
  keysNodup : (b.orders.map Prod.fst).Nodup
  bidInv : SideInv b.orders Side.Buy befBid b.bids
  askInv : SideInv b.orders Side.Sell befAsk b.asks
  inLevel : ∀ pr ∈ b.orders,
    ∃ lvl ∈ b.sideLevels pr.2.side, lvl.price = pr.2.price ∧ pr.1 ∈ lvl.orders
  bidBBO : bboBidOK b
  askBBO : bboAskOK b

theorem WFBook.init (loc : Nat) : WFBook (OrderBook.init loc) := by
  refine ⟨?_, ⟨?_, ?_⟩, ⟨?_, ?_⟩, ?_, ?_, ?_⟩ <;>
    simp [OrderBook.init, LevelsSorted, bboBidOK, bboAskOK]

theorem lookupIdx_putIdx_of_some {os : List (Nat × Order)} {k : Nat} {v : Order}
    (h : lookupIdx os k = some v) (id : Nat) (o : Order) :
    lookupIdx (putIdx os id o) k = some v := by
  rw [lookupIdx_putIdx, h]

theorem lookupIdx_putIdx_self {os : List (Nat × Order)} {id : Nat}
    (h : lookupIdx os id = none) (o : Order) :
    lookupIdx (putIdx os id o) id = some o := by
  rw [lookupIdx_putIdx, h]
  simp

/-- A `LevelOK` level only holds ids the index knows. -/
theorem LevelOK.not_mem_of_lookup_none {os : List (Nat × Order)} {sd : Side}
    {lvl : PriceLevel} (hl : LevelOK os sd lvl) {oid : Nat}
    (h : lookupIdx os oid = none) : oid ∉ lvl.orders := by
  intro hm
  obtain ⟨o, ho, -, -⟩ := hl.member oid hm
  rw [h] at ho
  cases ho

/-- An index change that does not touch the records of a side's members
preserves that side. -/
theorem SideInv.mono {os os' : List (Nat × Order)} {sd : Side}
    {bef : Int → Int → Bool} {ls : List PriceLevel} (hS : SideInv os sd bef ls)
    (hagree : ∀ lvl ∈ ls, ∀ oid ∈ lvl.orders, lookupIdx os' oid = lookupIdx os oid) :
    SideInv os' sd bef ls := by
  refine ⟨hS.sorted, ?_⟩
  intro lvl hlvl
  obtain ⟨h1, h2, h3, h4, h5⟩ := hS.levels lvl hlvl
  refine ⟨h1, h2, ?_, ?_, h5⟩
  · intro oid hoid
    obtain ⟨o, ho, hp, hs⟩ := h3 oid hoid
    exact ⟨o, (hagree lvl hlvl oid hoid).trans ho, hp, hs⟩
  · rw [h4]
    exact (sumQty_congr (hagree lvl hlvl)).symm

/-- Within one well-formed side, an id resides in at most one level. -/
theorem SideInv.mem_unique {os : List (Nat × Order)} {sd : Side}
    {bef : Int → Int → Bool} {ls : List PriceLevel} (hok : BefOK bef)
    (hS : SideInv os sd bef ls) {oid : Nat} {l₁ l₂ : PriceLevel}
    (h₁ : l₁ ∈ ls) (h₂ : l₂ ∈ ls) (hm₁ : oid ∈ l₁.orders) (hm₂ : oid ∈ l₂.orders) :
    l₁ = l₂ := by
  obtain ⟨o₁, ho₁, hp₁, -⟩ := (hS.levels l₁ h₁).member oid hm₁
  obtain ⟨o₂, ho₂, hp₂, -⟩ := (hS.levels l₂ h₂).member oid hm₂
  rw [ho₁] at ho₂
  injection ho₂ with ho₂
  exact hS.sorted.price_inj hok h₁ h₂ (by rw [← hp₁, ho₂, hp₂])

/-- `findLevel` over a price-preserving `modifyLevel`. -/
theorem findLevel_modifyLevel {p q : Int} {f : PriceLevel → PriceLevel}
    {ls : List PriceLevel} (hf : ∀ l, (f l).price = l.price) :
    findLevel p (modifyLevel q f ls) =
      (findLevel p ls).map (fun l => if l.price = q then f l else l) := by
  induction ls with
  | nil => rfl
  | cons l ls ih =>
    unfold modifyLevel findLevel at ih ⊢
    simp only [List.map_cons, List.find?_cons]
    by_cases hq : l.price = q <;> by_cases hp : l.price = p
    · rw [show ((if l.price == q then f l else l).price == p) = true by
        rw [if_pos (show (l.price == q) = true by simpa using hq), hf]
        simpa using hp]
      rw [show (l.price == p) = true by simpa using hp]
      simp [hq]
    · rw [show ((if l.price == q then f l else l).price == p) = false by
        rw [if_pos (show (l.price == q) = true by simpa using hq), hf]
        simp [hp]]
      rw [show (l.price == p) = false by simp [hp]]
      exact ih
    · rw [show ((if l.price == q then f l else l).price == p) = true by
        rw [if_neg (show ¬(l.price == q) = true by simp [hq])]
        simpa using hp]
      rw [show (l.price == p) = true by simpa using hp]
      simp [hq]
    · rw [show ((if l.price == q then f l else l).price == p) = false by
        rw [if_neg (show ¬(l.price == q) = true by simp [hq])]
        simp [hp]]
      rw [show (l.price == p) = false by simp [hp]]
      exact ih

/-- An index change that does not touch a level's members preserves
`LevelOK`. -/
theorem LevelOK.weaken {os os' : List (Nat × Order)} {sd : Side} {lvl : PriceLevel}
    (hl : LevelOK os sd lvl)
    (hagree : ∀ k ∈ lvl.orders, lookupIdx os' k = lookupIdx os k) :
    LevelOK os' sd lvl := by
  refine ⟨hl.nonempty, hl.nodup, ?_, ?_, hl.count⟩
  · intro oid hoid
    obtain ⟨o, ho, hp, hs⟩ := hl.member oid hoid
    exact ⟨o, (hagree oid hoid).trans ho, hp, hs⟩
  · rw [hl.total]
    exact (sumQty_congr hagree).symm

/-- Effect of `addToLevels` on a well-formed side. -/
theorem addToLevels_spec {os : List (Nat × Order)} {sd : Side}
    {bef : Int → Int → Bool} {ls : List PriceLevel} (hok : BefOK bef)
    (hS : SideInv os sd bef ls) (price : Int) (qty : Nat) {oid : Nat} {ord : Order}
    (hfresh : lookupIdx os oid = none)
    (hprice : ord.price = price) (hside : ord.side = sd) (hqty : ord.quantity = qty) :
    SideInv (putIdx os oid ord) sd bef (addToLevels bef price oid qty ls) ∧
    (∃ lvl ∈ addToLevels bef price oid qty ls, lvl.price = price ∧ oid ∈ lvl.orders) ∧
    (∀ lvl ∈ ls, ∃ lvl' ∈ addToLevels bef price oid qty ls,
      lvl'.price = lvl.price ∧ ∀ k ∈ lvl.orders, k ∈ lvl'.orders) := by
  have hords : lookupIdx (putIdx os oid ord) oid = some ord :=
    lookupIdx_putIdx_self hfresh ord
  have hkeep : ∀ k v, lookupIdx os k = some v →
      lookupIdx (putIdx os oid ord) k = some v :=
    fun k v h => lookupIdx_putIdx_of_some h _ _
  have hfprice : ∀ l : PriceLevel, (PriceLevel.add_order l oid qty).price = l.price :=
    fun _ => rfl
  suffices H : ∀ ls' : List PriceLevel,
      LevelsSorted bef ls' →
      (∀ y ∈ ls', y ∈ ls ∨
        y = { price := price, orders := [], total_quantity := 0, order_count := 0 }) →
      (∃ l0 ∈ ls', l0.price = price) →
      (∀ lvl ∈ ls, lvl ∈ ls') →
      SideInv (putIdx os oid ord) sd bef
        (modifyLevel price (fun l => l.add_order oid qty) ls') ∧
      (∃ lvl ∈ modifyLevel price (fun l => l.add_order oid qty) ls',
        lvl.price = price ∧ oid ∈ lvl.orders) ∧
      (∀ lvl ∈ ls, ∃ lvl' ∈ modifyLevel price (fun l => l.add_order oid qty) ls',
        lvl'.price = lvl.price ∧ ∀ k ∈ lvl.orders, k ∈ lvl'.orders) by
    unfold addToLevels
    cases hfind : findLevel price ls with
    | some l0 =>
      have hf := findLevel_some hfind
      exact H ls hS.sorted (fun y hy => Or.inl hy) ⟨l0, hf.1, hf.2⟩ (fun lvl h => h)
    | none =>
      have hfr := findLevel_eq_none.mp hfind
      refine H (insertLevelSorted bef
          { price := price, orders := [], total_quantity := 0, order_count := 0 } ls)
        (hS.sorted.insert hok (fun l hl => hfr l hl) ) ?_ ?_ ?_
      · intro y hy
        rcases mem_insertLevelSorted.mp hy with rfl | hy
        · exact Or.inr rfl
        · exact Or.inl hy
      · exact ⟨_, mem_insertLevelSorted.mpr (Or.inl rfl), rfl⟩
      · intro lvl h
        exact mem_insertLevelSorted.mpr (Or.inr h)
  intro ls' hsort hsub hex hsup
  have hagreeOf : ∀ y : PriceLevel, y ∈ ls →
      ∀ k ∈ y.orders, lookupIdx (putIdx os oid ord) k = lookupIdx os k := by
    intro y hy k hk
    obtain ⟨o, ho, -, -⟩ := (hS.levels y hy).member k hk
    rw [hkeep k o ho, ho]
  refine ⟨⟨hsort.modify hfprice, ?_⟩, ?_, ?_⟩
  · intro lvl' hlvl'
    obtain ⟨y, hy, rfl⟩ := mem_modifyLevel.mp hlvl'
    by_cases hyp : y.price = price
    · rw [if_pos hyp]
      rcases hsub y hy with hyls | rfl
      · have hY := hS.levels y hyls
        have hnotin : oid ∉ y.orders := hY.not_mem_of_lookup_none hfresh
        refine ⟨by simp [PriceLevel.add_order], ?_, ?_, ?_, ?_⟩
        · simp only [PriceLevel.add_order]
          exact List.nodup_append.mpr
            ⟨hY.nodup, List.nodup_singleton _, by simpa using hnotin⟩
        · intro k hk
          simp only [PriceLevel.add_order, List.mem_append, List.mem_singleton] at hk
          rcases hk with hk | rfl
          · obtain ⟨o, ho, hp2, hs2⟩ := hY.member k hk
            exact ⟨o, hkeep k o ho, hp2, hs2⟩
          · exact ⟨ord, hords, by simp [PriceLevel.add_order, hprice, hyp], hside⟩
        · simp only [PriceLevel.add_order, sumQty_append_one]
          rw [sumQty_congr (hagreeOf y hyls), ← hY.total]
          simp [qtyOf, hords, hqty]
        · simp [PriceLevel.add_order, hY.count]
      · refine ⟨by simp [PriceLevel.add_order], by simp [PriceLevel.add_order], ?_, ?_, ?_⟩
        · intro k hk
          simp only [PriceLevel.add_order, List.nil_append, List.mem_singleton] at hk
          subst hk
          exact ⟨ord, hords, by simp [PriceLevel.add_order, hprice], hside⟩
        · simp [PriceLevel.add_order, sumQty_cons, sumQty_nil, qtyOf, hords, hqty]
        · simp [PriceLevel.add_order]
    · rw [if_neg hyp]
      rcases hsub y hy with hyls | rfl
      · exact (hS.levels y hyls).weaken (hagreeOf y hyls)
      · exact absurd rfl hyp
  · obtain ⟨l0, hl0, hl0p⟩ := hex
    have hmem : (if l0.price = price then l0.add_order oid qty else l0) ∈
        modifyLevel price (fun l => l.add_order oid qty) ls' :=
      mem_modifyLevel.mpr ⟨l0, hl0, rfl⟩
    rw [if_pos hl0p] at hmem
    exact ⟨_, hmem, hl0p, by simp [PriceLevel.add_order]⟩
  · intro lvl hl
    have hmem : (if lvl.price = price then lvl.add_order oid qty else lvl) ∈
        modifyLevel price (fun l => l.add_order oid qty) ls' :=
      mem_modifyLevel.mpr ⟨lvl, hsup lvl hl, rfl⟩
    by_cases hp : lvl.price = price
    · rw [if_pos hp] at hmem
      exact ⟨_, hmem, rfl, fun k hk => by
        simp only [PriceLevel.add_order, List.mem_append]
        exact Or.inl hk⟩
    · rw [if_neg hp] at hmem
      exact ⟨lvl, hmem, rfl, fun k hk => hk⟩

/-- `findLevel` over `eraseLevel` at the same price. -/
theorem findLevel_eraseLevel_self {p : Int} {ls : List PriceLevel} :
    findLevel p (eraseLevel p ls) = none := by
  rw [findLevel_eq_none]
  intro l hl
  exact (mem_eraseLevel.mp hl).2

/-- Erasing the price wiped by a price-preserving `modifyLevel` ignores the
modification. -/
theorem eraseLevel_modifyLevel {p : Int} {f : PriceLevel → PriceLevel}
    {ls : List PriceLevel} (hf : ∀ l, (f l).price = l.price) :
    eraseLevel p (modifyLevel p f ls) = eraseLevel p ls := by
  unfold eraseLevel modifyLevel
  induction ls with
  | nil => rfl
  | cons l ls ih =>
    simp only [List.map_cons, List.filter_cons]
    by_cases hp : l.price = p
    · rw [show (if (l.price == p) = true then f l else l) = f l from by simp [hp]]
      rw [show (!((f l).price == p)) = false by simp [hf, hp]]
      rw [show (!(l.price == p)) = false by simp [hp]]
      simpa using ih
    · rw [show (if (l.price == p) = true then f l else l) = l from by simp [hp]]
      rw [show (!(l.price == p)) = true by simp [hp]]
      simpa using ih

theorem eq_singleton_of_length_one {l : List Nat} {a : Nat} (h : l.length = 1)
    (ha : a ∈ l) : l = [a] := by
  obtain ⟨x, rfl⟩ := List.length_eq_one.mp h
  rw [show a = x by simpa using ha]

/-- The reduced form of the resident level (both branches of
`PriceLevel::reduce_quantity`). -/
theorem reduce_quantity_eq (lvl0 : PriceLevel) (oid newQty exec : Nat) :
    lvl0.reduce_quantity oid newQty exec =
      (if newQty = 0 then
        { price := lvl0.price, orders := lvl0.orders.erase oid,
          total_quantity := lvl0.total_quantity - exec,
          order_count := lvl0.order_count - 1 }
       else
        { price := lvl0.price, orders := lvl0.orders,
          total_quantity := lvl0.total_quantity - exec,
          order_count := lvl0.order_count }) := by
  unfold PriceLevel.reduce_quantity PriceLevel.remove_order
  by_cases hz : newQty = 0 <;> simp [hz]

/-- Effect of `reduceInLevels` (the level part of `execute_order`) on a
well-formed side. -/
theorem reduceInLevels_spec {os : List (Nat × Order)} {sd : Side}
    {bef : Int → Int → Bool} {ls : List PriceLevel} (hok : BefOK bef)
    (hS : SideInv os sd bef ls) {oid : Nat} {ord : Order}
    (hlook : lookupIdx os oid = some ord) (hside : ord.side = sd)
    {lvl0 : PriceLevel} (hl0 : lvl0 ∈ ls) (hl0p : lvl0.price = ord.price)
    (hm0 : oid ∈ lvl0.orders) (exec : Nat) (hexec : exec ≤ ord.quantity) :
    SideInv
      (if ord.quantity - exec = 0 then
        removeIdx (setIdx os oid { ord with quantity := ord.quantity - exec }) oid
      else setIdx os oid { ord with quantity := ord.quantity - exec }) sd bef
      (reduceInLevels ord.price oid (ord.quantity - exec) exec ls) ∧
    reduceInLevels ord.price oid (ord.quantity - exec) exec ls =
      (if ord.quantity - exec = 0 ∧ lvl0.orders.length = 1 then eraseLevel ord.price ls
       else modifyLevel ord.price
         (fun l => l.reduce_quantity oid (ord.quantity - exec) exec) ls) ∧
    (∀ lvl ∈ ls, lvl.price ≠ ord.price →
      lvl ∈ reduceInLevels ord.price oid (ord.quantity - exec) exec ls) ∧
    (∀ k ∈ lvl0.orders, k ≠ oid →
      ∃ lvl' ∈ reduceInLevels ord.price oid (ord.quantity - exec) exec ls,
        lvl'.price = lvl0.price ∧ k ∈ lvl'.orders) ∧
    (ord.quantity - exec ≠ 0 →
      ({ price := lvl0.price, orders := lvl0.orders,
         total_quantity := lvl0.total_quantity - exec,
         order_count := lvl0.order_count } : PriceLevel) ∈
        reduceInLevels ord.price oid (ord.quantity - exec) exec ls) ∧
    (ord.quantity - exec = 0 → lvl0.orders.length ≠ 1 →
      ({ price := lvl0.price, orders := lvl0.orders.erase oid,
         total_quantity := lvl0.total_quantity - exec,
         order_count := lvl0.order_count - 1 } : PriceLevel) ∈
        reduceInLevels ord.price oid (ord.quantity - exec) exec ls) := by
  have hY0 := hS.levels lvl0 hl0
  have hLpos : 0 < lvl0.orders.length := List.length_pos.mpr hY0.nonempty
  have hfr : ∀ l : PriceLevel,
      (PriceLevel.reduce_quantity l oid (ord.quantity - exec) exec).price = l.price := by
    intro l
    rw [reduce_quantity_eq]
    split <;> rfl
  have hfind : findLevel ord.price ls = some lvl0 := by
    rcases h : findLevel ord.price ls with _ | l
    · rw [findLevel_eq_none] at h
      exact absurd hl0p (h lvl0 hl0)
    · have hf := findLevel_some h
      rw [hS.sorted.price_inj hok hf.1 hl0 (hf.2.trans hl0p.symm)]
  have hoid_only : ∀ y ∈ ls, oid ∈ y.orders → y = lvl0 := by
    intro y hy hm
    exact hS.mem_unique hok hy hl0 hm hm0
  have hprice_only : ∀ y ∈ ls, y.price = ord.price → y = lvl0 := by
    intro y hy hp
    exact hS.sorted.price_inj hok hy hl0 (hp.trans hl0p.symm)
  set os' := (if ord.quantity - exec = 0 then
      removeIdx (setIdx os oid { ord with quantity := ord.quantity - exec }) oid
    else setIdx os oid { ord with quantity := ord.quantity - exec }) with hos'
  have hagree : ∀ k, k ≠ oid → lookupIdx os' k = lookupIdx os k := by
    intro k hk
    rw [hos']
    by_cases hz : ord.quantity - exec = 0 <;>
      simp [hz, lookupIdx_removeIdx, lookupIdx_setIdx, hk]
  have hlook' : lookupIdx os' oid =
      (if ord.quantity - exec = 0 then none
       else some { ord with quantity := ord.quantity - exec }) := by
    rw [hos']
    by_cases hz : ord.quantity - exec = 0 <;>
      simp [hz, lookupIdx_removeIdx, lookupIdx_setIdx, hlook]
  have hLvlOld : ∀ y ∈ ls, y.price ≠ ord.price → LevelOK os' sd y := by
    intro y hy hyp
    refine (hS.levels y hy).weaken ?_
    intro k hk
    refine hagree k fun hke => ?_
    subst hke
    exact hyp ((hoid_only y hy hk) ▸ hl0p)
  have hagree_erase : ∀ k ∈ lvl0.orders.erase oid,
      lookupIdx os' k = lookupIdx os k := by
    intro k hk
    exact hagree k ((hY0.nodup.mem_erase_iff.mp hk).1)
  have hsplit : lvl0.total_quantity =
      ord.quantity + sumQty os (lvl0.orders.erase oid) := by
    rw [hY0.total, sumQty_erase_of_mem os hm0]
    congr 1
    simp [qtyOf, hlook]
  have hLvlRedNZ : ord.quantity - exec ≠ 0 →
      LevelOK os' sd
        { price := lvl0.price, orders := lvl0.orders,
          total_quantity := lvl0.total_quantity - exec,
          order_count := lvl0.order_count } := by
    intro hz
    refine ⟨hY0.nonempty, hY0.nodup, ?_, ?_, hY0.count⟩
    · intro k hk
      by_cases hko : k = oid
      · subst hko
        refine ⟨{ ord with quantity := ord.quantity - exec }, ?_, hl0p.symm, hside⟩
        rw [hlook', if_neg hz]
      · obtain ⟨o, ho, hp2, hs2⟩ := hY0.member k hk
        exact ⟨o, (hagree k hko).trans ho, hp2, hs2⟩
    · show lvl0.total_quantity - exec = sumQty os' lvl0.orders
      rw [sumQty_erase_of_mem os' hm0, sumQty_congr hagree_erase]
      have hq : qtyOf os' oid = ord.quantity - exec := by
        simp [qtyOf, hlook', hz]
      rw [hq]
      omega
  have hLvlRedZ : ord.quantity - exec = 0 → lvl0.orders.length ≠ 1 →
      LevelOK os' sd
        { price := lvl0.price, orders := lvl0.orders.erase oid,
          total_quantity := lvl0.total_quantity - exec,
          order_count := lvl0.order_count - 1 } := by
    intro hz hlen
    have hlene : (lvl0.orders.erase oid).length = lvl0.orders.length - 1 :=
      List.length_erase_of_mem hm0
    refine ⟨?_, hY0.nodup.erase oid, ?_, ?_, ?_⟩
    · show lvl0.orders.erase oid ≠ []
      intro hnil
      rw [hnil] at hlene
      simp only [List.length_nil] at hlene
      omega
    · intro k hk
      have hko := hY0.nodup.mem_erase_iff.mp hk
      obtain ⟨o, ho, hp2, hs2⟩ := hY0.member k hko.2
      exact ⟨o, (hagree k hko.1).trans ho, hp2, hs2⟩
    · show lvl0.total_quantity - exec = sumQty os' (lvl0.orders.erase oid)
      rw [sumQty_congr hagree_erase]
      omega
    · show lvl0.order_count - 1 = (lvl0.orders.erase oid).length
      rw [hlene, hY0.count]
  have hresult : reduceInLevels ord.price oid (ord.quantity - exec) exec ls =
      (if ord.quantity - exec = 0 ∧ lvl0.orders.length = 1 then eraseLevel ord.price ls
       else modifyLevel ord.price
         (fun l => l.reduce_quantity oid (ord.quantity - exec) exec) ls) := by
    unfold reduceInLevels
    rw [hfind]
    dsimp only
    rw [findLevel_modifyLevel hfr, hfind]
    rw [show Option.map (fun l => if l.price = ord.price then
          l.reduce_quantity oid (ord.quantity - exec) exec else l) (some lvl0) =
        some (if lvl0.price = ord.price then
          lvl0.reduce_quantity oid (ord.quantity - exec) exec else lvl0) from rfl]
    rw [if_pos hl0p]
    rw [reduce_quantity_eq]
    by_cases hz : ord.quantity - exec = 0
    · rw [if_pos hz]
      dsimp only
      by_cases hlen : lvl0.orders.length = 1
      · have hcnt : ({ price := lvl0.price, orders := lvl0.orders.erase oid,
                       total_quantity := lvl0.total_quantity - exec,
                       order_count := lvl0.order_count - 1 } : PriceLevel).order_count = 0 := by
          show lvl0.order_count - 1 = 0
          rw [hY0.count]
          omega
        rw [if_pos hcnt, if_pos ⟨hz, hlen⟩]
        exact eraseLevel_modifyLevel hfr
      · have hcnt : ¬({ price := lvl0.price, orders := lvl0.orders.erase oid,
                        total_quantity := lvl0.total_quantity - exec,
                        order_count := lvl0.order_count - 1 } : PriceLevel).order_count = 0 := by
          show ¬lvl0.order_count - 1 = 0
          rw [hY0.count]
          omega
        rw [if_neg hcnt, if_neg (fun h => hlen h.2)]
    · rw [if_neg hz]
      dsimp only
      have hcnt : ¬({ price := lvl0.price, orders := lvl0.orders,
                      total_quantity := lvl0.total_quantity - exec,
                      order_count := lvl0.order_count } : PriceLevel).order_count = 0 := by
        show ¬lvl0.order_count = 0
        rw [hY0.count]
        omega
      rw [if_neg hcnt, if_neg (fun h => hz h.1)]
  refine ⟨⟨?_, ?_⟩, hresult, ?_, ?_, ?_, ?_⟩
  · rw [hresult]
    split
    · exact hS.sorted.erase
    · exact hS.sorted.modify hfr
  · rw [hresult]
    intro lvl' hlvl'
    by_cases hcase : ord.quantity - exec = 0 ∧ lvl0.orders.length = 1
    · rw [if_pos hcase] at hlvl'
      obtain ⟨hmem, hne⟩ := mem_eraseLevel.mp hlvl'
      exact hLvlOld lvl' hmem hne
    · rw [if_neg hcase] at hlvl'
      obtain ⟨y, hy, rfl⟩ := mem_modifyLevel.mp hlvl'
      by_cases hyp : y.price = ord.price
      · rw [if_pos hyp]
        rw [hprice_only y hy hyp, reduce_quantity_eq]
        by_cases hz : ord.quantity - exec = 0
        · rw [if_pos hz]
          exact hLvlRedZ hz (fun hlen => hcase ⟨hz, hlen⟩)
        · rw [if_neg hz]
          exact hLvlRedNZ hz
      · rw [if_neg hyp]
        exact hLvlOld y hy hyp
  · intro lvl hl hlp
    rw [hresult]
    split
    · exact mem_eraseLevel.mpr ⟨hl, hlp⟩
    · have hmem : (if lvl.price = ord.price then
          lvl.reduce_quantity oid (ord.quantity - exec) exec else lvl) ∈
          modifyLevel ord.price
            (fun l => l.reduce_quantity oid (ord.quantity - exec) exec) ls :=
        mem_modifyLevel.mpr ⟨lvl, hl, rfl⟩
      rwa [if_neg hlp] at hmem
  · intro k hk hko
    rw [hresult]
    by_cases hcase : ord.quantity - exec = 0 ∧ lvl0.orders.length = 1
    · exfalso
      have hsingle := eq_singleton_of_length_one hcase.2 hm0
      rw [hsingle] at hk
      simp only [List.mem_singleton] at hk
      exact hko hk
    · rw [if_neg hcase]
      have hmem : (if lvl0.price = ord.price then
          lvl0.reduce_quantity oid (ord.quantity - exec) exec else lvl0) ∈
          modifyLevel ord.price
            (fun l => l.reduce_quantity oid (ord.quantity - exec) exec) ls :=
        mem_modifyLevel.mpr ⟨lvl0, hl0, rfl⟩
      rw [if_pos hl0p, reduce_quantity_eq] at hmem
      by_cases hz : ord.quantity - exec = 0
      · rw [if_pos hz] at hmem
        refine ⟨_, hmem, rfl, ?_⟩
        show k ∈ lvl0.orders.erase oid
        exact hY0.nodup.mem_erase_iff.mpr ⟨hko, hk⟩
      · rw [if_neg hz] at hmem
        exact ⟨_, hmem, rfl, hk⟩
  · intro hz
    rw [hresult, if_neg (fun h => hz h.1)]
    have hmem : (if lvl0.price = ord.price then
        lvl0.reduce_quantity oid (ord.quantity - exec) exec else lvl0) ∈
        modifyLevel ord.price
          (fun l => l.reduce_quantity oid (ord.quantity - exec) exec) ls :=
      mem_modifyLevel.mpr ⟨lvl0, hl0, rfl⟩
    rw [if_pos hl0p, reduce_quantity_eq, if_neg hz] at hmem
    exact hmem
  · intro hz hlen
    rw [hresult, if_neg (fun h => hlen h.2)]
    have hmem : (if lvl0.price = ord.price then
        lvl0.reduce_quantity oid (ord.quantity - exec) exec else lvl0) ∈
        modifyLevel ord.price
          (fun l => l.reduce_quantity oid (ord.quantity - exec) exec) ls :=
      mem_modifyLevel.mpr ⟨lvl0, hl0, rfl⟩
    rw [if_pos hl0p, reduce_quantity_eq, if_pos hz] at hmem
    exact hmem

/-- Effect of `removeInLevels` (the level part of `delete_order`) on a
well-formed side. -/
theorem removeInLevels_spec {os : List (Nat × Order)} {sd : Side}
    {bef : Int → Int → Bool} {ls : List PriceLevel} (hok : BefOK bef)
    (hS : SideInv os sd bef ls) {oid : Nat} {ord : Order}
    (hlook : lookupIdx os oid = some ord) (hside : ord.side = sd)
    {lvl0 : PriceLevel} (hl0 : lvl0 ∈ ls) (hl0p : lvl0.price = ord.price)
    (hm0 : oid ∈ lvl0.orders) :
    SideInv (removeIdx os oid) sd bef
      (removeInLevels ord.price oid ord.quantity ls) ∧
    removeInLevels ord.price oid ord.quantity ls =
      (if lvl0.orders.length = 1 then eraseLevel ord.price ls
       else modifyLevel ord.price
         (fun l => l.remove_order oid ord.quantity) ls) ∧
    (∀ lvl ∈ ls, lvl.price ≠ ord.price →
      lvl ∈ removeInLevels ord.price oid ord.quantity ls) ∧
    (∀ k ∈ lvl0.orders, k ≠ oid →
      ∃ lvl' ∈ removeInLevels ord.price oid ord.quantity ls,
        lvl'.price = lvl0.price ∧ k ∈ lvl'.orders) ∧
    (lvl0.orders.length ≠ 1 →
      ({ price := lvl0.price, orders := lvl0.orders.erase oid,
         total_quantity := lvl0.total_quantity - ord.quantity,
         order_count := lvl0.order_count - 1 } : PriceLevel) ∈
        removeInLevels ord.price oid ord.quantity ls) := by
  have hY0 := hS.levels lvl0 hl0
  have hLpos : 0 < lvl0.orders.length := List.length_pos.mpr hY0.nonempty
  have hfr : ∀ l : PriceLevel,
      (PriceLevel.remove_order l oid ord.quantity).price = l.price := fun _ => rfl
  have hfind : findLevel ord.price ls = some lvl0 := by
    rcases h : findLevel ord.price ls with _ | l
    · rw [findLevel_eq_none] at h
      exact absurd hl0p (h lvl0 hl0)
    · have hf := findLevel_some h
      rw [hS.sorted.price_inj hok hf.1 hl0 (hf.2.trans hl0p.symm)]
  have hoid_only : ∀ y ∈ ls, oid ∈ y.orders → y = lvl0 := by
    intro y hy hm
    exact hS.mem_unique hok hy hl0 hm hm0
  have hprice_only : ∀ y ∈ ls, y.price = ord.price → y = lvl0 := by
    intro y hy hp
    exact hS.sorted.price_inj hok hy hl0 (hp.trans hl0p.symm)
  have hagree : ∀ k, k ≠ oid → lookupIdx (removeIdx os oid) k = lookupIdx os k := by
    intro k hk
    simp [lookupIdx_removeIdx, hk]
  have hLvlOld : ∀ y ∈ ls, y.price ≠ ord.price → LevelOK (removeIdx os oid) sd y := by
    intro y hy hyp
    refine (hS.levels y hy).weaken ?_
    intro k hk
    refine hagree k fun hke => ?_
    subst hke
    exact hyp ((hoid_only y hy hk) ▸ hl0p)
  have hagree_erase : ∀ k ∈ lvl0.orders.erase oid,
      lookupIdx (removeIdx os oid) k = lookupIdx os k := by
    intro k hk
    exact hagree k ((hY0.nodup.mem_erase_iff.mp hk).1)
  have hsplit : lvl0.total_quantity =
      ord.quantity + sumQty os (lvl0.orders.erase oid) := by
    rw [hY0.total, sumQty_erase_of_mem os hm0]
    congr 1
    simp [qtyOf, hlook]
  have hLvlRed : lvl0.orders.length ≠ 1 →
      LevelOK (removeIdx os oid) sd
        { price := lvl0.price, orders := lvl0.orders.erase oid,
          total_quantity := lvl0.total_quantity - ord.quantity,
          order_count := lvl0.order_count - 1 } := by
    intro hlen
    have hlene : (lvl0.orders.erase oid).length = lvl0.orders.length - 1 :=
      List.length_erase_of_mem hm0
    refine ⟨?_, hY0.nodup.erase oid, ?_, ?_, ?_⟩
    · show lvl0.orders.erase oid ≠ []
      intro hnil
      rw [hnil] at hlene
      simp only [List.length_nil] at hlene
      omega
    · intro k hk
      have hko := hY0.nodup.mem_erase_iff.mp hk
      obtain ⟨o, ho, hp2, hs2⟩ := hY0.member k hko.2
      exact ⟨o, (hagree k hko.1).trans ho, hp2, hs2⟩
    · show lvl0.total_quantity - ord.quantity = sumQty (removeIdx os oid) (lvl0.orders.erase oid)
      rw [sumQty_congr hagree_erase]
      omega
    · show lvl0.order_count - 1 = (lvl0.orders.erase oid).length
      rw [hlene, hY0.count]
  have hremeq : PriceLevel.remove_order lvl0 oid ord.quantity =
      { price := lvl0.price, orders := lvl0.orders.erase oid,
        total_quantity := lvl0.total_quantity - ord.quantity,
        order_count := lvl0.order_count - 1 } := rfl
  have hresult : removeInLevels ord.price oid ord.quantity ls =
      (if lvl0.orders.length = 1 then eraseLevel ord.price ls
       else modifyLevel ord.price (fun l => l.remove_order oid ord.quantity) ls) := by
    unfold removeInLevels
    rw [hfind]
    dsimp only
    rw [findLevel_modifyLevel hfr, hfind]
    rw [show Option.map (fun l => if l.price = ord.price then
          l.remove_order oid ord.quantity else l) (some lvl0) =
        some (if lvl0.price = ord.price then
          lvl0.remove_order oid ord.quantity else lvl0) from rfl]
    rw [if_pos hl0p, hremeq]
    dsimp only
    by_cases hlen : lvl0.orders.length = 1
    · have hcnt : lvl0.order_count - 1 = 0 := by
        rw [hY0.count]
        omega
      rw [if_pos hcnt, if_pos hlen]
      exact eraseLevel_modifyLevel hfr
    · have hcnt : ¬lvl0.order_count - 1 = 0 := by
        rw [hY0.count]
        omega
      rw [if_neg hcnt, if_neg hlen]
  refine ⟨⟨?_, ?_⟩, hresult, ?_, ?_, ?_⟩
  · rw [hresult]
    split
    · exact hS.sorted.erase
    · exact hS.sorted.modify hfr
  · rw [hresult]
    intro lvl' hlvl'
    by_cases hlen : lvl0.orders.length = 1
    · rw [if_pos hlen] at hlvl'
      obtain ⟨hmem, hne⟩ := mem_eraseLevel.mp hlvl'
      exact hLvlOld lvl' hmem hne
    · rw [if_neg hlen] at hlvl'
      obtain ⟨y, hy, rfl⟩ := mem_modifyLevel.mp hlvl'
      by_cases hyp : y.price = ord.price
      · rw [if_pos hyp]
        rw [hprice_only y hy hyp, hremeq]
        exact hLvlRed hlen
      · rw [if_neg hyp]
        exact hLvlOld y hy hyp
  · intro lvl hl hlp
    rw [hresult]
    split
    · exact mem_eraseLevel.mpr ⟨hl, hlp⟩
    · have hmem : (if lvl.price = ord.price then
          lvl.remove_order oid ord.quantity else lvl) ∈
          modifyLevel ord.price (fun l => l.remove_order oid ord.quantity) ls :=
        mem_modifyLevel.mpr ⟨lvl, hl, rfl⟩
      rwa [if_neg hlp] at hmem
  · intro k hk hko
    rw [hresult]
    by_cases hlen : lvl0.orders.length = 1
    · exfalso
      have hsingle := eq_singleton_of_length_one hlen hm0
      rw [hsingle] at hk
      simp only [List.mem_singleton] at hk
      exact hko hk
    · rw [if_neg hlen]
      have hmem : (if lvl0.price = ord.price then
          lvl0.remove_order oid ord.quantity else lvl0) ∈
          modifyLevel ord.price (fun l => l.remove_order oid ord.quantity) ls :=
        mem_modifyLevel.mpr ⟨lvl0, hl0, rfl⟩
      rw [if_pos hl0p, hremeq] at hmem
      refine ⟨_, hmem, rfl, ?_⟩
      show k ∈ lvl0.orders.erase oid
      exact hY0.nodup.mem_erase_iff.mpr ⟨hko, hk⟩
  · intro hlen
    rw [hresult, if_neg hlen]
    have hmem : (if lvl0.price = ord.price then
        lvl0.remove_order oid ord.quantity else lvl0) ∈
        modifyLevel ord.price (fun l => l.remove_order oid ord.quantity) ls :=
      mem_modifyLevel.mpr ⟨lvl0, hl0, rfl⟩
    rw [if_pos hl0p, hremeq] at hmem
    exact hmem

/-!
## Book-level preservation of well-formedness
-/

@[simp]
theorem update_best_bid_bids (b : OrderBook) : b.update_best_bid.bids = b.bids := by
  unfold OrderBook.update_best_bid
  cases b.bids <;> rfl

@[simp]
theorem update_best_bid_asks (b : OrderBook) : b.update_best_bid.asks = b.asks := by
  unfold OrderBook.update_best_bid
  cases b.bids <;> rfl

@[simp]
theorem update_best_bid_orders (b : OrderBook) :
    b.update_best_bid.orders = b.orders := by
  unfold OrderBook.update_best_bid
  cases b.bids <;> rfl

@[simp]
theorem update_best_bid_order_count (b : OrderBook) :
    b.update_best_bid.order_count = b.order_count := by
  unfold OrderBook.update_best_bid
  cases b.bids <;> rfl

@[simp]
theorem update_best_bid_ask_price (b : OrderBook) :
    b.update_best_bid.bbo.ask_price = b.bbo.ask_price := by
  unfold OrderBook.update_best_bid
  cases b.bids <;> rfl

@[simp]
theorem update_best_bid_ask_quantity (b : OrderBook) :
    b.update_best_bid.bbo.ask_quantity = b.bbo.ask_quantity := by
  unfold OrderBook.update_best_bid
  cases b.bids <;> rfl

@[simp]
theorem update_best_ask_bids (b : OrderBook) : b.update_best_ask.bids = b.bids := by
  unfold OrderBook.update_best_ask
  cases b.asks <;> rfl

@[simp]
theorem update_best_ask_asks (b : OrderBook) : b.update_best_ask.asks = b.asks := by
  unfold OrderBook.update_best_ask
  cases b.asks <;> rfl

@[simp]
theorem update_best_ask_orders (b : OrderBook) :
    b.update_best_ask.orders = b.orders := by
  unfold OrderBook.update_best_ask
  cases b.asks <;> rfl

@[simp]
theorem update_best_ask_order_count (b : OrderBook) :
    b.update_best_ask.order_count = b.order_count := by
  unfold OrderBook.update_best_ask
  cases b.asks <;> rfl

@[simp]
theorem update_best_ask_bid_price (b : OrderBook) :
    b.update_best_ask.bbo.bid_price = b.bbo.bid_price := by
  unfold OrderBook.update_best_ask
  cases b.asks <;> rfl

@[simp]
theorem update_best_ask_bid_quantity (b : OrderBook) :
    b.update_best_ask.bbo.bid_quantity = b.bbo.bid_quantity := by
  unfold OrderBook.update_best_ask
  cases b.asks <;> rfl

theorem bboBidOK_update_best_bid (b : OrderBook) : bboBidOK b.update_best_bid := by
  unfold bboBidOK OrderBook.update_best_bid
  cases b.bids <;> simp

theorem bboAskOK_update_best_ask (b : OrderBook) : bboAskOK b.update_best_ask := by
  unfold bboAskOK OrderBook.update_best_ask
  cases b.asks <;> simp

theorem bboAskOK_update_best_bid {b : OrderBook} (h : bboAskOK b) :
    bboAskOK b.update_best_bid := by
  unfold bboAskOK at h ⊢
  rw [update_best_bid_asks]
  cases hA : b.asks with
  | nil =>
    rw [hA] at h
    simpa using h
  | cons best rest =>
    rw [hA] at h
    simpa using h

theorem bboBidOK_update_best_ask {b : OrderBook} (h : bboBidOK b) :
    bboBidOK b.update_best_ask := by
  unfold bboBidOK at h ⊢
  rw [update_best_ask_bids]
  cases hA : b.bids with
  | nil =>
    rw [hA] at h
    simpa using h
  | cons best rest =>
    rw [hA] at h
    simpa using h

theorem is_buy_iff {sd : Side} : is_buy sd = true ↔ sd = Side.Buy := by
  cases sd <;> simp [is_buy]

theorem not_is_buy_iff {sd : Side} : is_buy sd = false ↔ sd = Side.Sell := by
  cases sd <;> simp [is_buy]

/-- `add_order` on a duplicate id is a complete no-op. -/
theorem add_order_duplicate {b : OrderBook} {id : Nat} {o : Order}
    (h : lookupIdx b.orders id = some o) (sd : Side) (pr : Int) (q ts : Nat)
    (pool : Pool) : b.add_order id sd pr q ts pool = (none, b, pool) := by
  unfold OrderBook.add_order
  rw [h]

/-- `add_order` preserves well-formedness. -/
theorem WFBook.add_order {b : OrderBook} (hW : WFBook b) (id : Nat) (sd : Side)
    (pr : Int) (q ts : Nat) (pool : Pool) :
    WFBook (b.add_order id sd pr q ts pool).2.1 := by
  rcases hl : lookupIdx b.orders id with _ | o
  swap
  · rw [add_order_duplicate hl]
    exact hW
  unfold OrderBook.add_order
  rw [hl]
  dsimp only
  have hfreshkey : id ∉ b.orders.map Prod.fst := by
    intro hmem
    have := (lookupIdx_isSome_iff b.orders id).mpr hmem
    rw [hl] at this
    cases this
  have hkeys : ((putIdx b.orders id
      { order_id := id, price := pr, quantity := q, original_qty := q,
        stock_locate := b.stock_locate, side := sd, timestamp := ts }).map
        Prod.fst).Nodup := by
    rw [keys_putIdx]
    exact List.nodup_append.mpr
      ⟨hW.keysNodup, List.nodup_singleton _, by simpa using hfreshkey⟩
  cases sd with
  | Buy =>
    rw [if_pos (is_buy_iff.mpr rfl)]
    have hspec := addToLevels_spec befBid_ok hW.bidInv pr q hl
      (show ({ order_id := id, price := pr, quantity := q, original_qty := q,
               stock_locate := b.stock_locate, side := Side.Buy,
               timestamp := ts } : Order).price = pr from rfl)
      rfl rfl
    have haskInv : SideInv (putIdx b.orders id
        { order_id := id, price := pr, quantity := q, original_qty := q,
          stock_locate := b.stock_locate, side := Side.Buy, timestamp := ts })
        Side.Sell befAsk b.asks := by
      refine hW.askInv.mono ?_
      intro lvl hlvl k hk
      obtain ⟨v, hv, -, -⟩ := (hW.askInv.levels lvl hlvl).member k hk
      rw [lookupIdx_putIdx_of_some hv, hv]
    refine ⟨by simpa using hkeys, ?_, ?_, ?_, ?_, ?_⟩
    · simpa using hspec.1
    · simpa using haskInv
    · intro p hp
      simp only [update_best_bid_orders] at hp
      rcases List.mem_append.mp hp with hp | hp
      · have hIn := hW.inLevel p hp
        cases hps : p.2.side with
        | Buy =>
          rw [hps] at hIn
          obtain ⟨lvl, hlvl, hlp, hlm⟩ := hIn
          obtain ⟨lvl', hlvl', hlp', hsub⟩ := hspec.2.2 lvl hlvl
          refine ⟨lvl', ?_, hlp'.trans hlp, hsub p.1 hlm⟩
          show lvl' ∈ _
          simp only [OrderBook.sideLevels, hps]
          simpa using hlvl'
        | Sell =>
          rw [hps] at hIn
          obtain ⟨lvl, hlvl, hlp, hlm⟩ := hIn
          refine ⟨lvl, ?_, hlp, hlm⟩
          simp only [OrderBook.sideLevels, hps]
          simpa using hlvl
      · simp only [List.mem_singleton] at hp
        subst hp
        obtain ⟨lvl', hlvl', hlp', hm'⟩ := hspec.2.1
        refine ⟨lvl', ?_, hlp', hm'⟩
        simp only [OrderBook.sideLevels]
        simpa using hlvl'
    · show bboBidOK _
      unfold bboBidOK
      have := bboBidOK_update_best_bid
        { b with
          orders := putIdx b.orders id
            { order_id := id, price := pr, quantity := q, original_qty := q,
              stock_locate := b.stock_locate, side := Side.Buy, timestamp := ts }
          bids := addToLevels befBid pr id q b.bids }
      unfold bboBidOK at this
      exact this
    · show bboAskOK _
      have := bboAskOK_update_best_bid (b :=
        { b with
          orders := putIdx b.orders id
            { order_id := id, price := pr, quantity := q, original_qty := q,
              stock_locate := b.stock_locate, side := Side.Buy, timestamp := ts }
          bids := addToLevels befBid pr id q b.bids }) (by
        unfold bboAskOK
        exact hW.askBBO)
      unfold bboAskOK at this ⊢
      exact this
  | Sell =>
    rw [if_neg (by simp [is_buy])]
    have hspec := addToLevels_spec befAsk_ok hW.askInv pr q hl
      (show ({ order_id := id, price := pr, quantity := q, original_qty := q,
               stock_locate := b.stock_locate, side := Side.Sell,
               timestamp := ts } : Order).price = pr from rfl)
      rfl rfl
    have hbidInv : SideInv (putIdx b.orders id
        { order_id := id, price := pr, quantity := q, original_qty := q,
          stock_locate := b.stock_locate, side := Side.Sell, timestamp := ts })
        Side.Buy befBid b.bids := by
      refine hW.bidInv.mono ?_
      intro lvl hlvl k hk
      obtain ⟨v, hv, -, -⟩ := (hW.bidInv.levels lvl hlvl).member k hk
      rw [lookupIdx_putIdx_of_some hv, hv]
    refine ⟨by simpa using hkeys, ?_, ?_, ?_, ?_, ?_⟩
    · simpa using hbidInv
    · simpa using hspec.1
    · intro p hp
      simp only [update_best_ask_orders] at hp
      rcases List.mem_append.mp hp with hp | hp
      · have hIn := hW.inLevel p hp
        cases hps : p.2.side with
        | Sell =>
          rw [hps] at hIn
          obtain ⟨lvl, hlvl, hlp, hlm⟩ := hIn
          obtain ⟨lvl', hlvl', hlp', hsub⟩ := hspec.2.2 lvl hlvl
          refine ⟨lvl', ?_, hlp'.trans hlp, hsub p.1 hlm⟩
          simp only [OrderBook.sideLevels, hps]
          simpa using hlvl'
        | Buy =>
          rw [hps] at hIn
          obtain ⟨lvl, hlvl, hlp, hlm⟩ := hIn
          refine ⟨lvl, ?_, hlp, hlm⟩
          simp only [OrderBook.sideLevels, hps]
          simpa using hlvl
      · simp only [List.mem_singleton] at hp
        subst hp
        obtain ⟨lvl', hlvl', hlp', hm'⟩ := hspec.2.1
        refine ⟨lvl', ?_, hlp', hm'⟩
        simp only [OrderBook.sideLevels]
        simpa using hlvl'
    · show bboBidOK _
      have := bboBidOK_update_best_ask (b :=
        { b with
          orders := putIdx b.orders id
            { order_id := id, price := pr, quantity := q, original_qty := q,
              stock_locate := b.stock_locate, side := Side.Sell, timestamp := ts }
          asks := addToLevels befAsk pr id q b.asks }) (by
        unfold bboBidOK
        exact hW.bidBBO)
      unfold bboBidOK at this ⊢
      exact this
    · show bboAskOK _
      have := bboAskOK_update_best_ask
        { b with
          orders := putIdx b.orders id
            { order_id := id, price := pr, quantity := q, original_qty := q,
              stock_locate := b.stock_locate, side := Side.Sell, timestamp := ts }
          asks := addToLevels befAsk pr id q b.asks }
      unfold bboAskOK at this
      exact this

theorem mem_setIdx {os : List (Nat × Order)} {id : Nat} {o : Order} {p : Nat × Order} :
    p ∈ setIdx os id o ↔ ∃ q ∈ os, p = if q.1 = id then (q.1, o) else q := by
  unfold setIdx
  rw [List.mem_map]
  constructor
  · rintro ⟨q, hq, rfl⟩
    refine ⟨q, hq, ?_⟩
    by_cases h : q.1 = id <;> simp [h]
  · rintro ⟨q, hq, rfl⟩
    refine ⟨q, hq, ?_⟩
    by_cases h : q.1 = id <;> simp [h]

theorem mem_removeIdx {os : List (Nat × Order)} {id : Nat} {p : Nat × Order} :
    p ∈ removeIdx os id ↔ p ∈ os ∧ p.1 ≠ id := by
  simp [removeIdx, List.mem_filter]

theorem lookupIdx_eq_of_mem {os : List (Nat × Order)} (hnd : (os.map Prod.fst).Nodup)
    {k : Nat} {v : Order} (hmem : (k, v) ∈ os) : lookupIdx os k = some v := by
  induction os with
  | nil => cases hmem
  | cons p os ih =>
    rw [lookupIdx_cons]
    simp only [List.map_cons, List.nodup_cons] at hnd
    rcases List.mem_cons.mp hmem with heq | hmem'
    · rw [← heq]
      simp
    · by_cases h : p.1 = k
      · exfalso
        apply hnd.1
        rw [h]
        exact List.mem_map.mpr ⟨(k, v), hmem', rfl⟩
      · rw [if_neg h]
        exact ih hnd.2 hmem'

theorem bboBidOK_transfer {b' c : OrderBook} (hb : b'.bids = c.bids)
    (ho : b'.bbo = c.bbo) (h : bboBidOK c) : bboBidOK b' := by
  unfold bboBidOK at h ⊢
  rw [hb, ho]
  exact h

theorem bboAskOK_transfer {b' c : OrderBook} (hb : b'.asks = c.asks)
    (ho : b'.bbo = c.bbo) (h : bboAskOK c) : bboAskOK b' := by
  unfold bboAskOK at h ⊢
  rw [hb, ho]
  exact h

/-- `execute_order` preserves well-formedness. -/
theorem WFBook.execute_order {b : OrderBook} (hW : WFBook b) (id q : Nat)
    (pool : Pool) : WFBook (b.execute_order id q pool).2.1 := by
  rcases hl : lookupIdx b.orders id with _ | ord
  · unfold OrderBook.execute_order
    rw [hl]
    exact hW
  unfold OrderBook.execute_order
  rw [hl]
  dsimp only
  have hpair : (id, ord) ∈ b.orders := lookupIdx_mem hl
  have hIn := hW.inLevel (id, ord) hpair
  have hexec : min q ord.quantity ≤ ord.quantity := min_le_right _ _
  cases hsd : ord.side with
  | Buy =>
    rw [if_pos (show is_buy Side.Buy = true from rfl)]
    simp only [OrderBook.sideLevels, hsd] at hIn
    obtain ⟨lvl0, hlvl0, hl0p, hm0⟩ := hIn
    have hspec := reduceInLevels_spec befBid_ok hW.bidInv hl hsd hlvl0 hl0p hm0
      (min q ord.quantity) hexec
    rw [hsd] at hspec
    have haskAgree : ∀ lvl ∈ b.asks, ∀ k ∈ lvl.orders, k ≠ id := by
      intro lvl hlvl k hk hke
      subst hke
      obtain ⟨o, ho, -, hos⟩ := (hW.askInv.levels lvl hlvl).member k hk
      rw [hl] at ho
      injection ho with ho
      rw [← ho] at hos
      rw [hsd] at hos
      cases hos
    have hInCommon : ∀ p0 ∈ b.orders, p0.1 ≠ id →
        ∃ lvl ∈ (match p0.2.side with
          | Side.Buy => reduceInLevels ord.price id
              (ord.quantity - min q ord.quantity) (min q ord.quantity) b.bids
          | Side.Sell => b.asks),
          lvl.price = p0.2.price ∧ p0.1 ∈ lvl.orders := by
      intro p0 hp0 hp0ne
      have hInOld := hW.inLevel p0 hp0
      cases hps : p0.2.side with
      | Buy =>
        rw [hps] at hInOld
        obtain ⟨lvl, hlvl, hlp, hlm⟩ := hInOld
        simp only [OrderBook.sideLevels] at hlvl
        by_cases hlpr : lvl.price = ord.price
        · have : lvl = lvl0 :=
            hW.bidInv.sorted.price_inj befBid_ok hlvl hlvl0 (hlpr.trans hl0p.symm)
          subst this
          obtain ⟨lvl', hlvl', hlp', hm'⟩ := hspec.2.2.2.1 p0.1 hlm hp0ne
          exact ⟨lvl', hlvl', hlp'.trans hlp, hm'⟩
        · exact ⟨lvl, hspec.2.2.1 lvl hlvl hlpr, hlp, hlm⟩
      | Sell =>
        rw [hps] at hInOld
        obtain ⟨lvl, hlvl, hlp, hlm⟩ := hInOld
        simp only [OrderBook.sideLevels] at hlvl
        exact ⟨lvl, hlvl, hlp, hlm⟩
    by_cases hz : ord.quantity - min q ord.quantity = 0
    · rw [if_pos hz]
      dsimp only
      have hbid := hspec.1
      rw [if_pos hz] at hbid
      refine ⟨?_, ?_, ?_, ?_, ?_, ?_⟩
      · simp only [update_best_bid_orders]
        exact keys_removeIdx_nodup id (by rw [keys_setIdx]; exact hW.keysNodup)
      · simp only [update_best_bid_bids, update_best_bid_orders]
        exact hbid
      · simp only [update_best_bid_asks, update_best_bid_orders]
        refine hW.askInv.mono ?_
        intro lvl hlvl k hk
        have hkne := haskAgree lvl hlvl k hk
        rw [lookupIdx_removeIdx, if_neg hkne, lookupIdx_setIdx, if_neg hkne]
      · simp only [update_best_bid_orders, update_best_bid_bids,
          update_best_bid_asks, OrderBook.sideLevels]
        intro p hp
        obtain ⟨hp1, hp2⟩ := mem_removeIdx.mp hp
        obtain ⟨p0, hp0, hpe⟩ := mem_setIdx.mp hp1
        have hp0ne : p0.1 ≠ id := by
          intro h
          rw [hpe] at hp2
          rw [if_pos h] at hp2
          exact hp2 h
        rw [if_neg hp0ne] at hpe
        rw [hpe]
        exact hInCommon p0 hp0 hp0ne
      · exact bboBidOK_transfer (c := OrderBook.update_best_bid _) rfl rfl
          (bboBidOK_update_best_bid _)
      · refine bboAskOK_transfer (c := OrderBook.update_best_bid _) rfl rfl
          (bboAskOK_update_best_bid ?_)
        unfold bboAskOK
        exact hW.askBBO
    · rw [if_neg hz]
      dsimp only
      have hbid := hspec.1
      rw [if_neg hz] at hbid
      refine ⟨?_, ?_, ?_, ?_, ?_, ?_⟩
      · simp only [update_best_bid_orders]
        rw [keys_setIdx]
        exact hW.keysNodup
      · simp only [update_best_bid_bids, update_best_bid_orders]
        exact hbid
      · simp only [update_best_bid_asks, update_best_bid_orders]
        refine hW.askInv.mono ?_
        intro lvl hlvl k hk
        have hkne := haskAgree lvl hlvl k hk
        rw [lookupIdx_setIdx, if_neg hkne]
      · simp only [update_best_bid_orders, update_best_bid_bids,
          update_best_bid_asks, OrderBook.sideLevels]
        intro p hp
        obtain ⟨p0, hp0, hpe⟩ := mem_setIdx.mp hp
        by_cases hp0id : p0.1 = id
        · rw [if_pos hp0id] at hpe
          subst hpe
          dsimp only
          have hred := hspec.2.2.2.2.1 hz
          exact ⟨_, hred, hl0p, by rw [hp0id]; exact hm0⟩
        · rw [if_neg hp0id] at hpe
          rw [hpe]
          exact hInCommon p0 hp0 hp0id
      · exact bboBidOK_transfer (c := OrderBook.update_best_bid _) rfl rfl
          (bboBidOK_update_best_bid _)
      · refine bboAskOK_transfer (c := OrderBook.update_best_bid _) rfl rfl
          (bboAskOK_update_best_bid ?_)
        unfold bboAskOK
        exact hW.askBBO
  | Sell =>
    rw [if_neg (show ¬is_buy Side.Sell = true by simp [is_buy])]
    simp only [OrderBook.sideLevels, hsd] at hIn
    obtain ⟨lvl0, hlvl0, hl0p, hm0⟩ := hIn
    have hspec := reduceInLevels_spec befAsk_ok hW.askInv hl hsd hlvl0 hl0p hm0
      (min q ord.quantity) hexec
    rw [hsd] at hspec
    have hbidAgree : ∀ lvl ∈ b.bids, ∀ k ∈ lvl.orders, k ≠ id := by
      intro lvl hlvl k hk hke
      subst hke
      obtain ⟨o, ho, -, hos⟩ := (hW.bidInv.levels lvl hlvl).member k hk
      rw [hl] at ho
      injection ho with ho
      rw [← ho] at hos
      rw [hsd] at hos
      cases hos
    have hInCommon : ∀ p0 ∈ b.orders, p0.1 ≠ id →
        ∃ lvl ∈ (match p0.2.side with
          | Side.Buy => b.bids
          | Side.Sell => reduceInLevels ord.price id
              (ord.quantity - min q ord.quantity) (min q ord.quantity) b.asks),
          lvl.price = p0.2.price ∧ p0.1 ∈ lvl.orders := by
      intro p0 hp0 hp0ne
      have hInOld := hW.inLevel p0 hp0
      cases hps : p0.2.side with
      | Sell =>
        rw [hps] at hInOld
        obtain ⟨lvl, hlvl, hlp, hlm⟩ := hInOld
        simp only [OrderBook.sideLevels] at hlvl
        by_cases hlpr : lvl.price = ord.price
        · have : lvl = lvl0 :=
            hW.askInv.sorted.price_inj befAsk_ok hlvl hlvl0 (hlpr.trans hl0p.symm)
          subst this
          obtain ⟨lvl', hlvl', hlp', hm'⟩ := hspec.2.2.2.1 p0.1 hlm hp0ne
          exact ⟨lvl', hlvl', hlp'.trans hlp, hm'⟩
        · exact ⟨lvl, hspec.2.2.1 lvl hlvl hlpr, hlp, hlm⟩
      | Buy =>
        rw [hps] at hInOld
        obtain ⟨lvl, hlvl, hlp, hlm⟩ := hInOld
        simp only [OrderBook.sideLevels] at hlvl
        exact ⟨lvl, hlvl, hlp, hlm⟩
    by_cases hz : ord.quantity - min q ord.quantity = 0
    · rw [if_pos hz]
      dsimp only
      have hask := hspec.1
      rw [if_pos hz] at hask
      refine ⟨?_, ?_, ?_, ?_, ?_, ?_⟩
      · simp only [update_best_ask_orders]
        exact keys_removeIdx_nodup id (by rw [keys_setIdx]; exact hW.keysNodup)
      · simp only [update_best_ask_bids, update_best_ask_orders]
        refine hW.bidInv.mono ?_
        intro lvl hlvl k hk
        have hkne := hbidAgree lvl hlvl k hk
        rw [lookupIdx_removeIdx, if_neg hkne, lookupIdx_setIdx, if_neg hkne]
      · simp only [update_best_ask_asks, update_best_ask_orders]
        exact hask
      · simp only [update_best_ask_orders, update_best_ask_bids,
          update_best_ask_asks, OrderBook.sideLevels]
        intro p hp
        obtain ⟨hp1, hp2⟩ := mem_removeIdx.mp hp
        obtain ⟨p0, hp0, hpe⟩ := mem_setIdx.mp hp1
        have hp0ne : p0.1 ≠ id := by
          intro h
          rw [hpe] at hp2
          rw [if_pos h] at hp2
          exact hp2 h
        rw [if_neg hp0ne] at hpe
        rw [hpe]
        exact hInCommon p0 hp0 hp0ne
      · refine bboBidOK_transfer (c := OrderBook.update_best_ask _) rfl rfl
          (bboBidOK_update_best_ask ?_)
        unfold bboBidOK
        exact hW.bidBBO
      · exact bboAskOK_transfer (c := OrderBook.update_best_ask _) rfl rfl
          (bboAskOK_update_best_ask _)
    · rw [if_neg hz]
      dsimp only
      have hask := hspec.1
      rw [if_neg hz] at hask
      refine ⟨?_, ?_, ?_, ?_, ?_, ?_⟩
      · simp only [update_best_ask_orders]
        rw [keys_setIdx]
        exact hW.keysNodup
      · simp only [update_best_ask_bids, update_best_ask_orders]
        refine hW.bidInv.mono ?_
        intro lvl hlvl k hk
        have hkne := hbidAgree lvl hlvl k hk
        rw [lookupIdx_setIdx, if_neg hkne]
      · simp only [update_best_ask_asks, update_best_ask_orders]
        exact hask
      · simp only [update_best_ask_orders, update_best_ask_bids,
          update_best_ask_asks, OrderBook.sideLevels]
        intro p hp
        obtain ⟨p0, hp0, hpe⟩ := mem_setIdx.mp hp
        by_cases hp0id : p0.1 = id
        · rw [if_pos hp0id] at hpe
          subst hpe
          dsimp only
          have hred := hspec.2.2.2.2.1 hz
          exact ⟨_, hred, hl0p, by rw [hp0id]; exact hm0⟩
        · rw [if_neg hp0id] at hpe
          rw [hpe]
          exact hInCommon p0 hp0 hp0id
      · refine bboBidOK_transfer (c := OrderBook.update_best_ask _) rfl rfl
          (bboBidOK_update_best_ask ?_)
        unfold bboBidOK
        exact hW.bidBBO
      · exact bboAskOK_transfer (c := OrderBook.update_best_ask _) rfl rfl
          (bboAskOK_update_best_ask _)

/-- `delete_order` preserves well-formedness. -/
theorem WFBook.delete_order {b : OrderBook} (hW : WFBook b) (id : Nat)
    (pool : Pool) : WFBook (b.delete_order id pool).2.1 := by
  rcases hl : lookupIdx b.orders id with _ | ord
  · unfold OrderBook.delete_order
    rw [hl]
    exact hW
  unfold OrderBook.delete_order
  rw [hl]
  dsimp only
  have hpair : (id, ord) ∈ b.orders := lookupIdx_mem hl
  have hIn := hW.inLevel (id, ord) hpair
  cases hsd : ord.side with
  | Buy =>
    rw [if_pos (show is_buy Side.Buy = true from rfl)]
    simp only [OrderBook.sideLevels, hsd] at hIn
    obtain ⟨lvl0, hlvl0, hl0p, hm0⟩ := hIn
    have hspec := removeInLevels_spec befBid_ok hW.bidInv hl hsd hlvl0 hl0p hm0
    have haskAgree : ∀ lvl ∈ b.asks, ∀ k ∈ lvl.orders, k ≠ id := by
      intro lvl hlvl k hk hke
      subst hke
      obtain ⟨o, ho, -, hos⟩ := (hW.askInv.levels lvl hlvl).member k hk
      rw [hl] at ho
      injection ho with ho
      rw [← ho] at hos
      rw [hsd] at hos
      cases hos
    refine ⟨?_, ?_, ?_, ?_, ?_, ?_⟩
    · simp only [update_best_bid_orders]
      exact keys_removeIdx_nodup id hW.keysNodup
    · simp only [update_best_bid_bids, update_best_bid_orders]
      exact hspec.1
    · simp only [update_best_bid_asks, update_best_bid_orders]
      refine hW.askInv.mono ?_
      intro lvl hlvl k hk
      have hkne := haskAgree lvl hlvl k hk
      rw [lookupIdx_removeIdx, if_neg hkne]
    · simp only [update_best_bid_orders, update_best_bid_bids,
        update_best_bid_asks, OrderBook.sideLevels]
      intro p hp
      obtain ⟨hp0, hpne⟩ := mem_removeIdx.mp hp
      have hInOld := hW.inLevel p hp0
      cases hps : p.2.side with
      | Buy =>
        rw [hps] at hInOld
        obtain ⟨lvl, hlvl, hlp, hlm⟩ := hInOld
        simp only [OrderBook.sideLevels] at hlvl
        by_cases hlpr : lvl.price = ord.price
        · have : lvl = lvl0 :=
            hW.bidInv.sorted.price_inj befBid_ok hlvl hlvl0 (hlpr.trans hl0p.symm)
          subst this
          obtain ⟨lvl', hlvl', hlp', hm'⟩ := hspec.2.2.2.1 p.1 hlm hpne
          exact ⟨lvl', hlvl', hlp'.trans hlp, hm'⟩
        · exact ⟨lvl, hspec.2.2.1 lvl hlvl hlpr, hlp, hlm⟩
      | Sell =>
        rw [hps] at hInOld
        obtain ⟨lvl, hlvl, hlp, hlm⟩ := hInOld
        simp only [OrderBook.sideLevels] at hlvl
        exact ⟨lvl, hlvl, hlp, hlm⟩
    · exact bboBidOK_transfer (c := OrderBook.update_best_bid _) rfl rfl
        (bboBidOK_update_best_bid _)
    · refine bboAskOK_transfer (c := OrderBook.update_best_bid _) rfl rfl
        (bboAskOK_update_best_bid ?_)
      unfold bboAskOK
      exact hW.askBBO
  | Sell =>
    rw [if_neg (show ¬is_buy Side.Sell = true by simp [is_buy])]
    simp only [OrderBook.sideLevels, hsd] at hIn
    obtain ⟨lvl0, hlvl0, hl0p, hm0⟩ := hIn
    have hspec := removeInLevels_spec befAsk_ok hW.askInv hl hsd hlvl0 hl0p hm0
    have hbidAgree : ∀ lvl ∈ b.bids, ∀ k ∈ lvl.orders, k ≠ id := by
      intro lvl hlvl k hk hke
      subst hke
      obtain ⟨o, ho, -, hos⟩ := (hW.bidInv.levels lvl hlvl).member k hk
      rw [hl] at ho
      injection ho with ho
      rw [← ho] at hos
      rw [hsd] at hos
      cases hos
    refine ⟨?_, ?_, ?_, ?_, ?_, ?_⟩
    · simp only [update_best_ask_orders]
      exact keys_removeIdx_nodup id hW.keysNodup
    · simp only [update_best_ask_bids, update_best_ask_orders]
      refine hW.bidInv.mono ?_
      intro lvl hlvl k hk
      have hkne := hbidAgree lvl hlvl k hk
      rw [lookupIdx_removeIdx, if_neg hkne]
    · simp only [update_best_ask_asks, update_best_ask_orders]
      exact hspec.1
    · simp only [update_best_ask_orders, update_best_ask_bids,
        update_best_ask_asks, OrderBook.sideLevels]
      intro p hp
      obtain ⟨hp0, hpne⟩ := mem_removeIdx.mp hp
      have hInOld := hW.inLevel p hp0
      cases hps : p.2.side with
      | Sell =>
        rw [hps] at hInOld
        obtain ⟨lvl, hlvl, hlp, hlm⟩ := hInOld
        simp only [OrderBook.sideLevels] at hlvl
        by_cases hlpr : lvl.price = ord.price
        · have : lvl = lvl0 :=
            hW.askInv.sorted.price_inj befAsk_ok hlvl hlvl0 (hlpr.trans hl0p.symm)
          subst this
          obtain ⟨lvl', hlvl', hlp', hm'⟩ := hspec.2.2.2.1 p.1 hlm hpne
          exact ⟨lvl', hlvl', hlp'.trans hlp, hm'⟩
        · exact ⟨lvl, hspec.2.2.1 lvl hlvl hlpr, hlp, hlm⟩
      | Buy =>
        rw [hps] at hInOld
        obtain ⟨lvl, hlvl, hlp, hlm⟩ := hInOld
        simp only [OrderBook.sideLevels] at hlvl
        exact ⟨lvl, hlvl, hlp, hlm⟩
    · refine bboBidOK_transfer (c := OrderBook.update_best_ask _) rfl rfl
        (bboBidOK_update_best_ask ?_)
      unfold bboBidOK
      exact hW.bidBBO
    · exact bboAskOK_transfer (c := OrderBook.update_best_ask _) rfl rfl
        (bboAskOK_update_best_ask _)

/-- `cancel_order` preserves well-formedness (it delegates to `execute_order`). -/
theorem WFBook.cancel_order {b : OrderBook} (hW : WFBook b) (id q : Nat)
    (pool : Pool) : WFBook (b.cancel_order id q pool).2.1 :=
  hW.execute_order id q pool

/-- `replace_order` preserves well-formedness. -/
theorem WFBook.replace_order {b : OrderBook} (hW : WFBook b)
    (oldId newId q : Nat) (p : Int) (ts : Nat) (pool : Pool) :
    WFBook (b.replace_order oldId newId q p ts pool).2.1 := by
  rcases hl : lookupIdx b.orders oldId with _ | ord
  · unfold OrderBook.replace_order
    rw [hl]
    exact hW
  unfold OrderBook.replace_order
  rw [hl]
  dsimp only
  exact (hW.delete_order oldId pool).add_order newId ord.side p q ts _

/-- `applyBookOp` preserves well-formedness. -/
theorem WFBook_applyBookOp {b : OrderBook} (hW : WFBook b) (op : BookOp)
    (pool : Pool) : WFBook (applyBookOp b pool op).1 := by
  cases op with
  | add id sd p q ts => exact hW.add_order id sd p q ts pool
  | exec id q => exact hW.execute_order id q pool
  | cancel id q => exact hW.cancel_order id q pool
  | del id => exact hW.delete_order id pool
  | replace o n q p ts => exact hW.replace_order o n q p ts pool

/-- `runBook` preserves well-formedness. -/
theorem WFBook_runBook {b : OrderBook} (hW : WFBook b) (ops : List BookOp)
    (pool : Pool) : WFBook (runBook b pool ops).1 := by
  induction ops generalizing b pool with
  | nil => exact hW
  | cons op rest ih =>
    unfold runBook
    exact ih (WFBook_applyBookOp hW op pool) (applyBookOp b pool op).2

/-!
## Book mutations never change the stored locate
-/

theorem stock_locate_update_best_bid (b : OrderBook) :
    b.update_best_bid.stock_locate = b.stock_locate := by
  unfold OrderBook.update_best_bid
  cases b.bids <;> rfl

theorem stock_locate_update_best_ask (b : OrderBook) :
    b.update_best_ask.stock_locate = b.stock_locate := by
  unfold OrderBook.update_best_ask
  cases b.asks <;> rfl

theorem stock_locate_add_order (b : OrderBook) (id : Nat) (sd : Side) (pr : Int)
    (q ts : Nat) (pool : Pool) :
    ((b.add_order id sd pr q ts pool).2.1).stock_locate = b.stock_locate := by
  unfold OrderBook.add_order
  cases h : lookupIdx b.orders id
  · cases hb : is_buy sd <;>
      simp [hb, stock_locate_update_best_bid, stock_locate_update_best_ask]
  · rfl

theorem stock_locate_execute_order (b : OrderBook) (id q : Nat) (pool : Pool) :
    ((b.execute_order id q pool).2.1).stock_locate = b.stock_locate := by
  unfold OrderBook.execute_order
  cases h : lookupIdx b.orders id
  · rfl
  · rename_i ord
    by_cases hz : ord.quantity - min q ord.quantity = 0 <;>
      cases hb : is_buy ord.side <;>
        simp [hb, hz, stock_locate_update_best_bid, stock_locate_update_best_ask]

theorem stock_locate_delete_order (b : OrderBook) (id : Nat) (pool : Pool) :
    ((b.delete_order id pool).2.1).stock_locate = b.stock_locate := by
  unfold OrderBook.delete_order
  cases h : lookupIdx b.orders id
  · rfl
  · rename_i ord
    cases hb : is_buy ord.side <;>
      simp [hb, stock_locate_update_best_bid, stock_locate_update_best_ask]

theorem stock_locate_replace_order (b : OrderBook) (o n q : Nat) (pr : Int)
    (ts : Nat) (pool : Pool) :
    ((b.replace_order o n q pr ts pool).2.1).stock_locate = b.stock_locate := by
  unfold OrderBook.replace_order
  cases h : lookupIdx b.orders o
  · rfl
  · simp [stock_locate_add_order, stock_locate_delete_order]

theorem stock_locate_applyBookOp (b : OrderBook) (pool : Pool) (op : BookOp) :
    ((applyBookOp b pool op).1).stock_locate = b.stock_locate := by
  cases op <;>
    simp [applyBookOp, OrderBook.cancel_order, stock_locate_add_order,
      stock_locate_execute_order, stock_locate_delete_order, stock_locate_replace_order]

/-!
## C3 — execute and cancel semantics
-/

/-- C3: for every well-formed book state, `execute_order(id, qty)` returns 0 and
leaves the book unchanged when `id` is absent; when `id` is present it returns
`exec = min(qty, record.quantity)`, reduces the record and its level by `exec`
(erasing the level if it empties), removes the record from the index, decrements
the order count and releases the record to the pool exactly when its quantity
reaches 0, leaves every other index entry untouched, recomputes the BBO on the
affected side while leaving the opposite side's levels and BBO fields unchanged;
and `cancel_order` has semantics identical to `execute_order`. -/
theorem C3_execute_cancel_semantics (b : OrderBook) (hW : WFBook b) (id q : Nat)
    (pool : Pool) :
    b.cancel_order id q pool = b.execute_order id q pool ∧
    (lookupIdx b.orders id = none → b.execute_order id q pool = (0, b, pool)) ∧
    (∀ ord, lookupIdx b.orders id = some ord →
      (b.execute_order id q pool).1 = min q ord.quantity ∧
      (lookupIdx (b.execute_order id q pool).2.1.orders id =
        if ord.quantity - min q ord.quantity = 0 then none
        else some { ord with quantity := ord.quantity - min q ord.quantity }) ∧
      (∀ k, k ≠ id → lookupIdx (b.execute_order id q pool).2.1.orders k =
        lookupIdx b.orders k) ∧
      ((b.execute_order id q pool).2.1.order_count =
        if ord.quantity - min q ord.quantity = 0 then b.order_count - 1
        else b.order_count) ∧
      ((b.execute_order id q pool).2.2 =
        if ord.quantity - min q ord.quantity = 0 then
          pool.release { ord with quantity := ord.quantity - min q ord.quantity }
        else pool) ∧
      (∃ lvl0 ∈ b.sideLevels ord.side, lvl0.price = ord.price ∧ id ∈ lvl0.orders ∧
        (b.execute_order id q pool).2.1.sideLevels ord.side =
          (if ord.quantity - min q ord.quantity = 0 ∧ lvl0.orders.length = 1 then
            eraseLevel ord.price (b.sideLevels ord.side)
          else
            modifyLevel ord.price
              (fun l => l.reduce_quantity id (ord.quantity - min q ord.quantity)
                (min q ord.quantity)) (b.sideLevels ord.side))) ∧
      (match ord.side with
        | Side.Buy =>
            (b.execute_order id q pool).2.1.asks = b.asks ∧
            (b.execute_order id q pool).2.1.bbo.ask_price = b.bbo.ask_price ∧
            (b.execute_order id q pool).2.1.bbo.ask_quantity = b.bbo.ask_quantity ∧
            bboBidOK (b.execute_order id q pool).2.1
        | Side.Sell =>
            (b.execute_order id q pool).2.1.bids = b.bids ∧
            (b.execute_order id q pool).2.1.bbo.bid_price = b.bbo.bid_price ∧
            (b.execute_order id q pool).2.1.bbo.bid_quantity = b.bbo.bid_quantity ∧
            bboAskOK (b.execute_order id q pool).2.1)) := by
  refine ⟨rfl, ?_, ?_⟩
  · intro hl
    unfold OrderBook.execute_order
    rw [hl]
  · intro ord hl
    unfold OrderBook.execute_order
    rw [hl]
    dsimp only
    have hpair : (id, ord) ∈ b.orders := lookupIdx_mem hl
    have hIn := hW.inLevel (id, ord) hpair
    have hexec : min q ord.quantity ≤ ord.quantity := min_le_right _ _
    cases hsd : ord.side with
    | Buy =>
      rw [if_pos (show is_buy Side.Buy = true from rfl)]
      simp only [OrderBook.sideLevels, hsd] at hIn
      obtain ⟨lvl0, hlvl0, hl0p, hm0⟩ := hIn
      have hspec := reduceInLevels_spec befBid_ok hW.bidInv hl hsd hlvl0 hl0p hm0
        (min q ord.quantity) hexec
      by_cases hz : ord.quantity - min q ord.quantity = 0
      · rw [if_pos hz]
        dsimp only
        refine ⟨rfl, ?_, ?_, ?_, ?_, ?_, ?_⟩
        · simp only [update_best_bid_orders]
          rw [lookupIdx_removeIdx, if_pos rfl, if_pos hz]
        · intro k hk
          simp only [update_best_bid_orders]
          rw [lookupIdx_removeIdx, if_neg hk, lookupIdx_setIdx, if_neg hk]
        · rw [if_pos hz]
          simp only [update_best_bid_order_count]
        · rw [if_pos hz]
        · refine ⟨lvl0, hlvl0, hl0p, hm0, ?_⟩
          simp only [OrderBook.sideLevels, update_best_bid_bids]
          exact hspec.2.1
        · refine ⟨?_, ?_, ?_, ?_⟩
          · simp only [update_best_bid_asks]
          · simp only [update_best_bid_ask_price]
          · simp only [update_best_bid_ask_quantity]
          · exact bboBidOK_transfer (c := OrderBook.update_best_bid _) rfl rfl
              (bboBidOK_update_best_bid _)
      · rw [if_neg hz]
        dsimp only
        refine ⟨rfl, ?_, ?_, ?_, ?_, ?_, ?_⟩
        · simp only [update_best_bid_orders]
          rw [lookupIdx_setIdx, if_pos rfl, hl, if_neg hz]
          rfl
        · intro k hk
          simp only [update_best_bid_orders]
          rw [lookupIdx_setIdx, if_neg hk]
        · rw [if_neg hz]
          simp only [update_best_bid_order_count]
        · rw [if_neg hz]
        · refine ⟨lvl0, hlvl0, hl0p, hm0, ?_⟩
          simp only [OrderBook.sideLevels, update_best_bid_bids]
          exact hspec.2.1
        · refine ⟨?_, ?_, ?_, ?_⟩
          · simp only [update_best_bid_asks]
          · simp only [update_best_bid_ask_price]
          · simp only [update_best_bid_ask_quantity]
          · exact bboBidOK_transfer (c := OrderBook.update_best_bid _) rfl rfl
              (bboBidOK_update_best_bid _)
    | Sell =>
      rw [if_neg (show ¬is_buy Side.Sell = true by simp [is_buy])]
      simp only [OrderBook.sideLevels, hsd] at hIn
      obtain ⟨lvl0, hlvl0, hl0p, hm0⟩ := hIn
      have hspec := reduceInLevels_spec befAsk_ok hW.askInv hl hsd hlvl0 hl0p hm0
        (min q ord.quantity) hexec
      by_cases hz : ord.quantity - min q ord.quantity = 0
      · rw [if_pos hz]
        dsimp only
        refine ⟨rfl, ?_, ?_, ?_, ?_, ?_, ?_⟩
        · simp only [update_best_ask_orders]
          rw [lookupIdx_removeIdx, if_pos rfl, if_pos hz]
        · intro k hk
          simp only [update_best_ask_orders]
          rw [lookupIdx_removeIdx, if_neg hk, lookupIdx_setIdx, if_neg hk]
        · rw [if_pos hz]
          simp only [update_best_ask_order_count]
        · rw [if_pos hz]
        · refine ⟨lvl0, hlvl0, hl0p, hm0, ?_⟩
          simp only [OrderBook.sideLevels, update_best_ask_asks]
          exact hspec.2.1
        · refine ⟨?_, ?_, ?_, ?_⟩
          · simp only [update_best_ask_bids]
          · simp only [update_best_ask_bid_price]
          · simp only [update_best_ask_bid_quantity]
          · exact bboAskOK_transfer (c := OrderBook.update_best_ask _) rfl rfl
              (bboAskOK_update_best_ask _)
      · rw [if_neg hz]
        dsimp only
        refine ⟨rfl, ?_, ?_, ?_, ?_, ?_, ?_⟩
        · simp only [update_best_ask_orders]
          rw [lookupIdx_setIdx, if_pos rfl, hl, if_neg hz]
          rfl
        · intro k hk
          simp only [update_best_ask_orders]
          rw [lookupIdx_setIdx, if_neg hk]
        · rw [if_neg hz]
          simp only [update_best_ask_order_count]
        · rw [if_neg hz]
        · refine ⟨lvl0, hlvl0, hl0p, hm0, ?_⟩
          simp only [OrderBook.sideLevels, update_best_ask_asks]
          exact hspec.2.1
        · refine ⟨?_, ?_, ?_, ?_⟩
          · simp only [update_best_ask_bids]
          · simp only [update_best_ask_bid_price]
          · simp only [update_best_ask_bid_quantity]
          · exact bboAskOK_transfer (c := OrderBook.update_best_ask _) rfl rfl
              (bboAskOK_update_best_ask _)

/-- C3 witness: execute 200 shares against a resting buy order of 500 shares in
a concrete book; the call returns 200 and the record keeps 300 shares. -/
theorem C3_witness :
    (((OrderBook.init 7).add_order 1001 Side.Buy 1500000 500 0
        Pool.init).2.1.execute_order 1001 200 Pool.init).1 = 200 ∧
    lookupIdx (((OrderBook.init 7).add_order 1001 Side.Buy 1500000 500 0
        Pool.init).2.1.execute_order 1001 200 Pool.init).2.1.orders 1001 =
      some { order_id := 1001, price := 1500000, quantity := 300,
             original_qty := 500, stock_locate := 7, side := Side.Buy,
             timestamp := 0 } := by
  have h := C3_execute_cancel_semantics
    ((OrderBook.init 7).add_order 1001 Side.Buy 1500000 500 0 Pool.init).2.1
    ((WFBook.init 7).add_order 1001 Side.Buy 1500000 500 0 Pool.init)
    1001 200 Pool.init
  have hl : lookupIdx ((OrderBook.init 7).add_order 1001 Side.Buy 1500000 500 0
      Pool.init).2.1.orders 1001 =
      some { order_id := 1001, price := 1500000, quantity := 500,
             original_qty := 500, stock_locate := 7, side := Side.Buy,
             timestamp := 0 } := by decide
  obtain ⟨h1, h2, -⟩ := h.2.2 _ hl
  refine ⟨h1.trans (by decide), h2.trans (by decide)⟩

/-!
## C4 — replace semantics
-/

theorem delete_order_lookup {b : OrderBook} {id : Nat} {ord : Order}
    (hl : lookupIdx b.orders id = some ord) (pool : Pool) (k : Nat) :
    lookupIdx (b.delete_order id pool).2.1.orders k =
      if k = id then none else lookupIdx b.orders k := by
  unfold OrderBook.delete_order
  rw [hl]
  dsimp only
  by_cases hb : is_buy ord.side = true
  · rw [if_pos hb]
    simp only [update_best_bid_orders]
    rw [lookupIdx_removeIdx]
  · rw [if_neg hb]
    simp only [update_best_ask_orders]
    rw [lookupIdx_removeIdx]

/-- C4 counterexample: with orders 1001 and 1002 both live on the bid side,
`replace_order(1001, 1002, 750, 150, …)` deletes 1001 and then fails the
insertion because 1002 already exists, so no order with price 150 and quantity
750 is created: the book retains 1002's old price and quantity. -/
theorem C4_counterexample :
    (fun r : Option Order × OrderBook × Pool =>
      r.1 = none ∧
      lookupIdx r.2.1.orders 1001 = none ∧
      lookupIdx r.2.1.orders 1002 =
        some { order_id := 1002, price := 200, quantity := 7, original_qty := 7,
               stock_locate := 7, side := Side.Buy, timestamp := 1 })
      ((((OrderBook.init 7).add_order 1001 Side.Buy 100 5 0 Pool.init).2.1.add_order
          1002 Side.Buy 200 7 1 Pool.init).2.1.replace_order 1001 1002 750 150 2
          Pool.init) := by
  refine ⟨by decide, by decide, by decide⟩

/-- C4 (amended): when the book is well-formed, `old_id` is live and `new_id`
is absent from the index, `replace_order(old_id, new_id, new_qty, new_price, ts)`
removes `old_id`, inserts an order under `new_id` with price `new_price`,
quantity `new_qty` and the remembered side of the old order, and leaves the BBO
recomputed against the updated sides; when `old_id` is absent it returns failure
and the book is unchanged.  (The unamended claim is false when `new_id` is
already live: the insertion fails after the deletion.) -/
theorem C4_replace_order (b : OrderBook) (hW : WFBook b)
    (oldId newId q : Nat) (p : Int) (ts : Nat) (pool : Pool) :
    (lookupIdx b.orders oldId = none →
      b.replace_order oldId newId q p ts pool = (none, b, pool)) ∧
    (∀ ord, lookupIdx b.orders oldId = some ord →
      lookupIdx b.orders newId = none →
      (b.replace_order oldId newId q p ts pool).1 =
        some { order_id := newId, price := p, quantity := q, original_qty := q,
               stock_locate := b.stock_locate, side := ord.side,
               timestamp := ts } ∧
      lookupIdx (b.replace_order oldId newId q p ts pool).2.1.orders oldId =
        none ∧
      lookupIdx (b.replace_order oldId newId q p ts pool).2.1.orders newId =
        some { order_id := newId, price := p, quantity := q, original_qty := q,
               stock_locate := b.stock_locate, side := ord.side,
               timestamp := ts } ∧
      bboBidOK (b.replace_order oldId newId q p ts pool).2.1 ∧
      bboAskOK (b.replace_order oldId newId q p ts pool).2.1) := by
  constructor
  · intro hl
    unfold OrderBook.replace_order
    rw [hl]
  · intro ord hlold hlnew
    have hne : newId ≠ oldId := by
      intro h
      rw [h, hlold] at hlnew
      cases hlnew
    have h1 : (b.delete_order oldId pool).1 = true := by
      unfold OrderBook.delete_order
      rw [hlold]
    have hsplit : b.delete_order oldId pool =
        (true, (b.delete_order oldId pool).2.1, (b.delete_order oldId pool).2.2) := by
      rw [← h1]
    have hlnew' : lookupIdx (b.delete_order oldId pool).2.1.orders newId = none := by
      rw [delete_order_lookup hlold pool newId, if_neg hne]
      exact hlnew
    refine ⟨?_, ?_, ?_, (hW.replace_order oldId newId q p ts pool).bidBBO,
      (hW.replace_order oldId newId q p ts pool).askBBO⟩
    · unfold OrderBook.replace_order
      rw [hlold]
      dsimp only
      rw [hsplit]
      dsimp only
      unfold OrderBook.add_order
      rw [hlnew']
      dsimp only
      rw [stock_locate_delete_order]
    · unfold OrderBook.replace_order
      rw [hlold]
      dsimp only
      rw [hsplit]
      dsimp only
      unfold OrderBook.add_order
      rw [hlnew']
      dsimp only
      by_cases hbuy : is_buy ord.side = true
      · rw [if_pos hbuy]
        simp only [update_best_bid_orders]
        rw [lookupIdx_putIdx, delete_order_lookup hlold pool oldId, if_pos rfl]
        dsimp only
        rw [if_neg hne]
      · rw [if_neg hbuy]
        simp only [update_best_ask_orders]
        rw [lookupIdx_putIdx, delete_order_lookup hlold pool oldId, if_pos rfl]
        dsimp only
        rw [if_neg hne]
    · unfold OrderBook.replace_order
      rw [hlold]
      dsimp only
      rw [hsplit]
      dsimp only
      unfold OrderBook.add_order
      rw [hlnew']
      dsimp only
      by_cases hbuy : is_buy ord.side = true
      · rw [if_pos hbuy]
        simp only [update_best_bid_orders]
        rw [lookupIdx_putIdx, hlnew']
        dsimp only
        rw [if_pos rfl, stock_locate_delete_order]
      · rw [if_neg hbuy]
        simp only [update_best_ask_orders]
        rw [lookupIdx_putIdx, hlnew']
        dsimp only
        rw [if_pos rfl, stock_locate_delete_order]

/-- C4 witness: replacing live order 1001 by the absent id 1002 in a concrete
one-order book installs the new price, quantity and remembered side under 1002
and removes 1001. -/
theorem C4_witness :
    lookupIdx (((OrderBook.init 7).add_order 1001 Side.Buy 1500000 500 0
        Pool.init).2.1.replace_order 1001 1002 750 1505000 2 Pool.init).2.1.orders
      1001 = none ∧
    lookupIdx (((OrderBook.init 7).add_order 1001 Side.Buy 1500000 500 0
        Pool.init).2.1.replace_order 1001 1002 750 1505000 2 Pool.init).2.1.orders
      1002 =
      some { order_id := 1002, price := 1505000, quantity := 750,
             original_qty := 750, stock_locate := 7, side := Side.Buy,
             timestamp := 2 } := by
  have h := (C4_replace_order
    ((OrderBook.init 7).add_order 1001 Side.Buy 1500000 500 0 Pool.init).2.1
    ((WFBook.init 7).add_order 1001 Side.Buy 1500000 500 0 Pool.init)
    1001 1002 750 1505000 2 Pool.init).2
    { order_id := 1001, price := 1500000, quantity := 500, original_qty := 500,
      stock_locate := 7, side := Side.Buy, timestamp := 0 }
    (by decide) (by decide)
  exact ⟨h.2.1, h.2.2.1.trans (by decide)⟩

/-!
## C8 — add / delete / add roundtrip
-/

theorem BBO_ext {x y : BBO} (h1 : x.bid_price = y.bid_price)
    (h2 : x.ask_price = y.ask_price) (h3 : x.bid_quantity = y.bid_quantity)
    (h4 : x.ask_quantity = y.ask_quantity) : x = y := by
  cases x
  cases y
  simp_all

theorem OrderBook_ext {x y : OrderBook} (h1 : x.stock_locate = y.stock_locate)
    (h2 : x.bids = y.bids) (h3 : x.asks = y.asks) (h4 : x.orders = y.orders)
    (h5 : x.bbo = y.bbo) (h6 : x.order_count = y.order_count) : x = y := by
  cases x
  cases y
  simp_all

theorem modifyLevel_of_none {p : Int} {f : PriceLevel → PriceLevel}
    {ls : List PriceLevel} (h : ∀ l ∈ ls, l.price ≠ p) :
    modifyLevel p f ls = ls := by
  induction ls with
  | nil => rfl
  | cons l ls ih =>
    show (if l.price == p then f l else l) :: modifyLevel p f ls = l :: ls
    rw [if_neg (by simpa using h l (List.mem_cons_self l ls)),
      ih (fun x hx => h x (List.mem_cons_of_mem l hx))]

theorem modifyLevel_insertLevelSorted (bef : Int → Int → Bool) {E : PriceLevel}
    {p : Int} {f : PriceLevel → PriceLevel} {ls : List PriceLevel}
    (hEp : E.price = p) (hfp : (f E).price = p)
    (hnone : ∀ l ∈ ls, l.price ≠ p) :
    modifyLevel p f (insertLevelSorted bef E ls) = insertLevelSorted bef (f E) ls := by
  induction ls with
  | nil =>
    show (if E.price == p then f E else E) :: [] = [f E]
    rw [if_pos (by simpa using hEp)]
  | cons l ls ih =>
    have hlp := hnone l (List.mem_cons_self l ls)
    have hcond : bef (f E).price l.price = bef E.price l.price := by rw [hfp, hEp]
    show modifyLevel p f
        (if bef E.price l.price then E :: l :: ls else l :: insertLevelSorted bef E ls) =
      if bef (f E).price l.price then f E :: l :: ls
      else l :: insertLevelSorted bef (f E) ls
    rw [hcond]
    by_cases hb : bef E.price l.price = true
    · rw [if_pos hb, if_pos hb]
      show (if E.price == p then f E else E) ::
          (if l.price == p then f l else l) :: modifyLevel p f ls = f E :: l :: ls
      rw [if_pos (by simpa using hEp), if_neg (by simpa using hlp),
        modifyLevel_of_none (fun x hx => hnone x (List.mem_cons_of_mem l hx))]
    · rw [if_neg hb, if_neg hb]
      show (if l.price == p then f l else l) ::
          modifyLevel p f (insertLevelSorted bef E ls) =
        l :: insertLevelSorted bef (f E) ls
      rw [if_neg (by simpa using hlp),
        ih (fun x hx => hnone x (List.mem_cons_of_mem l hx))]

theorem findLevel_insertLevelSorted (bef : Int → Int → Bool) {E : PriceLevel}
    {p : Int} {ls : List PriceLevel} (hEp : E.price = p)
    (hnone : ∀ l ∈ ls, l.price ≠ p) :
    findLevel p (insertLevelSorted bef E ls) = some E := by
  induction ls with
  | nil =>
    show findLevel p [E] = some E
    unfold findLevel
    rw [List.find?_cons_of_pos _ (by simpa using hEp)]
  | cons l ls ih =>
    have hlp := hnone l (List.mem_cons_self l ls)
    show findLevel p
        (if bef E.price l.price then E :: l :: ls else l :: insertLevelSorted bef E ls) =
      some E
    by_cases hb : bef E.price l.price = true
    · rw [if_pos hb]
      unfold findLevel
      rw [List.find?_cons_of_pos _ (by simpa using hEp)]
    · rw [if_neg hb]
      unfold findLevel
      rw [List.find?_cons_of_neg _ (by simpa using hlp)]
      exact ih (fun x hx => hnone x (List.mem_cons_of_mem l hx))

theorem eraseLevel_insertLevelSorted (bef : Int → Int → Bool) {E : PriceLevel}
    {p : Int} (hEp : E.price = p) (ls : List PriceLevel) :
    eraseLevel p (insertLevelSorted bef E ls) = eraseLevel p ls := by
  induction ls with
  | nil =>
    show eraseLevel p [E] = eraseLevel p []
    unfold eraseLevel
    rw [List.filter_cons, if_neg (by simp [hEp])]
  | cons l ls ih =>
    show eraseLevel p
        (if bef E.price l.price then E :: l :: ls else l :: insertLevelSorted bef E ls) =
      eraseLevel p (l :: ls)
    by_cases hb : bef E.price l.price = true
    · rw [if_pos hb]
      unfold eraseLevel
      rw [List.filter_cons, if_neg (by simp [hEp])]
    · rw [if_neg hb]
      unfold eraseLevel at ih ⊢
      rw [List.filter_cons, List.filter_cons, ih]

theorem eraseLevel_of_none {p : Int} {ls : List PriceLevel}
    (h : ∀ l ∈ ls, l.price ≠ p) : eraseLevel p ls = ls :=
  List.filter_eq_self.mpr (fun l hl => by simpa using h l hl)

theorem modifyLevel_modifyLevel {p : Int} {f g : PriceLevel → PriceLevel}
    {ls : List PriceLevel} (hg : ∀ l, (g l).price = l.price) :
    modifyLevel p f (modifyLevel p g ls) = modifyLevel p (fun l => f (g l)) ls := by
  induction ls with
  | nil => rfl
  | cons l ls ih =>
    show (if (if l.price == p then g l else l).price == p then
          f (if l.price == p then g l else l)
        else (if l.price == p then g l else l)) ::
        modifyLevel p f (modifyLevel p g ls) =
      (if l.price == p then f (g l) else l) :: modifyLevel p (fun l => f (g l)) ls
    rw [ih]
    by_cases hp : (l.price == p) = true
    · rw [if_pos hp, if_pos hp, if_pos (by rw [hg]; exact hp)]
    · rw [if_neg hp, if_neg hp, if_neg hp]

theorem modifyLevel_congr_id {p : Int} {f : PriceLevel → PriceLevel}
    {ls : List PriceLevel} (h : ∀ l ∈ ls, l.price = p → f l = l) :
    modifyLevel p f ls = ls := by
  induction ls with
  | nil => rfl
  | cons l ls ih =>
    show (if l.price == p then f l else l) :: modifyLevel p f ls = l :: ls
    rw [ih (fun x hx => h x (List.mem_cons_of_mem l hx))]
    by_cases hp : (l.price == p) = true
    · rw [if_pos hp, h l (List.mem_cons_self l ls) (by simpa using hp)]
    · rw [if_neg hp]

theorem removeIdx_putIdx {os : List (Nat × Order)} {id : Nat}
    (h : lookupIdx os id = none) (o : Order) :
    removeIdx (putIdx os id o) id = os := by
  unfold removeIdx putIdx
  rw [List.filter_append]
  have h1 : os.filter (fun p => !(p.1 == id)) = os :=
    List.filter_eq_self.mpr (fun p hp => by
      simpa using (lookupIdx_eq_none_iff os id).mp h p hp)
  rw [h1]
  simp

theorem remove_add_order_cancel {l : PriceLevel} {id : Nat} (q : Nat)
    (h : id ∉ l.orders) : (l.add_order id q).remove_order id q = l := by
  unfold PriceLevel.add_order PriceLevel.remove_order
  dsimp only
  rw [List.erase_append_right _ h]
  simp

/-- Adding a fresh order to one side's levels and then removing it restores the
level list exactly. -/
theorem addRemove_roundtrip (bef : Int → Int → Bool) (price : Int) (id q : Nat)
    (ls : List PriceLevel)
    (hfresh : ∀ l ∈ ls, id ∉ l.orders)
    (hcnt : ∀ l ∈ ls, l.price = price → l.order_count ≠ 0) :
    removeInLevels price id q (addToLevels bef price id q ls) = ls := by
  unfold addToLevels
  rcases hf : findLevel price ls with _ | lvl
  · dsimp only
    have hnone : ∀ l ∈ ls, l.price ≠ price := findLevel_eq_none.mp hf
    set E0 : PriceLevel :=
      { price := price, orders := [], total_quantity := 0, order_count := 0 } with hE0
    have h1 : modifyLevel price (fun l => PriceLevel.add_order l id q)
        (insertLevelSorted bef E0 ls) =
        insertLevelSorted bef (E0.add_order id q) ls :=
      modifyLevel_insertLevelSorted bef rfl rfl hnone
    have h2 : findLevel price (insertLevelSorted bef (E0.add_order id q) ls) =
        some (E0.add_order id q) :=
      findLevel_insertLevelSorted bef rfl hnone
    have h3 : modifyLevel price (fun l => PriceLevel.remove_order l id q)
        (insertLevelSorted bef (E0.add_order id q) ls) =
        insertLevelSorted bef ((E0.add_order id q).remove_order id q) ls :=
      modifyLevel_insertLevelSorted bef rfl rfl hnone
    have h4 : findLevel price
        (insertLevelSorted bef ((E0.add_order id q).remove_order id q) ls) =
        some ((E0.add_order id q).remove_order id q) :=
      findLevel_insertLevelSorted bef rfl hnone
    rw [h1]
    unfold removeInLevels
    rw [h2]
    dsimp only
    rw [h3, h4]
    dsimp only
    rw [if_pos (show ((E0.add_order id q).remove_order id q).order_count = 0
      from rfl)]
    rw [eraseLevel_insertLevelSorted bef
      (show ((E0.add_order id q).remove_order id q).price = price from rfl) ls]
    exact eraseLevel_of_none hnone
  · dsimp only
    have hmem := findLevel_some hf
    unfold removeInLevels
    rw [findLevel_modifyLevel (f := fun l => PriceLevel.add_order l id q)
      (fun l => rfl)]
    rw [hf]
    rw [show Option.map (fun l => if l.price = price then l.add_order id q else l)
        (some lvl) = some (if lvl.price = price then lvl.add_order id q else lvl)
      from rfl]
    rw [if_pos hmem.2]
    dsimp only
    have hmod : modifyLevel price (fun l => PriceLevel.remove_order l id q)
        (modifyLevel price (fun l => PriceLevel.add_order l id q) ls) = ls := by
      rw [modifyLevel_modifyLevel (g := fun l => PriceLevel.add_order l id q)
        (fun l => rfl)]
      exact modifyLevel_congr_id
        (fun l hl _ => remove_add_order_cancel q (hfresh l hl))
    rw [hmod, hf]
    dsimp only
    rw [if_neg (hcnt lvl hmem.1 hmem.2)]

theorem update_best_bid_bbo_of {Y c : OrderBook} (hb : Y.bids = c.bids)
    (hap : Y.bbo.ask_price = c.bbo.ask_price)
    (haq : Y.bbo.ask_quantity = c.bbo.ask_quantity)
    (hc : bboBidOK c) : Y.update_best_bid.bbo = c.bbo := by
  unfold OrderBook.update_best_bid
  unfold bboBidOK at hc
  rw [hb]
  cases hcb : c.bids with
  | nil =>
    rw [hcb] at hc
    exact BBO_ext hc.1.symm hap hc.2.symm haq
  | cons best rest =>
    rw [hcb] at hc
    exact BBO_ext hc.1.symm hap hc.2.symm haq

theorem update_best_ask_bbo_of {Y c : OrderBook} (hb : Y.asks = c.asks)
    (hbp : Y.bbo.bid_price = c.bbo.bid_price)
    (hbq : Y.bbo.bid_quantity = c.bbo.bid_quantity)
    (hc : bboAskOK c) : Y.update_best_ask.bbo = c.bbo := by
  unfold OrderBook.update_best_ask
  unfold bboAskOK at hc
  rw [hb]
  cases hcb : c.asks with
  | nil =>
    rw [hcb] at hc
    exact BBO_ext hbp hc.1.symm hbq hc.2.symm
  | cons best rest =>
    rw [hcb] at hc
    exact BBO_ext hbp hc.1.symm hbq hc.2.symm

theorem update_best_bid_bbo_congr {x y : OrderBook} (hb : x.bids = y.bids)
    (ho : x.bbo = y.bbo) : x.update_best_bid.bbo = y.update_best_bid.bbo := by
  unfold OrderBook.update_best_bid
  rw [hb, ho]
  cases y.bids <;> rfl

theorem update_best_ask_bbo_congr {x y : OrderBook} (ha : x.asks = y.asks)
    (ho : x.bbo = y.bbo) : x.update_best_ask.bbo = y.update_best_ask.bbo := by
  unfold OrderBook.update_best_ask
  rw [ha, ho]
  cases y.asks <;> rfl

/-- Adding a fresh order and deleting it again restores the book exactly. -/
theorem add_delete_roundtrip {b : OrderBook} (hW : WFBook b) {id : Nat}
    (hl : lookupIdx b.orders id = none) (sd : Side) (pr : Int) (q ts : Nat)
    (pool1 pool2 : Pool) :
    (((b.add_order id sd pr q ts pool1).2.1).delete_order id pool2).2.1 = b := by
  have hfreshB : ∀ l ∈ b.bids, id ∉ l.orders := by
    intro l hlv hm
    obtain ⟨o, ho, -, -⟩ := (hW.bidInv.levels l hlv).member id hm
    rw [hl] at ho
    cases ho
  have hfreshA : ∀ l ∈ b.asks, id ∉ l.orders := by
    intro l hlv hm
    obtain ⟨o, ho, -, -⟩ := (hW.askInv.levels l hlv).member id hm
    rw [hl] at ho
    cases ho
  have hcntB : ∀ l ∈ b.bids, l.price = pr → l.order_count ≠ 0 := by
    intro l hlv _ h0
    rw [(hW.bidInv.levels l hlv).count] at h0
    exact (hW.bidInv.levels l hlv).nonempty (List.length_eq_zero.mp h0)
  have hcntA : ∀ l ∈ b.asks, l.price = pr → l.order_count ≠ 0 := by
    intro l hlv _ h0
    rw [(hW.askInv.levels l hlv).count] at h0
    exact (hW.askInv.levels l hlv).nonempty (List.length_eq_zero.mp h0)
  unfold OrderBook.add_order
  rw [hl]
  dsimp only
  by_cases hbuy : is_buy sd = true
  · rw [if_pos hbuy]
    have hlk : lookupIdx (OrderBook.update_best_bid
        { b with
            bids := addToLevels befBid pr id q b.bids,
            orders := putIdx b.orders id
              { order_id := id, price := pr, quantity := q, original_qty := q,
                stock_locate := b.stock_locate, side := sd, timestamp := ts } }).orders
        id =
        some { order_id := id, price := pr, quantity := q, original_qty := q,
               stock_locate := b.stock_locate, side := sd, timestamp := ts } := by
      rw [update_best_bid_orders]
      exact lookupIdx_putIdx_self hl _
    unfold OrderBook.delete_order
    dsimp only
    rw [hlk]
    dsimp only
    rw [if_pos hbuy]
    refine OrderBook_ext ?_ ?_ ?_ ?_ ?_ ?_
    · simp only [stock_locate_update_best_bid]
    · simp only [update_best_bid_bids]
      exact addRemove_roundtrip befBid pr id q b.bids hfreshB hcntB
    · simp only [update_best_bid_asks]
    · simp only [update_best_bid_orders]
      exact removeIdx_putIdx hl _
    · refine update_best_bid_bbo_of ?_ ?_ ?_ hW.bidBBO
      · simp only [update_best_bid_bids]
        exact addRemove_roundtrip befBid pr id q b.bids hfreshB hcntB
      · simp only [update_best_bid_ask_price]
      · simp only [update_best_bid_ask_quantity]
    · simp only [update_best_bid_order_count]
      omega
  · rw [if_neg hbuy]
    have hlk : lookupIdx (OrderBook.update_best_ask
        { b with
            asks := addToLevels befAsk pr id q b.asks,
            orders := putIdx b.orders id
              { order_id := id, price := pr, quantity := q, original_qty := q,
                stock_locate := b.stock_locate, side := sd, timestamp := ts } }).orders
        id =
        some { order_id := id, price := pr, quantity := q, original_qty := q,
               stock_locate := b.stock_locate, side := sd, timestamp := ts } := by
      rw [update_best_ask_orders]
      exact lookupIdx_putIdx_self hl _
    unfold OrderBook.delete_order
    dsimp only
    rw [hlk]
    dsimp only
    rw [if_neg hbuy]
    refine OrderBook_ext ?_ ?_ ?_ ?_ ?_ ?_
    · simp only [stock_locate_update_best_ask]
    · simp only [update_best_ask_bids]
    · simp only [update_best_ask_asks]
      exact addRemove_roundtrip befAsk pr id q b.asks hfreshA hcntA
    · simp only [update_best_ask_orders]
      exact removeIdx_putIdx hl _
    · refine update_best_ask_bbo_of ?_ ?_ ?_ hW.askBBO
      · simp only [update_best_ask_asks]
        exact addRemove_roundtrip befAsk pr id q b.asks hfreshA hcntA
      · simp only [update_best_ask_bid_price]
      · simp only [update_best_ask_bid_quantity]
    · simp only [update_best_ask_order_count]
      omega

/-- C8: starting from a well-formed book without `id`, adding `id`, deleting it
and adding it again with the same side, price and quantity yields the same
observable state — index contents modulo timestamps, both level lists, BBO and
order count — as the single original add. -/
theorem C8_add_delete_add (b : OrderBook) (hW : WFBook b) (id : Nat)
    (hl : lookupIdx b.orders id = none) (sd : Side) (pr : Int) (q : Nat)
    (ts1 ts2 : Nat) (pool1 pool2 pool3 : Pool) :
    ((((b.add_order id sd pr q ts1 pool1).2.1.delete_order id pool2).2.1.add_order
        id sd pr q ts2 pool3).2.1.orders.map
      (fun p => (p.1, { p.2 with timestamp := 0 }))) =
      ((b.add_order id sd pr q ts1 pool1).2.1.orders.map
        (fun p => (p.1, { p.2 with timestamp := 0 }))) ∧
    (((b.add_order id sd pr q ts1 pool1).2.1.delete_order id pool2).2.1.add_order
        id sd pr q ts2 pool3).2.1.bids =
      (b.add_order id sd pr q ts1 pool1).2.1.bids ∧
    (((b.add_order id sd pr q ts1 pool1).2.1.delete_order id pool2).2.1.add_order
        id sd pr q ts2 pool3).2.1.asks =
      (b.add_order id sd pr q ts1 pool1).2.1.asks ∧
    (((b.add_order id sd pr q ts1 pool1).2.1.delete_order id pool2).2.1.add_order
        id sd pr q ts2 pool3).2.1.bbo =
      (b.add_order id sd pr q ts1 pool1).2.1.bbo ∧
    (((b.add_order id sd pr q ts1 pool1).2.1.delete_order id pool2).2.1.add_order
        id sd pr q ts2 pool3).2.1.order_count =
      (b.add_order id sd pr q ts1 pool1).2.1.order_count := by
  rw [add_delete_roundtrip hW hl sd pr q ts1 pool1 pool2]
  unfold OrderBook.add_order
  rw [hl]
  dsimp only
  by_cases hbuy : is_buy sd = true
  · rw [if_pos hbuy, if_pos hbuy]
    refine ⟨?_, ?_, ?_, ?_, ?_⟩
    · simp only [update_best_bid_orders]
      unfold putIdx
      rw [List.map_append, List.map_append]
      rfl
    · simp only [update_best_bid_bids]
    · simp only [update_best_bid_asks]
    · exact update_best_bid_bbo_congr rfl rfl
    · simp only [update_best_bid_order_count]
  · rw [if_neg hbuy, if_neg hbuy]
    refine ⟨?_, ?_, ?_, ?_, ?_⟩
    · simp only [update_best_ask_orders]
      unfold putIdx
      rw [List.map_append, List.map_append]
      rfl
    · simp only [update_best_ask_bids]
    · simp only [update_best_ask_asks]
    · exact update_best_ask_bbo_congr rfl rfl
    · simp only [update_best_ask_order_count]

/-- C8 witness: the roundtrip at a concrete book, id and field tuple. -/
theorem C8_witness :
    ((((OrderBook.init 7).add_order 1001 Side.Buy 150 500 3 Pool.init).2.1.delete_order
        1001 Pool.init).2.1.add_order 1001 Side.Buy 150 500 9 Pool.init).2.1.order_count =
      ((OrderBook.init 7).add_order 1001 Side.Buy 150 500 3 Pool.init).2.1.order_count :=
  (C8_add_delete_add (OrderBook.init 7) (WFBook.init 7) 1001 (by decide) Side.Buy
    150 500 3 9 Pool.init Pool.init Pool.init).2.2.2.2

/-!
## C5 — cache and BBO invariants under every mutation sequence
-/

/-- C5: after any sequence of `add_order` / `execute_order` / `cancel_order` /
`delete_order` / `replace_order` operations on a freshly constructed book,
every live price level's `total_quantity` equals the sum of its resident
orders' quantities and its `order_count` equals the length of its list; the
BBO's bid price is the maximum price among (non-empty) bid levels, or 0 when
there are none, and the ask price is the minimum price among ask levels, or
the maximum `Price` value when there are none. -/
theorem C5_caches_and_bbo (loc : Nat) (ops : List BookOp) (pool : Pool) :
    (∀ lvl ∈ (runBook (OrderBook.init loc) pool ops).1.bids,
      lvl.total_quantity =
          sumQty (runBook (OrderBook.init loc) pool ops).1.orders lvl.orders ∧
        lvl.order_count = lvl.orders.length) ∧
    (∀ lvl ∈ (runBook (OrderBook.init loc) pool ops).1.asks,
      lvl.total_quantity =
          sumQty (runBook (OrderBook.init loc) pool ops).1.orders lvl.orders ∧
        lvl.order_count = lvl.orders.length) ∧
    ((runBook (OrderBook.init loc) pool ops).1.bids = [] →
      (runBook (OrderBook.init loc) pool ops).1.bbo.bid_price = 0) ∧
    ((runBook (OrderBook.init loc) pool ops).1.bids ≠ [] →
      (runBook (OrderBook.init loc) pool ops).1.bbo.bid_price ∈
          (runBook (OrderBook.init loc) pool ops).1.bids.map PriceLevel.price ∧
        ∀ p ∈ (runBook (OrderBook.init loc) pool ops).1.bids.map PriceLevel.price,
          p ≤ (runBook (OrderBook.init loc) pool ops).1.bbo.bid_price) ∧
    ((runBook (OrderBook.init loc) pool ops).1.asks = [] →
      (runBook (OrderBook.init loc) pool ops).1.bbo.ask_price = priceMax) ∧
    ((runBook (OrderBook.init loc) pool ops).1.asks ≠ [] →
      (runBook (OrderBook.init loc) pool ops).1.bbo.ask_price ∈
          (runBook (OrderBook.init loc) pool ops).1.asks.map PriceLevel.price ∧
        ∀ p ∈ (runBook (OrderBook.init loc) pool ops).1.asks.map PriceLevel.price,
          (runBook (OrderBook.init loc) pool ops).1.bbo.ask_price ≤ p) := by
  have hW := WFBook_runBook (WFBook.init loc) ops pool
  refine ⟨?_, ?_, ?_, ?_, ?_, ?_⟩
  · intro lvl h
    exact ⟨(hW.bidInv.levels lvl h).total, (hW.bidInv.levels lvl h).count⟩
  · intro lvl h
    exact ⟨(hW.askInv.levels lvl h).total, (hW.askInv.levels lvl h).count⟩
  · intro h
    have hB := hW.bidBBO
    unfold bboBidOK at hB
    rw [h] at hB
    exact hB.1
  · intro h
    have hB := hW.bidBBO
    have hS := hW.bidInv.sorted
    unfold bboBidOK at hB
    unfold LevelsSorted at hS
    cases hb : (runBook (OrderBook.init loc) pool ops).1.bids with
    | nil => exact absurd hb h
    | cons best rest =>
      rw [hb] at hB hS
      refine ⟨by rw [hB.1, List.map_cons]; exact List.mem_cons_self _ _, ?_⟩
      intro p hp
      rw [List.map_cons] at hp
      rcases List.mem_cons.mp hp with hp | hp
      · rw [hp, hB.1]
      · obtain ⟨l, hl, hlp⟩ := List.mem_map.mp hp
        have := (List.pairwise_cons.mp hS).1 l hl
        rw [hB.1]
        have hlt : l.price < best.price := by
          simpa [befBid] using this
        rw [← hlp]
        exact le_of_lt hlt
  · intro h
    have hA := hW.askBBO
    unfold bboAskOK at hA
    rw [h] at hA
    exact hA.1
  · intro h
    have hA := hW.askBBO
    have hS := hW.askInv.sorted
    unfold bboAskOK at hA
    unfold LevelsSorted at hS
    cases hb : (runBook (OrderBook.init loc) pool ops).1.asks with
    | nil => exact absurd hb h
    | cons best rest =>
      rw [hb] at hA hS
      refine ⟨by rw [hA.1, List.map_cons]; exact List.mem_cons_self _ _, ?_⟩
      intro p hp
      rw [List.map_cons] at hp
      rcases List.mem_cons.mp hp with hp | hp
      · rw [hp, hA.1]
      · obtain ⟨l, hl, hlp⟩ := List.mem_map.mp hp
        have := (List.pairwise_cons.mp hS).1 l hl
        rw [hA.1]
        have hlt : best.price < l.price := by
          simpa [befAsk] using this
        rw [← hlp]
        exact le_of_lt hlt

/-- C5 witness: after one concrete add, the cached bid price is among the bid
level prices and bounds them from above. -/
theorem C5_witness :
    (runBook (OrderBook.init 7) Pool.init
        [BookOp.add 1001 Side.Buy 150 500 3]).1.bbo.bid_price ∈
      (runBook (OrderBook.init 7) Pool.init
        [BookOp.add 1001 Side.Buy 150 500 3]).1.bids.map PriceLevel.price :=
  ((C5_caches_and_bbo 7 [BookOp.add 1001 Side.Buy 150 500 3] Pool.init).2.2.2.1
    (by decide)).1

/-!
## C2 — duplicate AddOrder handling
-/

/-- `get_book` right after `setBook` of a book with a nonzero stored locate
returns that book with the manager untouched. -/
theorem get_book_setBook {m : OrderBookManager} {L : Nat} {b : OrderBook}
    (hL : L < m.books.length) (hsl : b.stock_locate ≠ 0) (pool : Pool) :
    (m.setBook L b pool).get_book L = some (b, m.setBook L b pool) := by
  unfold OrderBookManager.get_book OrderBookManager.setBook
  have hL' : L < (m.books.set L b).length := by simpa using hL
  rw [dif_pos hL']
  dsimp only
  rw [show (m.books.set L b).get ⟨L, hL'⟩ = b from by
    rw [List.get_eq_getElem, List.getElem_set_self]]
  rw [if_neg hsl]

/-- C2: when the target book already contains the message's order id, the
book-level insertion is indeed rejected (the book is stored back unchanged and
no BBO event is emitted), but `on_add_order_mpid` still increments
`orders_added` and `messages_processed` unconditionally, contradicting the
claim that no counter is incremented for the rejected message. -/
theorem C2_duplicate_add_mpid_counters (fh : FeedHandler) (msg : AddOrderMessage)
    (ts : Nat) (book : OrderBook) (m : OrderBookManager) (ord : Order)
    (hfil : fh.filteredOut msg.stock_locate = false)
    (hgb : fh.mgr.get_book msg.stock_locate = some (book, m))
    (hdup : lookupIdx book.orders msg.order_ref_number = some ord) :
    (fh.on_add_order_mpid msg ts).2 = [] ∧
    (fh.on_add_order_mpid msg ts).1.mgr =
      m.setBook msg.stock_locate book m.pool ∧
    (fh.on_add_order_mpid msg ts).1.metrics.orders_added =
      fh.metrics.orders_added + 1 ∧
    (fh.on_add_order_mpid msg ts).1.metrics.messages_processed =
      fh.metrics.messages_processed + 1 := by
  unfold FeedHandler.on_add_order_mpid
  rw [if_neg (by rw [hfil]; simp), hgb]
  dsimp only
  rw [add_order_duplicate hdup]
  dsimp only
  unfold FeedHandler.emitBBO
  by_cases hev : fh.hasEventHandler = true
  · rw [if_pos (by dsimp only; exact hev)]
    rw [if_neg (by rw [if_pos hev]; simp [bboChanged])]
    exact ⟨rfl, rfl, rfl, rfl⟩
  · rw [if_neg (by dsimp only; exact hev)]
    exact ⟨rfl, rfl, rfl, rfl⟩

/-- C2 witness: a concrete feed-handler state whose book for locate 7 already
holds order 1001; the duplicate AddOrderMPID emits nothing yet bumps the
counters. -/
theorem C2_witness :
    (FeedHandler.on_add_order_mpid
        { mgr := OrderBookManager.init.setBook 7
            ((OrderBook.init 7).add_order 1001 Side.Buy 150 500 0 Pool.init).2.1
            Pool.init,
          metrics := FeedMetrics.init, hasEventHandler := true,
          symbol_filter := [], use_filter := false, collect_metrics := true }
        { stock_locate := 7, order_ref_number := 1001, buy_sell_indicator := 'B',
          shares := 10, price := 100 } 5).2 = [] ∧
    (FeedHandler.on_add_order_mpid
        { mgr := OrderBookManager.init.setBook 7
            ((OrderBook.init 7).add_order 1001 Side.Buy 150 500 0 Pool.init).2.1
            Pool.init,
          metrics := FeedMetrics.init, hasEventHandler := true,
          symbol_filter := [], use_filter := false, collect_metrics := true }
        { stock_locate := 7, order_ref_number := 1001, buy_sell_indicator := 'B',
          shares := 10, price := 100 } 5).1.metrics.orders_added =
      FeedMetrics.init.orders_added + 1 := by
  have h := C2_duplicate_add_mpid_counters
    { mgr := OrderBookManager.init.setBook 7
        ((OrderBook.init 7).add_order 1001 Side.Buy 150 500 0 Pool.init).2.1
        Pool.init,
      metrics := FeedMetrics.init, hasEventHandler := true,
      symbol_filter := [], use_filter := false, collect_metrics := true }
    { stock_locate := 7, order_ref_number := 1001, buy_sell_indicator := 'B',
      shares := 10, price := 100 } 5
    ((OrderBook.init 7).add_order 1001 Side.Buy 150 500 0 Pool.init).2.1
    (OrderBookManager.init.setBook 7
      ((OrderBook.init 7).add_order 1001 Side.Buy 150 500 0 Pool.init).2.1
      Pool.init)
    { order_id := 1001, price := 150, quantity := 500, original_qty := 500,
      stock_locate := 7, side := Side.Buy, timestamp := 0 }
    rfl
    (get_book_setBook
      (by
        have hlen : OrderBookManager.init.books.length =
            OrderBookManager.MAX_SYMBOLS := by
          simp [OrderBookManager.init]
        rw [hlen]
        norm_num [OrderBookManager.MAX_SYMBOLS])
      (by decide) Pool.init)
    (by decide)
  exact ⟨h.1, h.2.2.1⟩

/-!
## C7 — BBO events fire exactly on top-of-book price changes
-/

/-- The book mutation each order-modifying handler performs (read off the
handler bodies). -/
def OrderModMsg.toBookOp (ts : Nat) : OrderModMsg → BookOp
  | .addOrder msg =>
      .add msg.order_ref_number (char_to_side msg.buy_sell_indicator) msg.price
        msg.shares ts
  | .addOrderMPID msg =>
      .add msg.order_ref_number (char_to_side msg.buy_sell_indicator) msg.price
        msg.shares ts
  | .orderExecuted msg => .exec msg.order_ref_number msg.executed_shares
  | .orderExecutedPrice msg => .exec msg.order_ref_number msg.executed_shares
  | .orderCancel msg => .cancel msg.order_ref_number msg.cancelled_shares
  | .orderDelete msg => .del msg.order_ref_number
  | .orderReplace msg =>
      .replace msg.original_order_ref_number msg.new_order_ref_number msg.shares
        msg.price ts

/-- The events `emitBBO` returns: one update event exactly when a subscriber
is attached and the bid or ask price moved. -/
theorem emitBBO_snd (g : FeedHandler) (locate : Nat) (oldB newB : BBO)
    (ts : Nat) :
    (g.emitBBO locate oldB newB ts).2 =
      if g.hasEventHandler = true then
        (if oldB.bid_price ≠ newB.bid_price ∨ oldB.ask_price ≠ newB.ask_price
         then [FeedEvent.bboUpdate locate oldB newB ts] else [])
      else [] := by
  unfold FeedHandler.emitBBO
  by_cases hev : g.hasEventHandler = true
  · rw [if_pos hev, if_pos hev]
    by_cases hch : bboChanged oldB newB = true
    · rw [if_pos hch, if_pos (by simpa [bboChanged] using hch)]
    · rw [if_neg hch, if_neg (by simpa [bboChanged] using hch)]
  · rw [if_neg hev, if_neg hev]

/-- C7: for every order-modifying message that passes the locate filter while a
subscriber is attached (and whose locate resolves to a book), the handler's
emitted BBO events are exactly one update event when the post-mutation BBO
differs from the pre-mutation snapshot in bid price or ask price, and none
otherwise — in particular a change only in quantities at unchanged top-of-book
prices emits nothing. -/
theorem C7_bbo_event_iff_price_change (fh : FeedHandler) (m : OrderModMsg)
    (ts : Nat) (book : OrderBook) (mgr : OrderBookManager)
    (hev : fh.hasEventHandler = true)
    (hfil : fh.filteredOut m.locate = false)
    (hgb : fh.mgr.get_book m.locate = some (book, mgr)) :
    ((fh.processOrderMsg m ts).2.filter
        (fun e => match e with
          | FeedEvent.bboUpdate _ _ _ _ => true
          | _ => false)) =
      (if book.bbo.bid_price ≠
            (applyBookOp book mgr.pool (m.toBookOp ts)).1.bbo.bid_price ∨
          book.bbo.ask_price ≠
            (applyBookOp book mgr.pool (m.toBookOp ts)).1.bbo.ask_price
       then
         [FeedEvent.bboUpdate m.locate book.bbo
           (applyBookOp book mgr.pool (m.toBookOp ts)).1.bbo ts]
       else []) := by
  cases m with
  | addOrder msg =>
    simp only [OrderModMsg.locate] at hfil hgb ⊢
    simp only [OrderModMsg.toBookOp, applyBookOp]
    unfold FeedHandler.processOrderMsg FeedHandler.on_add_order
    dsimp only
    rw [if_neg (show ¬(fh.filteredOut msg.stock_locate = true) by
      rw [hfil]; simp), hgb]
    dsimp only
    rw [if_pos hev]
    rw [emitBBO_snd]
    dsimp only
    rw [if_pos hev]
    by_cases hc : book.bbo.bid_price ≠
        (book.add_order msg.order_ref_number (char_to_side msg.buy_sell_indicator)
          msg.price msg.shares ts mgr.pool).2.1.bbo.bid_price ∨
        book.bbo.ask_price ≠
        (book.add_order msg.order_ref_number (char_to_side msg.buy_sell_indicator)
          msg.price msg.shares ts mgr.pool).2.1.bbo.ask_price
    · rw [if_pos hc]
      rfl
    · rw [if_neg hc]
      rfl
  | addOrderMPID msg =>
    simp only [OrderModMsg.locate] at hfil hgb ⊢
    simp only [OrderModMsg.toBookOp, applyBookOp]
    unfold FeedHandler.processOrderMsg FeedHandler.on_add_order_mpid
    dsimp only
    rw [if_neg (show ¬(fh.filteredOut msg.stock_locate = true) by
      rw [hfil]; simp), hgb]
    dsimp only
    rw [if_pos hev]
    rw [emitBBO_snd]
    dsimp only
    rw [if_pos hev]
    by_cases hc : book.bbo.bid_price ≠
        (book.add_order msg.order_ref_number (char_to_side msg.buy_sell_indicator)
          msg.price msg.shares ts mgr.pool).2.1.bbo.bid_price ∨
        book.bbo.ask_price ≠
        (book.add_order msg.order_ref_number (char_to_side msg.buy_sell_indicator)
          msg.price msg.shares ts mgr.pool).2.1.bbo.ask_price
    · rw [if_pos hc]
      rfl
    · rw [if_neg hc]
      rfl
  | orderExecuted msg =>
    simp only [OrderModMsg.locate] at hfil hgb ⊢
    simp only [OrderModMsg.toBookOp, applyBookOp]
    unfold FeedHandler.processOrderMsg FeedHandler.on_order_executed
    dsimp only
    rw [if_neg (show ¬(fh.filteredOut msg.stock_locate = true) by
      rw [hfil]; simp), hgb]
    dsimp only
    rw [if_pos hev]
    rcases hgo : book.get_order msg.order_ref_number with _ | ord
    · dsimp only
      rw [emitBBO_snd]
      dsimp only
      rw [if_pos hev]
      have hx : book.execute_order msg.order_ref_number msg.executed_shares
          mgr.pool = (0, book, mgr.pool) := by
        unfold OrderBook.execute_order
        unfold OrderBook.get_order at hgo
        rw [hgo]
      rw [hx]
      dsimp only
      rw [if_neg (by simp)]
      rfl
    · dsimp only
      rw [if_pos hev]
      rw [emitBBO_snd]
      dsimp only
      rw [if_pos hev]
      rw [List.filter_append]
      by_cases hc : book.bbo.bid_price ≠
          (book.execute_order msg.order_ref_number msg.executed_shares
            mgr.pool).2.1.bbo.bid_price ∨
          book.bbo.ask_price ≠
          (book.execute_order msg.order_ref_number msg.executed_shares
            mgr.pool).2.1.bbo.ask_price
      · rw [if_pos hc]
        rfl
      · rw [if_neg hc]
        rfl
  | orderExecutedPrice msg =>
    simp only [OrderModMsg.locate] at hfil hgb ⊢
    simp only [OrderModMsg.toBookOp, applyBookOp]
    unfold FeedHandler.processOrderMsg FeedHandler.on_order_executed_price
    dsimp only
    rw [if_neg (show ¬(fh.filteredOut msg.stock_locate = true) by
      rw [hfil]; simp), hgb]
    dsimp only
    rw [if_pos hev]
    rcases hgo : book.get_order msg.order_ref_number with _ | ord
    · dsimp only
      rw [emitBBO_snd]
      dsimp only
      rw [if_pos hev]
      have hx : book.execute_order msg.order_ref_number msg.executed_shares
          mgr.pool = (0, book, mgr.pool) := by
        unfold OrderBook.execute_order
        unfold OrderBook.get_order at hgo
        rw [hgo]
      rw [hx]
      dsimp only
      rw [if_neg (by simp)]
      rfl
    · dsimp only
      rw [if_pos hev]
      rw [emitBBO_snd]
      dsimp only
      rw [if_pos hev]
      rw [List.filter_append]
      by_cases hc : book.bbo.bid_price ≠
          (book.execute_order msg.order_ref_number msg.executed_shares
            mgr.pool).2.1.bbo.bid_price ∨
          book.bbo.ask_price ≠
          (book.execute_order msg.order_ref_number msg.executed_shares
            mgr.pool).2.1.bbo.ask_price
      · rw [if_pos hc]
        rfl
      · rw [if_neg hc]
        rfl
  | orderCancel msg =>
    simp only [OrderModMsg.locate] at hfil hgb ⊢
    simp only [OrderModMsg.toBookOp, applyBookOp]
    unfold FeedHandler.processOrderMsg FeedHandler.on_order_cancel
    dsimp only
    rw [if_neg (show ¬(fh.filteredOut msg.stock_locate = true) by
      rw [hfil]; simp), hgb]
    dsimp only
    rw [if_pos hev]
    rw [emitBBO_snd]
    dsimp only
    rw [if_pos hev]
    by_cases hc : book.bbo.bid_price ≠
        (book.cancel_order msg.order_ref_number msg.cancelled_shares
          mgr.pool).2.1.bbo.bid_price ∨
        book.bbo.ask_price ≠
        (book.cancel_order msg.order_ref_number msg.cancelled_shares
          mgr.pool).2.1.bbo.ask_price
    · rw [if_pos hc]
      rfl
    · rw [if_neg hc]
      rfl
  | orderDelete msg =>
    simp only [OrderModMsg.locate] at hfil hgb ⊢
    simp only [OrderModMsg.toBookOp, applyBookOp]
    unfold FeedHandler.processOrderMsg FeedHandler.on_order_delete
    dsimp only
    rw [if_neg (show ¬(fh.filteredOut msg.stock_locate = true) by
      rw [hfil]; simp), hgb]
    dsimp only
    rw [if_pos hev]
    rw [emitBBO_snd]
    dsimp only
    rw [if_pos hev]
    by_cases hc : book.bbo.bid_price ≠
        (book.delete_order msg.order_ref_number mgr.pool).2.1.bbo.bid_price ∨
        book.bbo.ask_price ≠
        (book.delete_order msg.order_ref_number mgr.pool).2.1.bbo.ask_price
    · rw [if_pos hc]
      rfl
    · rw [if_neg hc]
      rfl
  | orderReplace msg =>
    simp only [OrderModMsg.locate] at hfil hgb ⊢
    simp only [OrderModMsg.toBookOp, applyBookOp]
    unfold FeedHandler.processOrderMsg FeedHandler.on_order_replace
    dsimp only
    rw [if_neg (show ¬(fh.filteredOut msg.stock_locate = true) by
      rw [hfil]; simp), hgb]
    dsimp only
    rw [if_pos hev]
    rw [emitBBO_snd]
    dsimp only
    rw [if_pos hev]
    by_cases hc : book.bbo.bid_price ≠
        (book.replace_order msg.original_order_ref_number
          msg.new_order_ref_number msg.shares msg.price ts
          mgr.pool).2.1.bbo.bid_price ∨
        book.bbo.ask_price ≠
        (book.replace_order msg.original_order_ref_number
          msg.new_order_ref_number msg.shares msg.price ts
          mgr.pool).2.1.bbo.ask_price
    · rw [if_pos hc]
      rfl
    · rw [if_neg hc]
      rfl

/-- C7 witness: a concrete add that moves the bid price emits exactly one BBO
update event. -/
theorem C7_witness :
    ((FeedHandler.processOrderMsg
        { mgr := OrderBookManager.init.setBook 7
            ((OrderBook.init 7).add_order 1001 Side.Buy 150 500 0 Pool.init).2.1
            Pool.init,
          metrics := FeedMetrics.init, hasEventHandler := true,
          symbol_filter := [], use_filter := false, collect_metrics := true }
        (OrderModMsg.addOrder
          { stock_locate := 7, order_ref_number := 1002,
            buy_sell_indicator := 'B', shares := 10, price := 200 }) 5).2.filter
      (fun e => match e with
        | FeedEvent.bboUpdate _ _ _ _ => true
        | _ => false)).length = 1 := by
  have h := C7_bbo_event_iff_price_change
    { mgr := OrderBookManager.init.setBook 7
        ((OrderBook.init 7).add_order 1001 Side.Buy 150 500 0 Pool.init).2.1
        Pool.init,
      metrics := FeedMetrics.init, hasEventHandler := true,
      symbol_filter := [], use_filter := false, collect_metrics := true }
    (OrderModMsg.addOrder
      { stock_locate := 7, order_ref_number := 1002,
        buy_sell_indicator := 'B', shares := 10, price := 200 }) 5
    ((OrderBook.init 7).add_order 1001 Side.Buy 150 500 0 Pool.init).2.1
    (OrderBookManager.init.setBook 7
      ((OrderBook.init 7).add_order 1001 Side.Buy 150 500 0 Pool.init).2.1
      Pool.init)
    rfl rfl
    (get_book_setBook
      (by
        have hlen : OrderBookManager.init.books.length =
            OrderBookManager.MAX_SYMBOLS := by
          simp [OrderBookManager.init]
        rw [hlen]
        norm_num [OrderBookManager.MAX_SYMBOLS])
      (by decide) Pool.init)
  rw [h]
  rw [if_pos (by decide)]
  rfl

/-!
## C6 — the linear-probing OrderMap

`OrderMap` stores `OrderId -> Order*` entries in a power-of-two table with
linear probing and backward-shift deletion.  `Order*` references are modelled
as opaque numeric tokens; empty slots carry id 0 as in the source.  The
unbounded `while` loops run on explicit fuel equal to the table capacity,
which suffices whenever the table has an empty slot (established below for
every reachable state, mirroring the C++ termination argument).
-/

/-- A table slot (`OrderMap::Entry`). -/
structure OMEntry where
  id : Nat
  ord : Nat
deriving DecidableEq, Repr, Inhabited

/-- The map (`class OrderMap`). -/
structure OrderMap where
  entries : List OMEntry
  capacity : Nat
  mask : Nat
  load : Nat
deriving Repr

/-- Slot read; out-of-range reads (never reached under the length invariant)
yield an empty slot. -/
def eAt (es : List OMEntry) (i : Nat) : OMEntry := es.getD i ⟨0, 0⟩

/-- The probe loop of `OrderMap::find`. -/
def findAux (es : List OMEntry) (mask id : Nat) : Nat → Nat → Option Nat
  | 0, _ => none
  | fuel + 1, idx =>
    if (eAt es idx).id = 0 then none
    else if (eAt es idx).id = id then some (eAt es idx).ord
    else findAux es mask id fuel ((idx + 1) &&& mask)

/-- `OrderMap::find` (`hash` is the identity cast). -/
def OrderMap.find (m : OrderMap) (id : Nat) : Option Nat :=
  findAux m.entries m.mask id m.capacity (id &&& m.mask)

/-- The probe loop of `OrderMap::put` and of the re-insertion in `resize`. -/
def putAux (es : List OMEntry) (mask : Nat) (ent : OMEntry) :
    Nat → Nat → List OMEntry
  | 0, _ => es
  | fuel + 1, idx =>
    if (eAt es idx).id = 0 then es.set idx ent
    else putAux es mask ent fuel ((idx + 1) &&& mask)

/-- The `while (cap < new_cap) cap <<= 1;` loop of `resize`. -/
def growCap (target : Nat) : Nat → Nat → Nat
  | 0, cap => cap
  | fuel + 1, cap => if cap < target then growCap target fuel (cap * 2) else cap

/-- `OrderMap::resize`: fresh power-of-two table, re-insert the occupied
entries, recount the load. -/
def OrderMap.resize (m : OrderMap) (new_cap : Nat) : OrderMap :=
  let cap := growCap new_cap (new_cap + 1) 1
  let r := m.entries.foldl
    (fun acc e =>
      if e.id ≠ 0 then
        (putAux acc.1 (cap - 1) e cap (e.id &&& (cap - 1)), acc.2 + 1)
      else acc)
    (List.replicate cap ⟨0, 0⟩, 0)
  { entries := r.1, capacity := cap, mask := cap - 1, load := r.2 }

/-- `OrderMap::put`: grow at load factor 1/2, then probe for the first empty
slot. -/
def OrderMap.put (m : OrderMap) (id ord : Nat) : OrderMap :=
  let m := if m.capacity ≤ m.load * 2 then m.resize (m.capacity * 2) else m
  { m with
    entries := putAux m.entries m.mask ⟨id, ord⟩ m.capacity (id &&& m.mask),
    load := m.load + 1 }

/-- The constructor `OrderMap(initial_capacity)`. -/
def OrderMap.init (c : Nat) : OrderMap :=
  OrderMap.resize { entries := [], capacity := 0, mask := 0, load := 0 } c

/-- The backward-shift loop of `OrderMap::remove`: starting from the cleared
slot `curr`, scan `next` forward through the cluster, moving back every entry
whose natural position falls cyclically outside `(curr, next]`. -/
def backshiftAux (mask : Nat) : Nat → List OMEntry → Nat → Nat → List OMEntry
  | 0, es, _, _ => es
  | fuel + 1, es, curr, next =>
    if (eAt es next).id = 0 then es
    else
      let desired := (eAt es next).id &&& mask
      if (curr < next ∧ (desired ≤ curr ∨ desired > next)) ∨
          (curr > next ∧ desired ≤ curr ∧ desired > next) then
        backshiftAux mask fuel
          ((es.set curr (eAt es next)).set next ⟨0, (eAt es next).ord⟩)
          next ((next + 1) &&& mask)
      else backshiftAux mask fuel es curr ((next + 1) &&& mask)

/-- The search loop of `OrderMap::remove`; `none` when the id is absent. -/
def removeAux (es : List OMEntry) (mask id : Nat) :
    Nat → Nat → Option (List OMEntry)
  | 0, _ => none
  | fuel + 1, idx =>
    if (eAt es idx).id = 0 then none
    else if (eAt es idx).id = id then
      some (backshiftAux mask es.length
        (es.set idx ⟨0, (eAt es idx).ord⟩) idx ((idx + 1) &&& mask))
    else removeAux es mask id fuel ((idx + 1) &&& mask)

/-- `OrderMap::remove`. -/
def OrderMap.remove (m : OrderMap) (id : Nat) : OrderMap :=
  match removeAux m.entries m.mask id m.capacity (id &&& m.mask) with
  | some es => { m with entries := es, load := m.load - 1 }
  | none => m

/-- Cyclic forward distance from `a` to `b` in a table of `cap` slots. -/
def distC (cap a b : Nat) : Nat := (cap + b - a) % cap

theorem distC_lt (hcap : 0 < cap) (a b : Nat) : distC cap a b < cap :=
  Nat.mod_lt _ hcap

theorem distC_eq_if {cap a b : Nat} (ha : a < cap) (hb : b < cap) :
    distC cap a b = if a ≤ b then b - a else cap + b - a := by
  unfold distC
  by_cases hab : a ≤ b
  · rw [if_pos hab]
    have h1 : cap + b - a = cap + (b - a) := by omega
    rw [h1, Nat.add_mod_left]
    exact Nat.mod_eq_of_lt (by omega)
  · rw [if_neg hab]
    exact Nat.mod_eq_of_lt (by omega)

theorem distC_self {cap a : Nat} (ha : a < cap) : distC cap a a = 0 := by
  rw [distC_eq_if ha ha]
  simp

theorem distC_eq_zero_iff {cap a b : Nat} (ha : a < cap) (hb : b < cap) :
    distC cap a b = 0 ↔ a = b := by
  rw [distC_eq_if ha hb]
  by_cases hab : a ≤ b
  · rw [if_pos hab]
    omega
  · rw [if_neg hab]
    omega

theorem mod_two_cap {cap x : Nat} (hcap : 0 < cap) (hx : x < 2 * cap) :
    x % cap = if x < cap then x else x - cap := by
  by_cases h : x < cap
  · rw [if_pos h]
    exact Nat.mod_eq_of_lt h
  · rw [if_neg h]
    rw [Nat.mod_eq_sub_mod (by omega)]
    exact Nat.mod_eq_of_lt (by omega)

theorem add_distC {cap a b : Nat} (ha : a < cap) (hb : b < cap) :
    (a + distC cap a b) % cap = b := by
  rw [distC_eq_if ha hb]
  by_cases hab : a ≤ b
  · rw [if_pos hab]
    have : a + (b - a) = b := by omega
    rw [this]
    exact Nat.mod_eq_of_lt hb
  · rw [if_neg hab]
    have : a + (cap + b - a) = cap + b := by omega
    rw [this, Nat.add_mod_left]
    exact Nat.mod_eq_of_lt hb

theorem distC_pos_add {cap h t : Nat} (hh : h < cap) (ht : t < cap) :
    distC cap h ((h + t) % cap) = t := by
  have h2 : h + t < 2 * cap := by omega
  rw [mod_two_cap (by omega) h2]
  by_cases hlt : h + t < cap
  · rw [if_pos hlt, distC_eq_if hh (by omega)]
    rw [if_pos (by omega)]
    omega
  · rw [if_neg hlt, distC_eq_if hh (by omega)]
    rw [if_neg (by omega)]
    omega

theorem distC_split {cap a b c : Nat} (ha : a < cap) (hb : b < cap)
    (hc : c < cap) (h : distC cap a b ≤ distC cap a c) :
    distC cap a b + distC cap b c = distC cap a c := by
  rw [distC_eq_if ha hb, distC_eq_if ha hc] at h
  rw [distC_eq_if ha hb, distC_eq_if hb hc, distC_eq_if ha hc]
  split_ifs at h ⊢ <;> omega

theorem succ_mod {cap b : Nat} (hb : b < cap) :
    (b + 1) % cap = if b + 1 = cap then 0 else b + 1 := by
  by_cases h : b + 1 = cap
  · rw [if_pos h, h, Nat.mod_self]
  · rw [if_neg h]
    exact Nat.mod_eq_of_lt (by omega)

/-- Slot reads after `set`. -/
theorem eAt_set_self {es : List OMEntry} {n : Nat} (h : n < es.length)
    (a : OMEntry) : eAt (es.set n a) n = a := by
  unfold eAt
  rw [List.getD_eq_getElem?_getD, List.getElem?_set_self (by simpa using h)]
  rfl

theorem eAt_set_ne {es : List OMEntry} {n p : Nat} (h : p ≠ n) (a : OMEntry) :
    eAt (es.set n a) p = eAt es p := by
  unfold eAt
  rw [List.getD_eq_getElem?_getD, List.getD_eq_getElem?_getD,
    List.getElem?_set_ne (by omega)]

theorem eAt_mem {es : List OMEntry} {i : Nat} (h : i < es.length) :
    eAt es i ∈ es := by
  unfold eAt
  rw [List.getD_eq_getElem?_getD, List.getElem?_eq_getElem (by simpa using h)]
  exact List.getElem_mem _

theorem mem_iff_eAt {es : List OMEntry} {e : OMEntry} :
    e ∈ es ↔ ∃ i, i < es.length ∧ eAt es i = e := by
  constructor
  · intro h
    obtain ⟨i, hi, hei⟩ := List.getElem_of_mem h
    refine ⟨i, hi, ?_⟩
    unfold eAt
    rw [List.getD_eq_getElem?_getD, List.getElem?_eq_getElem (by simpa using hi)]
    exact hei
  · rintro ⟨i, hi, rfl⟩
    exact eAt_mem hi

/-- Element counts after `set`, in overflow-free form. -/
theorem count_set (es : List OMEntry) (n : Nat) (a x : OMEntry)
    (hn : n < es.length) :
    (es.set n a).count x + (if eAt es n = x then 1 else 0) =
      es.count x + (if a = x then 1 else 0) := by
  induction es generalizing n with
  | nil => simp at hn
  | cons e es ih =>
    cases n with
    | zero =>
      simp only [List.set_cons_zero, List.count_cons, eAt, List.getD_cons_zero,
        beq_iff_eq]
      omega
    | succ n =>
      simp only [List.set_cons_succ, List.count_cons, eAt, List.getD_cons_succ,
        beq_iff_eq]
      have := ih n (by simpa using hn)
      simp only [eAt] at this
      omega

/-- The probe invariant: every occupied slot is reachable from its natural
position through occupied slots. -/
def probeOK (cap : Nat) (es : List OMEntry) : Prop :=
  ∀ i, i < cap → (eAt es i).id ≠ 0 →
    ∀ t, t < distC cap ((eAt es i).id % cap) i →
      (eAt es (((eAt es i).id % cap + t) % cap)).id ≠ 0

/-- Well-formedness of an `OrderMap`. -/
structure WFMap (m : OrderMap) : Prop where
  pow : ∃ k, m.capacity = 2 ^ k
  two : 2 ≤ m.capacity
  hmask : m.mask = m.capacity - 1
  hlen : m.entries.length = m.capacity
  hload : m.load = (m.entries.filter (fun e => !(e.id == 0))).length
  hlt : m.load < m.capacity
  uniq : ∀ i j, i < m.capacity → j < m.capacity → i ≠ j →
    (eAt m.entries i).id ≠ 0 → (eAt m.entries i).id ≠ (eAt m.entries j).id
  probe : probeOK m.capacity m.entries

theorem and_mask_eq_mod {cap : Nat} (h : ∃ k, cap = 2 ^ k) (x : Nat) :
    x &&& (cap - 1) = x % cap := by
  obtain ⟨k, rfl⟩ := h
  exact Nat.and_pow_two_sub_one_eq_mod x k

theorem exists_empty_slot {es : List OMEntry}
    (h : (es.filter (fun e => !(e.id == 0))).length < es.length) :
    ∃ i, i < es.length ∧ (eAt es i).id = 0 := by
  by_contra hall
  push_neg at hall
  have : es.filter (fun e => !(e.id == 0)) = es := by
    refine List.filter_eq_self.mpr ?_
    intro e he
    obtain ⟨i, hi, rfl⟩ := mem_iff_eAt.mp he
    simpa using hall i hi
  rw [this] at h
  omega

theorem slot_id_mem {es : List OMEntry} {i : Nat} (hi : i < es.length)
    (hz : (eAt es i).id ≠ 0) :
    (eAt es i).id ∈ (es.filter (fun e => !(e.id == 0))).map OMEntry.id := by
  refine List.mem_map_of_mem _ (List.mem_filter.mpr ⟨eAt_mem hi, by simpa using hz⟩)

theorem two_slots_not_nodup {es : List OMEntry} {i j : Nat} (hij : i < j)
    (hj : j < es.length) {K : Nat} (hKi : (eAt es i).id = K)
    (hKj : (eAt es j).id = K) (hK : K ≠ 0) :
    ¬ ((es.filter (fun e => !(e.id == 0))).map OMEntry.id).Nodup := by
  induction es generalizing i j with
  | nil => simp at hj
  | cons e es ih =>
    intro hnd
    cases i with
    | zero =>
      have he : e.id = K := by simpa [eAt] using hKi
      obtain ⟨j2, rfl⟩ : ∃ j2, j = j2 + 1 := ⟨j - 1, by omega⟩
      have hKj2 : (eAt es j2).id = K := by
        simpa [eAt, List.getD_cons_succ] using hKj
      have hmemJ : K ∈ (es.filter (fun x => !(x.id == 0))).map OMEntry.id := by
        have hjl : j2 < es.length := by simpa using hj
        have hsm := slot_id_mem hjl (by rw [hKj2]; exact hK)
        rw [hKj2] at hsm
        exact hsm
      rw [List.filter_cons, if_pos (by simp [he, hK])] at hnd
      simp only [List.map_cons, List.nodup_cons] at hnd
      exact hnd.1 (by rw [he]; exact hmemJ)
    | succ i2 =>
      obtain ⟨j2, rfl⟩ : ∃ j2, j = j2 + 1 := ⟨j - 1, by omega⟩
      have hKi2 : (eAt es i2).id = K := by
        simpa [eAt, List.getD_cons_succ] using hKi
      have hKj2 : (eAt es j2).id = K := by
        simpa [eAt, List.getD_cons_succ] using hKj
      refine ih (by omega) (by simpa using hj) hKi2 hKj2 ?_
      rw [List.filter_cons] at hnd
      by_cases hcase : (!(e.id == 0)) = true
      · rw [if_pos hcase] at hnd
        simp only [List.map_cons, List.nodup_cons] at hnd
        exact hnd.2
      · rw [if_neg hcase] at hnd
        exact hnd

theorem id_unique {es : List OMEntry}
    (hnd : ((es.filter (fun e => !(e.id == 0))).map OMEntry.id).Nodup)
    {i j : Nat} (hi : i < es.length) (hj : j < es.length)
    (hne : i ≠ j) (hzi : (eAt es i).id ≠ 0) :
    (eAt es i).id ≠ (eAt es j).id := by
  intro he
  rcases Nat.lt_or_ge i j with h | h
  · exact two_slots_not_nodup h hj rfl he.symm hzi hnd
  · exact two_slots_not_nodup (by omega) hi he.symm rfl (he ▸ hzi) hnd

theorem distC_succ_left {cap j i : Nat} (hj : j < cap) (hi : i < cap)
    (hne : j ≠ i) : distC cap ((j + 1) % cap) i + 1 = distC cap j i := by
  rw [succ_mod hj]
  by_cases h : j + 1 = cap
  · rw [if_pos h, distC_eq_if (by omega) hi, distC_eq_if hj hi]
    split_ifs <;> omega
  · rw [if_neg h, distC_eq_if (by omega) hi, distC_eq_if hj hi]
    split_ifs <;> omega

theorem path_shift {cap j t : Nat} :
    ((j + 1) % cap + t) % cap = (j + (t + 1)) % cap := by
  rw [Nat.mod_add_mod]
  congr 1
  omega

theorem findAux_found {cap : Nat} (hpow : ∃ k, cap = 2 ^ k)
    {es : List OMEntry} {id : Nat} {i : Nat} (hi : i < cap)
    (hKi : (eAt es i).id = id) (hid : id ≠ 0) :
    ∀ fuel j, j < cap → distC cap j i < fuel →
      (∀ t, t < distC cap j i →
        (eAt es ((j + t) % cap)).id ≠ 0 ∧ (eAt es ((j + t) % cap)).id ≠ id) →
      findAux es (cap - 1) id fuel j = some (eAt es i).ord := by
  intro fuel
  induction fuel with
  | zero => omega
  | succ fuel ih =>
    intro j hj hfuel hpath
    by_cases hji : j = i
    · subst hji
      unfold findAux
      rw [if_neg (by rw [hKi]; exact hid), if_pos hKi]
    · have hd0 : 0 < distC cap j i := by
        rcases Nat.eq_zero_or_pos (distC cap j i) with h0 | h0
        · exact absurd ((distC_eq_zero_iff hj hi).mp h0) hji
        · exact h0
      have hslot := hpath 0 hd0
      simp only [Nat.add_zero, Nat.mod_eq_of_lt hj] at hslot
      unfold findAux
      rw [if_neg hslot.1, if_neg hslot.2, and_mask_eq_mod hpow]
      have hj' : (j + 1) % cap < cap := Nat.mod_lt _ (by omega)
      have hstep := distC_succ_left hj hi hji
      refine ih ((j + 1) % cap) hj' (by omega) ?_
      intro t ht
      rw [path_shift]
      exact hpath (t + 1) (by omega)

theorem findAux_absent {cap : Nat} (hpow : ∃ k, cap = 2 ^ k)
    {es : List OMEntry} (hlen : es.length = cap) {id : Nat}
    (habs : ∀ p, p < cap → (eAt es p).id ≠ id) :
    ∀ fuel j, j < cap →
      (∃ t, t < fuel ∧ (eAt es ((j + t) % cap)).id = 0) →
      findAux es (cap - 1) id fuel j = none := by
  intro fuel
  induction fuel with
  | zero =>
    rintro j hj ⟨t, ht, -⟩
    omega
  | succ fuel ih =>
    rintro j hj ⟨t, ht, hempty⟩
    by_cases hz : (eAt es j).id = 0
    · unfold findAux
      rw [if_pos hz]
    · unfold findAux
      rw [if_neg hz, if_neg (habs j hj), and_mask_eq_mod hpow]
      have ht0 : t ≠ 0 := by
        intro h0
        rw [h0] at hempty
        simp only [Nat.add_zero, Nat.mod_eq_of_lt hj] at hempty
        exact hz hempty
      refine ih ((j + 1) % cap) (Nat.mod_lt _ (by omega)) ⟨t - 1, by omega, ?_⟩
      rw [path_shift]
      have : t - 1 + 1 = t := by omega
      rw [this]
      exact hempty

/-- `find` returns the stored reference of every stored nonzero id. -/
theorem find_present {m : OrderMap} (hW : WFMap m) {K r : Nat} (hK : K ≠ 0)
    (hmem : (⟨K, r⟩ : OMEntry) ∈ m.entries) : m.find K = some r := by
  obtain ⟨i, hilen, hslot⟩ := mem_iff_eAt.mp hmem
  have hi : i < m.capacity := by rw [← hW.hlen]; exact hilen
  have hKi : (eAt m.entries i).id = K := by rw [hslot]
  unfold OrderMap.find
  rw [hW.hmask, and_mask_eq_mod hW.pow]
  have hcap : 0 < m.capacity := by have := hW.two; omega
  have hhome : K % m.capacity < m.capacity := Nat.mod_lt _ hcap
  have hpath : ∀ t, t < distC m.capacity (K % m.capacity) i →
      (eAt m.entries ((K % m.capacity + t) % m.capacity)).id ≠ 0 ∧
      (eAt m.entries ((K % m.capacity + t) % m.capacity)).id ≠ K := by
    intro t ht
    have hocc := hW.probe i hi (by rw [hKi]; exact hK) t (by rw [hKi]; exact ht)
    rw [hKi] at hocc
    refine ⟨hocc, ?_⟩
    intro hKt
    have hpt : (K % m.capacity + t) % m.capacity < m.capacity := Nat.mod_lt _ hcap
    have hne : (K % m.capacity + t) % m.capacity ≠ i := by
      intro he
      have hdt := distC_pos_add (t := t) hhome (by
        have := distC_lt hcap (K % m.capacity) i
        omega)
      rw [he] at hdt
      omega
    exact hW.uniq _ i hpt hi hne (by rw [hKt]; exact hK) (hKt.trans hKi.symm)
  have hfound := findAux_found hW.pow hi hKi hK m.capacity (K % m.capacity)
    hhome (distC_lt hcap _ _) hpath
  rw [hfound, hslot]

/-- `find` returns null for an id stored nowhere, as long as the table has an
empty slot. -/
theorem find_absent {m : OrderMap} (hW : WFMap m) {K : Nat}
    (habs : ∀ e ∈ m.entries, e.id ≠ K) : m.find K = none := by
  unfold OrderMap.find
  rw [hW.hmask, and_mask_eq_mod hW.pow]
  have hcap : 0 < m.capacity := by have := hW.two; omega
  have hhome : K % m.capacity < m.capacity := Nat.mod_lt _ hcap
  have hfl : ((m.entries.filter (fun e => !(e.id == 0))).length <
      m.entries.length) := by
    rw [← hW.hload, hW.hlen]
    exact hW.hlt
  obtain ⟨E, hElen, hE⟩ := exists_empty_slot hfl
  have hEcap : E < m.capacity := by rw [← hW.hlen]; exact hElen
  refine findAux_absent hW.pow hW.hlen ?_ m.capacity (K % m.capacity) hhome
    ⟨distC m.capacity (K % m.capacity) E, distC_lt hcap _ _, ?_⟩
  · intro p hp
    exact habs _ (eAt_mem (by rw [hW.hlen]; exact hp))
  · rw [add_distC hhome hEcap]
    exact hE

/-- Distinctness of the nonzero ids across slots. -/
def uniqIds (cap : Nat) (es : List OMEntry) : Prop :=
  ∀ i j, i < cap → j < cap → i ≠ j → (eAt es i).id ≠ 0 →
    (eAt es i).id ≠ (eAt es j).id

theorem filter_length_set (es : List OMEntry) (n : Nat) (a : OMEntry)
    (p : OMEntry → Bool) (hn : n < es.length) :
    ((es.set n a).filter p).length + (if p (eAt es n) then 1 else 0) =
      (es.filter p).length + (if p a then 1 else 0) := by
  induction es generalizing n with
  | nil => simp at hn
  | cons e es ih =>
    cases n with
    | zero =>
      simp only [List.set_cons_zero, List.filter_cons, eAt, List.getD_cons_zero]
      split_ifs <;> simp <;> omega
    | succ n =>
      simp only [List.set_cons_succ, List.filter_cons, eAt, List.getD_cons_succ]
      have hrec := ih n (by simpa using hn)
      simp only [eAt] at hrec
      by_cases hpe : p e = true
      · simp only [if_pos hpe, List.length_cons]
        omega
      · simp only [if_neg hpe]
        omega

theorem mem_set_elim {es : List OMEntry} {n : Nat} {a x : OMEntry}
    (h : x ∈ es.set n a) : x = a ∨ x ∈ es := by
  obtain ⟨i, hi, hei⟩ := mem_iff_eAt.mp h
  rw [List.length_set] at hi
  by_cases hin : i = n
  · subst hin
    by_cases hlt : i < es.length
    · rw [eAt_set_self hlt] at hei
      exact Or.inl hei.symm
    · omega
  · rw [eAt_set_ne hin] at hei
    exact Or.inr (mem_iff_eAt.mpr ⟨i, hi, hei⟩)

theorem mem_set_of_ne {es : List OMEntry} {n : Nat} {a x : OMEntry}
    (hx : x ∈ es) (hne : x ≠ eAt es n) : x ∈ es.set n a := by
  obtain ⟨i, hi, hei⟩ := mem_iff_eAt.mp hx
  have hin : i ≠ n := by
    intro h
    exact hne (hei ▸ h ▸ rfl)
  refine mem_iff_eAt.mpr ⟨i, by simpa using hi, ?_⟩
  rw [eAt_set_ne hin]
  exact hei

theorem self_mem_set {es : List OMEntry} {n : Nat} (a : OMEntry)
    (hn : n < es.length) : a ∈ es.set n a :=
  mem_iff_eAt.mpr ⟨n, by simpa using hn, eAt_set_self hn a⟩

theorem putAux_walk {cap : Nat} (hpow : ∃ k, cap = 2 ^ k) {es : List OMEntry}
    (ent : OMEntry) :
    ∀ fuel j, j < cap →
      (∃ t, t < fuel ∧ (eAt es ((j + t) % cap)).id = 0) →
      ∃ j2, j2 < cap ∧ (eAt es j2).id = 0 ∧
        (∀ t, t < distC cap j j2 → (eAt es ((j + t) % cap)).id ≠ 0) ∧
        distC cap j j2 < fuel ∧
        putAux es (cap - 1) ent fuel j = es.set j2 ent := by
  intro fuel
  induction fuel with
  | zero =>
    rintro j hj ⟨t, ht, -⟩
    omega
  | succ fuel ih =>
    rintro j hj ⟨t, ht, hempty⟩
    by_cases hz : (eAt es j).id = 0
    · refine ⟨j, hj, hz, ?_, ?_, ?_⟩
      · intro t2 ht2
        rw [distC_self hj] at ht2
        omega
      · rw [distC_self hj]
        omega
      · unfold putAux
        rw [if_pos hz]
    · have ht0 : t ≠ 0 := by
        intro h0
        rw [h0] at hempty
        simp only [Nat.add_zero, Nat.mod_eq_of_lt hj] at hempty
        exact hz hempty
      obtain ⟨j2, hj2, hz2, hpath, hdist, heq⟩ :=
        ih ((j + 1) % cap) (Nat.mod_lt _ (by omega)) ⟨t - 1, by omega, by
          rw [path_shift]
          have h1 : t - 1 + 1 = t := by omega
          rw [h1]
          exact hempty⟩
      have hne : j ≠ j2 := by
        intro h
        rw [h] at hz
        exact hz hz2
      have hstep := distC_succ_left hj hj2 hne
      refine ⟨j2, hj2, hz2, ?_, by omega, ?_⟩
      · intro t2 ht2
        cases t2 with
        | zero =>
          simp only [Nat.add_zero, Nat.mod_eq_of_lt hj]
          exact hz
        | succ t3 =>
          rw [show j + (t3 + 1) = j + 1 + t3 by omega, ← Nat.mod_add_mod]
          exact hpath t3 (by omega)
      · unfold putAux
        rw [if_neg hz, and_mask_eq_mod hpow]
        exact heq

/-- Inserting a fresh nonzero id into a well-formed table keeps the table
well-formed and adds exactly that entry. -/
theorem insert_table {cap : Nat} {es : List OMEntry}
    (hpow : ∃ k, cap = 2 ^ k) (hlen : es.length = cap)
    (huniq : uniqIds cap es) (hprobe : probeOK cap es)
    (ent : OMEntry) (hid : ent.id ≠ 0) (hfresh : ∀ e ∈ es, e.id ≠ ent.id)
    (hroom : (es.filter (fun e => !(e.id == 0))).length < cap) :
    (putAux es (cap - 1) ent cap (ent.id % cap)).length = cap ∧
    uniqIds cap (putAux es (cap - 1) ent cap (ent.id % cap)) ∧
    probeOK cap (putAux es (cap - 1) ent cap (ent.id % cap)) ∧
    ((putAux es (cap - 1) ent cap (ent.id % cap)).filter
        (fun e => !(e.id == 0))).length =
      (es.filter (fun e => !(e.id == 0))).length + 1 ∧
    ent ∈ putAux es (cap - 1) ent cap (ent.id % cap) ∧
    (∀ e : OMEntry, e.id ≠ 0 →
      (e ∈ putAux es (cap - 1) ent cap (ent.id % cap) ↔
        e ∈ es ∨ e = ent)) := by
  have hcap : 0 < cap := by
    obtain ⟨k, rfl⟩ := hpow
    exact Nat.pos_pow_of_pos k (by omega)
  have hhome : ent.id % cap < cap := Nat.mod_lt _ hcap
  have hfl : (es.filter (fun e => !(e.id == 0))).length < es.length := by omega
  obtain ⟨E, hElen, hE⟩ := exists_empty_slot hfl
  have hEcap : E < cap := by omega
  obtain ⟨j2, hj2, hz2, hpath, hdist, heq⟩ := putAux_walk hpow ent cap
    (ent.id % cap) hhome ⟨distC cap (ent.id % cap) E, distC_lt hcap _ _, by
      rw [add_distC hhome hEcap]
      exact hE⟩
  rw [heq]
  have hj2len : j2 < es.length := by omega
  have heAt : ∀ p, p ≠ j2 → eAt (es.set j2 ent) p = eAt es p :=
    fun p hp => eAt_set_ne hp _
  refine ⟨by simpa using hlen, ?_, ?_, ?_, self_mem_set _ hj2len, ?_⟩
  · intro i j hi hj hij hzi
    by_cases hi2 : i = j2
    · have hj2ne : j ≠ j2 := by omega
      rw [hi2] at hzi ⊢
      rw [eAt_set_self hj2len] at hzi ⊢
      rw [heAt j hj2ne]
      intro hcontra
      by_cases hzj : (eAt es j).id = 0
      · rw [← hcontra] at hzj
        exact hid hzj
      · exact hfresh (eAt es j) (eAt_mem (by omega)) hcontra.symm
    · rw [heAt i hi2] at hzi ⊢
      by_cases hj2v : j = j2
      · rw [hj2v, eAt_set_self hj2len]
        intro hcontra
        exact hfresh (eAt es i) (eAt_mem (by omega)) hcontra
      · rw [heAt j hj2v]
        exact huniq i j hi hj hij hzi
  · intro i hi hzi t ht
    by_cases hi2 : i = j2
    · rw [hi2] at hzi ht ⊢
      rw [eAt_set_self hj2len] at hzi ht ⊢
      by_cases hp : (ent.id % cap + t) % cap = j2
      · rw [hp, eAt_set_self hj2len]
        exact hid
      · rw [heAt _ hp]
        exact hpath t ht
    · rw [heAt i hi2] at hzi ht ⊢
      by_cases hp : ((eAt es i).id % cap + t) % cap = j2
      · rw [hp, eAt_set_self hj2len]
        exact hid
      · rw [heAt _ hp]
        exact hprobe i hi hzi t ht
  · have hfl := filter_length_set es j2 ent (fun e => !(e.id == 0)) hj2len
    rw [if_neg (by simp [hz2]), if_pos (by simpa using hid)] at hfl
    omega
  · intro e hze
    constructor
    · intro h
      rcases mem_set_elim h with h | h
      · exact Or.inr h
      · exact Or.inl h
    · rintro (h | rfl)
      · refine mem_set_of_ne h ?_
        intro hcontra
        rw [hcontra] at hze
        exact hze hz2
      · exact self_mem_set _ hj2len

theorem eAt_replicate (n i : Nat) : eAt (List.replicate n ⟨0, 0⟩) i = ⟨0, 0⟩ := by
  unfold eAt
  rw [List.getD_eq_getElem?_getD]
  by_cases h : i < n
  · rw [List.getElem?_eq_getElem (by simpa using h)]
    simp
  · rw [List.getElem?_eq_none (by simpa using h)]
    rfl

theorem filter_replicate_empty (n : Nat) :
    (List.replicate n (⟨0, 0⟩ : OMEntry)).filter (fun e => !(e.id == 0)) = [] := by
  induction n with
  | zero => rfl
  | succ n ih =>
    rw [List.replicate_succ, List.filter_cons, if_neg (by simp)]
    exact ih

theorem growCap_pow (target : Nat) :
    ∀ fuel cap, (∃ k, cap = 2 ^ k) → ∃ k, growCap target fuel cap = 2 ^ k := by
  intro fuel
  induction fuel with
  | zero => exact fun cap h => h
  | succ fuel ih =>
    intro cap h
    unfold growCap
    by_cases hc : cap < target
    · rw [if_pos hc]
      obtain ⟨k, rfl⟩ := h
      exact ih _ ⟨k + 1, by ring⟩
    · rw [if_neg hc]
      exact h

theorem growCap_ge (target : Nat) :
    ∀ fuel cap, 0 < cap → target ≤ cap * 2 ^ fuel →
      target ≤ growCap target fuel cap := by
  intro fuel
  induction fuel with
  | zero =>
    intro cap hc h
    simpa using h
  | succ fuel ih =>
    intro cap hc h
    unfold growCap
    by_cases hlt : cap < target
    · rw [if_pos hlt]
      exact ih (cap * 2) (by omega) (h.trans_eq (by ring))
    · rw [if_neg hlt]
      omega

theorem uniq_pairwise {cap : Nat} {es : List OMEntry} (hlen : es.length = cap)
    (huniq : uniqIds cap es) :
    es.Pairwise (fun a b => a.id ≠ 0 → a.id ≠ b.id) := by
  rw [List.pairwise_iff_getElem]
  intro i j hi hj hij hzi
  have he1 : eAt es i = es[i] := by
    unfold eAt
    rw [List.getD_eq_getElem?_getD, List.getElem?_eq_getElem hi]
    rfl
  have he2 : eAt es j = es[j] := by
    unfold eAt
    rw [List.getD_eq_getElem?_getD, List.getElem?_eq_getElem hj]
    rfl
  have := huniq i j (by omega) (by omega) (by omega) (by rw [he1]; exact hzi)
  rw [he1, he2] at this
  exact this

theorem resize_fold {cap : Nat} (hpow : ∃ k, cap = 2 ^ k) :
    ∀ (olds : List OMEntry) (acc : List OMEntry × Nat),
      olds.Pairwise (fun a b => a.id ≠ 0 → a.id ≠ b.id) →
      acc.1.length = cap → uniqIds cap acc.1 → probeOK cap acc.1 →
      acc.2 = (acc.1.filter (fun e => !(e.id == 0))).length →
      (∀ e ∈ olds, e.id ≠ 0 → ∀ e2 ∈ acc.1, e2.id ≠ e.id) →
      (acc.1.filter (fun e => !(e.id == 0))).length +
        (olds.filter (fun e => !(e.id == 0))).length < cap →
      ((olds.foldl (fun acc e =>
        if e.id ≠ 0 then
          (putAux acc.1 (cap - 1) e cap (e.id &&& (cap - 1)), acc.2 + 1)
        else acc) acc).1.length = cap ∧
      uniqIds cap (olds.foldl (fun acc e =>
        if e.id ≠ 0 then
          (putAux acc.1 (cap - 1) e cap (e.id &&& (cap - 1)), acc.2 + 1)
        else acc) acc).1 ∧
      probeOK cap (olds.foldl (fun acc e =>
        if e.id ≠ 0 then
          (putAux acc.1 (cap - 1) e cap (e.id &&& (cap - 1)), acc.2 + 1)
        else acc) acc).1 ∧
      (olds.foldl (fun acc e =>
        if e.id ≠ 0 then
          (putAux acc.1 (cap - 1) e cap (e.id &&& (cap - 1)), acc.2 + 1)
        else acc) acc).2 =
        (((olds.foldl (fun acc e =>
          if e.id ≠ 0 then
            (putAux acc.1 (cap - 1) e cap (e.id &&& (cap - 1)), acc.2 + 1)
          else acc) acc).1).filter (fun e => !(e.id == 0))).length ∧
      (((olds.foldl (fun acc e =>
          if e.id ≠ 0 then
            (putAux acc.1 (cap - 1) e cap (e.id &&& (cap - 1)), acc.2 + 1)
          else acc) acc).1).filter (fun e => !(e.id == 0))).length =
        (acc.1.filter (fun e => !(e.id == 0))).length +
          (olds.filter (fun e => !(e.id == 0))).length ∧
      (∀ e : OMEntry, e.id ≠ 0 →
        (e ∈ (olds.foldl (fun acc e =>
          if e.id ≠ 0 then
            (putAux acc.1 (cap - 1) e cap (e.id &&& (cap - 1)), acc.2 + 1)
          else acc) acc).1 ↔ e ∈ acc.1 ∨ e ∈ olds))) := by
  intro olds
  induction olds with
  | nil =>
    intro acc hpair hlen huniq hprobe hcnt hdisj hroom
    simp only [List.foldl_nil]
    refine ⟨hlen, huniq, hprobe, hcnt, by simp, ?_⟩
    intro e hze
    simp
  | cons o olds ih =>
    intro acc hpair hlen huniq hprobe hcnt hdisj hroom
    rw [List.pairwise_cons] at hpair
    by_cases hzo : o.id ≠ 0
    · simp only [List.foldl_cons, if_pos hzo]
      rw [and_mask_eq_mod hpow]
      have hroomo : (acc.1.filter (fun e => !(e.id == 0))).length < cap := by
        have : (List.filter (fun e => !(e.id == 0)) (o :: olds)).length =
            (olds.filter (fun e => !(e.id == 0))).length + 1 := by
          rw [List.filter_cons, if_pos (by simpa using hzo)]
          simp
        omega
      obtain ⟨h1, h2, h3, h4, h5, h6⟩ := insert_table hpow hlen huniq hprobe
        o hzo (fun e2 he2 => hdisj o (List.mem_cons_self _ _) hzo e2 he2) hroomo
      have hres := ih (putAux acc.1 (cap - 1) o cap (o.id % cap), acc.2 + 1)
        hpair.2 h1 h2 h3 (by dsimp only; rw [hcnt, h4]) ?_ ?_
      · obtain ⟨g1, g2, g3, g4, g5, g6⟩ := hres
        refine ⟨g1, g2, g3, g4, ?_, ?_⟩
        · rw [g5]
          dsimp only
          rw [h4, List.filter_cons, if_pos (by simpa using hzo)]
          simp only [List.length_cons]
          omega
        · intro e hze
          rw [g6 e hze]
          dsimp only
          rw [h6 e hze]
          constructor
          · rintro ((h | rfl) | h)
            · exact Or.inl h
            · exact Or.inr (List.mem_cons_self _ _)
            · exact Or.inr (List.mem_cons_of_mem _ h)
          · rintro (h | h)
            · exact Or.inl (Or.inl h)
            · rcases List.mem_cons.mp h with rfl | h
              · exact Or.inl (Or.inr rfl)
              · exact Or.inr h
      · intro e he hze e2 he2
        dsimp only at he2
        by_cases hz2 : e2.id = 0
        · rw [hz2]
          exact fun h => hze h.symm
        · rcases (h6 e2 hz2).mp he2 with h | h
          · exact hdisj e (List.mem_cons_of_mem _ he) hze e2 h
          · rw [h]
            exact hpair.1 e he hzo
      · dsimp only
        rw [h4]
        rw [List.filter_cons, if_pos (by simpa using hzo)] at hroom
        simp only [List.length_cons] at hroom
        omega
    · simp only [List.foldl_cons, if_neg hzo]
      push_neg at hzo
      have hres := ih acc hpair.2 hlen huniq hprobe hcnt ?_ ?_
      · obtain ⟨g1, g2, g3, g4, g5, g6⟩ := hres
        refine ⟨g1, g2, g3, g4, ?_, ?_⟩
        · rw [g5, List.filter_cons, if_neg (by simpa using hzo)]
        · intro e hze
          rw [g6 e hze]
          constructor
          · rintro (h | h)
            · exact Or.inl h
            · exact Or.inr (List.mem_cons_of_mem _ h)
          · rintro (h | h)
            · exact Or.inl h
            · rcases List.mem_cons.mp h with rfl | h
              · exact absurd hzo hze
              · exact Or.inr h
      · intro e he hze e2 he2
        exact hdisj e (List.mem_cons_of_mem _ he) hze e2 he2
      · rw [List.filter_cons, if_neg (by simpa using hzo)] at hroom
        exact hroom

/-- What `resize` produces: a fresh power-of-two table holding exactly the old
occupied entries. -/
theorem resize_spec (m : OrderMap) (new_cap : Nat)
    (hpair : m.entries.Pairwise (fun a b => a.id ≠ 0 → a.id ≠ b.id))
    (hcount : (m.entries.filter (fun e => !(e.id == 0))).length <
      growCap new_cap (new_cap + 1) 1) :
    (m.resize new_cap).capacity = growCap new_cap (new_cap + 1) 1 ∧
    (m.resize new_cap).mask = (m.resize new_cap).capacity - 1 ∧
    (m.resize new_cap).entries.length = (m.resize new_cap).capacity ∧
    (∃ k, (m.resize new_cap).capacity = 2 ^ k) ∧
    uniqIds (m.resize new_cap).capacity (m.resize new_cap).entries ∧
    probeOK (m.resize new_cap).capacity (m.resize new_cap).entries ∧
    (m.resize new_cap).load =
      ((m.resize new_cap).entries.filter (fun e => !(e.id == 0))).length ∧
    ((m.resize new_cap).entries.filter (fun e => !(e.id == 0))).length =
      (m.entries.filter (fun e => !(e.id == 0))).length ∧
    (∀ e : OMEntry, e.id ≠ 0 →
      (e ∈ (m.resize new_cap).entries ↔ e ∈ m.entries)) := by
  have hpow : ∃ k, growCap new_cap (new_cap + 1) 1 = 2 ^ k :=
    growCap_pow new_cap (new_cap + 1) 1 ⟨0, rfl⟩
  have hfold := resize_fold hpow m.entries
    (List.replicate (growCap new_cap (new_cap + 1) 1) ⟨0, 0⟩, 0)
    hpair (by simp) ?_ ?_ ?_ ?_ ?_
  · obtain ⟨g1, g2, g3, g4, g5, g6⟩ := hfold
    unfold OrderMap.resize
    dsimp only
    refine ⟨rfl, rfl, g1, hpow, g2, g3, g4, ?_, ?_⟩
    · rw [g5, filter_replicate_empty]
      simp
    · intro e hze
      rw [g6 e hze]
      constructor
      · rintro (h | h)
        · exact absurd (congrArg OMEntry.id (List.eq_of_mem_replicate h)) hze
        · exact h
      · exact Or.inr
  · intro i j hi hj hij hzi
    rw [eAt_replicate] at hzi
    exact absurd rfl hzi
  · intro i hi hzi t ht
    rw [eAt_replicate] at hzi
    exact absurd rfl hzi
  · simp [filter_replicate_empty]
  · intro e he hze e2 he2
    rw [congrArg OMEntry.id (List.eq_of_mem_replicate he2)]
    exact fun h => hze h.symm
  · rw [filter_replicate_empty]
    simpa using hcount

/-- A fresh map of requested capacity at least 2 is well-formed and empty. -/
theorem init_WF {c : Nat} (hc : 2 ≤ c) :
    WFMap (OrderMap.init c) ∧ (∀ e ∈ (OrderMap.init c).entries, e.id = 0) := by
  have hcap2 : 2 ≤ growCap c (c + 1) 1 :=
    le_trans hc (growCap_ge c (c + 1) 1 (by omega)
      (by
        have h2c : c < 2 ^ c := Nat.lt_pow_self (by omega) c
        have h2c1 : (2 : Nat) ^ c ≤ 2 ^ (c + 1) :=
          Nat.pow_le_pow_right (by omega) (by omega)
        omega))
  obtain ⟨g1, g2, g3, g4, g5, g6, g7, g8, g9⟩ := resize_spec
    { entries := [], capacity := 0, mask := 0, load := 0 } c
    (by simp)
    (by simp only [List.filter_nil, List.length_nil]; omega)
  simp only [List.filter_nil, List.length_nil] at g8
  unfold OrderMap.init
  refine ⟨⟨g4, by rw [g1]; exact hcap2, g2, g3, g7, ?_, g5, g6⟩, ?_⟩
  · rw [g7, g8, g1]
    omega
  · intro e he
    by_contra hze
    exact absurd ((g9 e hze).mp he) (by simp)

/-- `put` of a fresh nonzero id preserves well-formedness and adds exactly the
new entry. -/
theorem put_WF {m : OrderMap} (hW : WFMap m) (id r : Nat) (hid : id ≠ 0)
    (hfresh : ∀ e ∈ m.entries, e.id ≠ id) :
    WFMap (m.put id r) ∧ (⟨id, r⟩ : OMEntry) ∈ (m.put id r).entries ∧
    (∀ e : OMEntry, e.id ≠ 0 →
      (e ∈ (m.put id r).entries ↔ e ∈ m.entries ∨ e = ⟨id, r⟩)) := by
  by_cases hgrow : m.capacity ≤ m.load * 2
  · have hpair := uniq_pairwise hW.hlen hW.uniq
    have hbig : 2 * m.capacity ≤
        growCap (m.capacity * 2) (m.capacity * 2 + 1) 1 := by
      have hge := growCap_ge (m.capacity * 2) (m.capacity * 2 + 1) 1 (by omega)
        (by
          have h2c : m.capacity * 2 < 2 ^ (m.capacity * 2) :=
            Nat.lt_pow_self (by omega) _
          have h2c1 : (2 : Nat) ^ (m.capacity * 2) ≤ 2 ^ (m.capacity * 2 + 1) :=
            Nat.pow_le_pow_right (by omega) (by omega)
          omega)
      omega
    have hcount : (m.entries.filter (fun e => !(e.id == 0))).length <
        growCap (m.capacity * 2) (m.capacity * 2 + 1) 1 := by
      have hl1 := hW.hload
      have hl2 := hW.hlt
      have hl3 := hW.two
      omega
    obtain ⟨g1, g2, g3, g4, g5, g6, g7, g8, g9⟩ :=
      resize_spec m (m.capacity * 2) hpair hcount
    have hfresh2 : ∀ e ∈ (m.resize (m.capacity * 2)).entries, e.id ≠ id := by
      intro e he
      by_cases hze : e.id = 0
      · rw [hze]
        exact fun h => hid h.symm
      · exact hfresh e ((g9 e hze).mp he)
    have hroom2 : ((m.resize (m.capacity * 2)).entries.filter
        (fun e => !(e.id == 0))).length <
        (m.resize (m.capacity * 2)).capacity := by
      rw [g8, g1]
      have hl1 := hW.hload
      have hl2 := hW.hlt
      have hl3 := hW.two
      omega
    obtain ⟨h1, h2, h3, h4, h5, h6⟩ := insert_table g4 g3 g5 g6 ⟨id, r⟩
      (by simpa using hid) hfresh2 hroom2
    rw [show ((⟨id, r⟩ : OMEntry)).id = id from rfl]
      at h1 h2 h3 h4 h5 h6
    have hput : m.put id r =
        { entries := putAux (m.resize (m.capacity * 2)).entries
            ((m.resize (m.capacity * 2)).capacity - 1) ⟨id, r⟩
            (m.resize (m.capacity * 2)).capacity
            (id % (m.resize (m.capacity * 2)).capacity),
          capacity := (m.resize (m.capacity * 2)).capacity,
          mask := (m.resize (m.capacity * 2)).capacity - 1,
          load := (m.resize (m.capacity * 2)).load + 1 } := by
      unfold OrderMap.put
      rw [if_pos hgrow]
      dsimp only
      rw [g2, and_mask_eq_mod g4]
    rw [hput]
    refine ⟨⟨g4, ?_, rfl, h1, ?_, ?_, h2, h3⟩, h5, ?_⟩
    · show 2 ≤ (m.resize (m.capacity * 2)).capacity
      rw [g1]
      have hl3 := hW.two
      omega
    · show (m.resize (m.capacity * 2)).load + 1 =
        ((putAux (m.resize (m.capacity * 2)).entries
            ((m.resize (m.capacity * 2)).capacity - 1) ⟨id, r⟩
            (m.resize (m.capacity * 2)).capacity
            (id % (m.resize (m.capacity * 2)).capacity)).filter
          (fun e => !(e.id == 0))).length
      rw [g7, h4]
    · show (m.resize (m.capacity * 2)).load + 1 <
        (m.resize (m.capacity * 2)).capacity
      rw [g7, g8, g1]
      have hl1 := hW.hload
      have hl2 := hW.hlt
      omega
    · intro e hze
      dsimp only
      rw [h6 e hze]
      constructor
      · rintro (h | h)
        · exact Or.inl ((g9 e hze).mp h)
        · exact Or.inr h
      · rintro (h | h)
        · exact Or.inl ((g9 e hze).mpr h)
        · exact Or.inr h
  · obtain ⟨h1, h2, h3, h4, h5, h6⟩ := insert_table hW.pow hW.hlen hW.uniq
      hW.probe ⟨id, r⟩ (by simpa using hid) hfresh
      (by have hl1 := hW.hload; have hl2 := hW.hlt; omega)
    rw [show ((⟨id, r⟩ : OMEntry)).id = id from rfl]
      at h1 h2 h3 h4 h5 h6
    have hput : m.put id r =
        { entries := putAux m.entries (m.capacity - 1) ⟨id, r⟩ m.capacity
            (id % m.capacity),
          capacity := m.capacity, mask := m.capacity - 1,
          load := m.load + 1 } := by
      unfold OrderMap.put
      rw [if_neg hgrow]
      dsimp only
      rw [hW.hmask, and_mask_eq_mod hW.pow]
    rw [hput]
    refine ⟨⟨hW.pow, hW.two, rfl, h1, ?_, ?_, h2, h3⟩, h5, ?_⟩
    · show m.load + 1 =
        ((putAux m.entries (m.capacity - 1) ⟨id, r⟩ m.capacity
            (id % m.capacity)).filter (fun e => !(e.id == 0))).length
      rw [hW.hload, h4]
    · show m.load + 1 < m.capacity
      have hl1 := hW.hlt
      have hl3 := hW.two
      omega
    · intro e hze
      dsimp only
      exact h6 e hze

theorem distC_inj {cap a b c : Nat} (ha : a < cap) (hb : b < cap) (hc : c < cap)
    (h : distC cap a b = distC cap a c) : b = c := by
  have h1 := add_distC ha hb
  have h2 := add_distC ha hc
  rw [h] at h1
  exact h1.symm.trans h2

theorem distC_succ_right {cap a b : Nat} (ha : a < cap) (hb : b < cap)
    (h : distC cap a b + 1 < cap) :
    distC cap a ((b + 1) % cap) = distC cap a b + 1 := by
  rw [distC_eq_if ha hb] at h
  rw [succ_mod hb]
  by_cases hw : b + 1 = cap
  · rw [if_pos hw, distC_eq_if ha (show 0 < cap by omega), distC_eq_if ha hb]
    split_ifs at h ⊢ <;> omega
  · rw [if_neg hw, distC_eq_if ha (by omega), distC_eq_if ha hb]
    split_ifs at h ⊢ <;> omega

/-- The source's backshift-move test is exactly "the entry's natural position
is cyclically closer to the hole than to its current slot". -/
theorem moveCond_iff {cap curr next desired : Nat} (hcu : curr < cap)
    (hnx : next < cap) (hd : desired < cap) (hne : curr ≠ next) :
    ((curr < next ∧ (desired ≤ curr ∨ desired > next)) ∨
      (curr > next ∧ desired ≤ curr ∧ desired > next)) ↔
    distC cap desired curr < distC cap desired next := by
  rw [distC_eq_if hd hcu, distC_eq_if hd hnx]
  split_ifs <;> omega

/-- Full correctness of the backward-shift loop: started on a hole at `curr`
with the cluster invariants, it terminates within the fuel, restores the probe
invariant, and preserves the table's occupied entries exactly. -/
theorem backshiftAux_spec {cap : Nat} (hpow : ∃ k, cap = 2 ^ k)
    (htwo : 2 ≤ cap) {E : Nat} (hE : E < cap) :
    ∀ fuel, ∀ es : List OMEntry, ∀ curr next : Nat,
      es.length = cap → curr < cap → next < cap →
      (eAt es curr).id = 0 → (eAt es E).id = 0 → E ≠ curr →
      0 < distC cap curr next →
      distC cap curr next ≤ distC cap curr E →
      distC cap next E < fuel →
      (∀ p, p < cap → 0 < distC cap curr p →
        distC cap curr p < distC cap curr next → (eAt es p).id ≠ 0) →
      (∀ i, i < cap → (eAt es i).id ≠ 0 →
        ∀ t, t < distC cap ((eAt es i).id % cap) i →
          ((eAt es (((eAt es i).id % cap + t) % cap)).id ≠ 0 ∨
            ((eAt es i).id % cap + t) % cap = curr)) →
      (∀ i, i < cap → 0 < distC cap curr i →
        distC cap curr i < distC cap curr next →
        ∀ t, t < distC cap ((eAt es i).id % cap) i →
          (eAt es (((eAt es i).id % cap + t) % cap)).id ≠ 0) →
      uniqIds cap es →
      (backshiftAux (cap - 1) fuel es curr next).length = cap ∧
      probeOK cap (backshiftAux (cap - 1) fuel es curr next) ∧
      uniqIds cap (backshiftAux (cap - 1) fuel es curr next) ∧
      (∀ x : OMEntry, x.id ≠ 0 →
        (backshiftAux (cap - 1) fuel es curr next).count x = es.count x) ∧
      ((backshiftAux (cap - 1) fuel es curr next).filter
          (fun e => !(e.id == 0))).length =
        (es.filter (fun e => !(e.id == 0))).length := by
  intro fuel
  induction fuel with
  | zero =>
    intro es curr next hlen hcu hnx hhole hEe hEc hd0 hdE hfuel hbet hpiexc hpibet huniq
    exact absurd hfuel (by omega)
  | succ fuel ih =>
    intro es curr next hlen hcu hnx hhole hEe hEc hd0 hdE hfuel hbet hpiexc hpibet huniq
    have hcap : 0 < cap := by omega
    have hcn : curr ≠ next := by
      intro h
      rw [h, distC_self hnx] at hd0
      omega
    by_cases hze : (eAt es next).id = 0
    · -- the scan has reached an empty slot: the cluster is fully repaired
      unfold backshiftAux
      rw [if_pos hze]
      refine ⟨hlen, ?_, huniq, fun x hx => rfl, rfl⟩
      intro i hi hzi t ht
      rcases hpiexc i hi hzi t ht with hocc | hcurr
      · exact hocc
      · exfalso
        have hhlt : (eAt es i).id % cap < cap := Nat.mod_lt _ hcap
        have htlt : t < cap := lt_trans ht (distC_lt hcap _ _)
        have hdhc : distC cap ((eAt es i).id % cap) curr = t := by
          rw [← hcurr]
          exact distC_pos_add hhlt htlt
        by_cases hic : i = curr
        · rw [hic] at hzi
          exact hzi hhole
        by_cases hreg : distC cap curr i < distC cap curr next
        · have hpos : 0 < distC cap curr i := by
            rcases Nat.eq_zero_or_pos (distC cap curr i) with h0 | h0
            · exact absurd ((distC_eq_zero_iff hcu hi).mp h0).symm hic
            · exact h0
          have hfull := hpibet i hi hpos hreg t ht
          rw [hcurr] at hfull
          exact hfull hhole
        · push_neg at hreg
          have hine : i ≠ next := by
            intro he
            rw [he] at hzi
            exact hzi hze
          have hstrict : distC cap curr next < distC cap curr i := by
            rcases Nat.lt_or_ge (distC cap curr next) (distC cap curr i) with h | h
            · exact h
            · have heq : distC cap curr next = distC cap curr i := by omega
              exact absurd (distC_inj hcu hnx hi heq).symm hine
          have hsplit1 : distC cap ((eAt es i).id % cap) curr +
              distC cap curr i = distC cap ((eAt es i).id % cap) i := by
            refine distC_split hhlt hcu hi ?_
            omega
          have ht1 : t + distC cap curr next <
              distC cap ((eAt es i).id % cap) i := by omega
          have hpos1 : ((eAt es i).id % cap + (t + distC cap curr next)) % cap =
              next := by
            calc ((eAt es i).id % cap + (t + distC cap curr next)) % cap
                = (((eAt es i).id % cap + t) + distC cap curr next) % cap := by
                  congr 1
                  omega
              _ = (((eAt es i).id % cap + t) % cap + distC cap curr next) %
                  cap := by rw [Nat.mod_add_mod]
              _ = (curr + distC cap curr next) % cap := by rw [hcurr]
              _ = next := add_distC hcu hnx
          rcases hpiexc i hi hzi (t + distC cap curr next) ht1 with hocc1 | hcurr1
          · rw [hpos1] at hocc1
            exact hocc1 hze
          · rw [hpos1] at hcurr1
            exact hcn hcurr1.symm
    · -- the slot under scan is occupied
      have hnE : next ≠ E := by
        intro h
        rw [h] at hze
        exact hze hEe
      have hnE0 : 0 < distC cap next E := by
        rcases Nat.eq_zero_or_pos (distC cap next E) with h0 | h0
        · exact absurd ((distC_eq_zero_iff hnx hE).mp h0) hnE
        · exact h0
      have hElt : distC cap curr E < cap := distC_lt hcap curr E
      have hnextlt : distC cap curr next < distC cap curr E := by
        rcases Nat.lt_or_ge (distC cap curr next) (distC cap curr E) with h | h
        · exact h
        · have heq : distC cap curr next = distC cap curr E := by omega
          exact absurd (distC_inj hcu hnx hE heq) hnE
      have hnn' : (next + 1) % cap < cap := Nat.mod_lt _ hcap
      have hfuel' : distC cap ((next + 1) % cap) E + 1 = distC cap next E :=
        distC_succ_left hnx hE hnE
      have hdlt : (eAt es next).id % cap < cap := Nat.mod_lt _ hcap
      unfold backshiftAux
      rw [if_neg hze]
      dsimp only
      rw [and_mask_eq_mod hpow ((eAt es next).id), and_mask_eq_mod hpow (next + 1)]
      by_cases hmv :
          (curr < next ∧ ((eAt es next).id % cap ≤ curr ∨
            (eAt es next).id % cap > next)) ∨
          (curr > next ∧ (eAt es next).id % cap ≤ curr ∧
            (eAt es next).id % cap > next)
      · rw [if_pos hmv]
        have hmove := (moveCond_iff hcu hnx hdlt hcn).mp hmv
        have hlen1 : (es.set curr (eAt es next)).length = cap := by
          simpa using hlen
        have hlen2 :
            ((es.set curr (eAt es next)).set next
              ⟨0, (eAt es next).ord⟩).length = cap := by simpa using hlen1
        have hcurr2 : eAt ((es.set curr (eAt es next)).set next
            ⟨0, (eAt es next).ord⟩) curr = eAt es next := by
          rw [eAt_set_ne hcn, eAt_set_self (by rw [hlen]; exact hcu)]
        have hnext2 : eAt ((es.set curr (eAt es next)).set next
            ⟨0, (eAt es next).ord⟩) next = ⟨0, (eAt es next).ord⟩ := by
          exact eAt_set_self (by rw [hlen1]; exact hnx) _
        have hother2 : ∀ p, p ≠ curr → p ≠ next →
            eAt ((es.set curr (eAt es next)).set next
              ⟨0, (eAt es next).ord⟩) p = eAt es p := by
          intro p h1 h2
          rw [eAt_set_ne h2, eAt_set_ne h1]
        have hd1 : 0 < distC cap next ((next + 1) % cap) := by
          rw [distC_pos_add hnx (show 1 < cap by omega)]
          omega
        have hEne2 : E ≠ next := fun h => hnE h.symm
        have hdE' : distC cap next ((next + 1) % cap) ≤ distC cap next E := by
          rw [distC_pos_add hnx (show 1 < cap by omega)]
          omega
        have hres := ih ((es.set curr (eAt es next)).set next
            ⟨0, (eAt es next).ord⟩) next ((next + 1) % cap)
          hlen2 hnx hnn'
          (by rw [hnext2])
          (by rw [hother2 E hEc hEne2]; exact hEe)
          hEne2 hd1 hdE' (by omega)
          ?_ ?_ ?_ ?_
        · obtain ⟨g1, g2, g3, g4, g5⟩ := hres
          refine ⟨g1, g2, g3, ?_, ?_⟩
          · intro x hx
            rw [g4 x hx]
            have hc1 := count_set es curr (eAt es next) x
              (by rw [hlen]; exact hcu)
            have hc2 := count_set (es.set curr (eAt es next)) next
              ⟨0, (eAt es next).ord⟩ x (by rw [hlen1]; exact hnx)
            rw [eAt_set_ne (Ne.symm hcn)] at hc2
            have hxh : (if eAt es curr = x then 1 else 0) = 0 := by
              rw [if_neg]
              intro h
              rw [h] at hhole
              exact hx hhole
            have hxz : (if (⟨0, (eAt es next).ord⟩ : OMEntry) = x
                then 1 else 0) = 0 := by
              rw [if_neg]
              intro h
              rw [← h] at hx
              exact hx rfl
            omega
          · rw [g5]
            have hf1 := filter_length_set es curr (eAt es next)
              (fun e => !(e.id == 0)) (by rw [hlen]; exact hcu)
            have hf2 := filter_length_set (es.set curr (eAt es next)) next
              ⟨0, (eAt es next).ord⟩ (fun e => !(e.id == 0))
              (by rw [hlen1]; exact hnx)
            rw [eAt_set_ne (Ne.symm hcn)] at hf2
            rw [if_neg (by simp [hhole]), if_pos (by simpa using hze)] at hf1
            rw [if_pos (by simpa using hze), if_neg (by simp)] at hf2
            omega
        · -- between region of the new pair is empty
          intro p hp hp0 hplt
          rw [distC_pos_add hnx (show 1 < cap by omega)] at hplt
          exfalso
          omega
        · -- probe invariant with the hole moved to `next`
          intro i hi hzi t ht
          by_cases hic : i = curr
          · rw [hic] at hzi ht ⊢
            rw [hcurr2] at hzi ht ⊢
            have hold := hpiexc next hnx hze t (by omega)
            rcases hold with hocc | hcu2
            · by_cases hpn : ((eAt es next).id % cap + t) % cap = next
              · exact Or.inr hpn
              · left
                by_cases hpc : ((eAt es next).id % cap + t) % cap = curr
                · rw [hpc, hcurr2]
                  exact hze
                · rw [hother2 _ hpc hpn]
                  exact hocc
            · left
              rw [hcu2, hcurr2]
              exact hze
          · by_cases hin : i = next
            · rw [hin, hnext2] at hzi
              exact absurd rfl hzi
            · rw [hother2 i hic hin] at hzi ht ⊢
              rcases hpiexc i hi hzi t ht with hocc | hcu2
              · by_cases hpn : ((eAt es i).id % cap + t) % cap = next
                · exact Or.inr hpn
                · left
                  by_cases hpc : ((eAt es i).id % cap + t) % cap = curr
                  · rw [hpc, hcurr2]
                    exact hze
                  · rw [hother2 _ hpc hpn]
                    exact hocc
              · left
                rw [hcu2, hcurr2]
                exact hze
        · -- no slots strictly between the new hole and the scan position
          intro i hi hp0 hplt
          rw [distC_pos_add hnx (show 1 < cap by omega)] at hplt
          exfalso
          omega
        · -- distinct ids, positionally
          intro i j hi hj hij hzi
          by_cases hin : i = next
          · rw [hin, hnext2] at hzi
            exact absurd rfl hzi
          · have hiv : eAt ((es.set curr (eAt es next)).set next
                ⟨0, (eAt es next).ord⟩) i =
                eAt es (if i = curr then next else i) := by
              by_cases hic : i = curr
              · rw [if_pos hic, hic, hcurr2]
              · rw [if_neg hic, hother2 i hic hin]
            by_cases hjn : j = next
            · rw [hjn, hnext2]
              rw [hiv] at hzi ⊢
              intro h
              exact hzi h
            · have hjv : eAt ((es.set curr (eAt es next)).set next
                  ⟨0, (eAt es next).ord⟩) j =
                  eAt es (if j = curr then next else j) := by
                by_cases hjc : j = curr
                · rw [if_pos hjc, hjc, hcurr2]
                · rw [if_neg hjc, hother2 j hjc hjn]
              rw [hiv] at hzi ⊢
              rw [hjv]
              refine huniq _ _ ?_ ?_ ?_ hzi
              · split_ifs <;> omega
              · split_ifs <;> omega
              · split_ifs with h1 h2 h3 <;> omega
      · rw [if_neg hmv]
        have hstay : distC cap ((eAt es next).id % cap) next ≤
            distC cap ((eAt es next).id % cap) curr := by
          rcases Nat.lt_or_ge (distC cap ((eAt es next).id % cap) curr)
            (distC cap ((eAt es next).id % cap) next) with h | h
          · exact absurd hmv (by
              rw [not_not]
              exact (moveCond_iff hcu hnx hdlt hcn).mpr h)
          · exact h
        have hd0' : 0 < distC cap curr ((next + 1) % cap) := by
          rw [distC_succ_right hcu hnx (by omega)]
          omega
        have hdE2 : distC cap curr ((next + 1) % cap) ≤ distC cap curr E := by
          rw [distC_succ_right hcu hnx (by omega)]
          omega
        have hres := ih es curr ((next + 1) % cap)
          hlen hcu hnn' hhole hEe hEc hd0' hdE2 (by omega)
          ?_ hpiexc ?_ huniq
        · exact hres
        · intro p hp hp0 hplt
          rw [distC_succ_right hcu hnx (by omega)] at hplt
          by_cases hpn : p = next
          · rw [hpn]
            exact hze
          · refine hbet p hp hp0 ?_
            rcases Nat.lt_or_ge (distC cap curr p) (distC cap curr next) with h | h
            · exact h
            · exfalso
              have heq : distC cap curr p = distC cap curr next := by omega
              exact hpn (distC_inj hcu hp hnx heq)
        · intro i hi hp0 hplt t ht
          rw [distC_succ_right hcu hnx (by omega)] at hplt
          by_cases hin : i = next
          · rw [hin] at ht ⊢
            rcases hpiexc next hnx hze t ht with hocc | hcu2
            · exact hocc
            · exfalso
              have htlt2 : t < cap := lt_trans ht (distC_lt hcap _ _)
              have hdt : distC cap ((eAt es next).id % cap) curr = t := by
                rw [← hcu2]
                exact distC_pos_add hdlt htlt2
              omega
          · have hlt2 : distC cap curr i < distC cap curr next := by
              rcases Nat.lt_or_ge (distC cap curr i) (distC cap curr next)
                with h | h
              · exact h
              · exfalso
                have heq : distC cap curr i = distC cap curr next := by omega
                exact hin (distC_inj hcu hi hnx heq)
            exact hpibet i hi hp0 hlt2 t ht

/-- The search walk of `remove` when the id is stored at slot `i`. -/
theorem removeAux_found {cap : Nat} (hpow : ∃ k, cap = 2 ^ k)
    {es : List OMEntry} {id : Nat} {i : Nat} (hi : i < cap)
    (hKi : (eAt es i).id = id) (hid : id ≠ 0) :
    ∀ fuel j, j < cap → distC cap j i < fuel →
      (∀ t, t < distC cap j i →
        (eAt es ((j + t) % cap)).id ≠ 0 ∧ (eAt es ((j + t) % cap)).id ≠ id) →
      removeAux es (cap - 1) id fuel j =
        some (backshiftAux (cap - 1) es.length
          (es.set i ⟨0, (eAt es i).ord⟩) i ((i + 1) % cap)) := by
  intro fuel
  induction fuel with
  | zero =>
    intro j hj hfuel hpath
    exact absurd hfuel (by omega)
  | succ fuel ih =>
    intro j hj hfuel hpath
    by_cases hji : j = i
    · subst hji
      unfold removeAux
      rw [if_neg (by rw [hKi]; exact hid), if_pos hKi, and_mask_eq_mod hpow]
    · have hd0 : 0 < distC cap j i := by
        rcases Nat.eq_zero_or_pos (distC cap j i) with h0 | h0
        · exact absurd ((distC_eq_zero_iff hj hi).mp h0) hji
        · exact h0
      have hslot := hpath 0 hd0
      simp only [Nat.add_zero, Nat.mod_eq_of_lt hj] at hslot
      unfold removeAux
      rw [if_neg hslot.1, if_neg hslot.2, and_mask_eq_mod hpow]
      have hj' : (j + 1) % cap < cap := Nat.mod_lt _ (by omega)
      have hstep := distC_succ_left hj hi hji
      refine ih ((j + 1) % cap) hj' (by omega) ?_
      intro t ht
      rw [path_shift]
      exact hpath (t + 1) (by omega)

/-- The search walk of `remove` gives up at an empty slot when no occupied
slot holds the id. -/
theorem removeAux_absent {cap : Nat} (hpow : ∃ k, cap = 2 ^ k)
    {es : List OMEntry} {id : Nat}
    (habs : ∀ p, p < cap → (eAt es p).id ≠ 0 → (eAt es p).id ≠ id) :
    ∀ fuel j, j < cap →
      (∃ t, t < fuel ∧ (eAt es ((j + t) % cap)).id = 0) →
      removeAux es (cap - 1) id fuel j = none := by
  intro fuel
  induction fuel with
  | zero =>
    rintro j hj ⟨t, ht, -⟩
    exact absurd ht (by omega)
  | succ fuel ih =>
    rintro j hj ⟨t, ht, hempty⟩
    by_cases hz : (eAt es j).id = 0
    · unfold removeAux
      rw [if_pos hz]
    · unfold removeAux
      rw [if_neg hz, if_neg (habs j hj hz), and_mask_eq_mod hpow]
      have ht0 : t ≠ 0 := by
        intro h0
        rw [h0] at hempty
        simp only [Nat.add_zero, Nat.mod_eq_of_lt hj] at hempty
        exact hz hempty
      refine ih ((j + 1) % cap) (Nat.mod_lt _ (by omega)) ⟨t - 1, by omega, ?_⟩
      rw [path_shift]
      have h1 : t - 1 + 1 = t := by omega
      rw [h1]
      exact hempty

/-- `remove` preserves well-formedness, and the stored entries afterwards are
exactly the stored entries before minus the removed id. -/
theorem remove_WF {m : OrderMap} (hW : WFMap m) (I : Nat) :
    WFMap (m.remove I) ∧
    (∀ x : OMEntry, x.id ≠ 0 →
      (x ∈ (m.remove I).entries ↔ x ∈ m.entries ∧ x.id ≠ I)) := by
  have hcap : 0 < m.capacity := by have := hW.two; omega
  have habsence : (∀ p, p < m.capacity → (eAt m.entries p).id ≠ 0 →
      (eAt m.entries p).id ≠ I) → m.remove I = m := by
    intro habs
    have hfl : ((m.entries.filter (fun e => !(e.id == 0))).length <
        m.entries.length) := by
      rw [← hW.hload, hW.hlen]
      exact hW.hlt
    obtain ⟨E, hElen, hE⟩ := exists_empty_slot hfl
    have hEcap : E < m.capacity := by rw [← hW.hlen]; exact hElen
    have hhome : I % m.capacity < m.capacity := Nat.mod_lt _ hcap
    have hnone := removeAux_absent hW.pow habs m.capacity (I % m.capacity)
      hhome ⟨distC m.capacity (I % m.capacity) E, distC_lt hcap _ _, by
        rw [add_distC hhome hEcap]; exact hE⟩
    unfold OrderMap.remove
    rw [hW.hmask, and_mask_eq_mod hW.pow, hnone]
  by_cases hpres : ∃ p, p < m.capacity ∧ (eAt m.entries p).id = I ∧ I ≠ 0
  · obtain ⟨i, hi, hKi, hI0⟩ := hpres
    have hhome : I % m.capacity < m.capacity := Nat.mod_lt _ hcap
    have hpath : ∀ t, t < distC m.capacity (I % m.capacity) i →
        (eAt m.entries ((I % m.capacity + t) % m.capacity)).id ≠ 0 ∧
        (eAt m.entries ((I % m.capacity + t) % m.capacity)).id ≠ I := by
      intro t ht
      have hocc := hW.probe i hi (by rw [hKi]; exact hI0) t
        (by rw [hKi]; exact ht)
      rw [hKi] at hocc
      refine ⟨hocc, ?_⟩
      intro hKt
      have hpt : (I % m.capacity + t) % m.capacity < m.capacity :=
        Nat.mod_lt _ hcap
      have hne : (I % m.capacity + t) % m.capacity ≠ i := by
        intro he
        have hdt := distC_pos_add (t := t) hhome (by
          have := distC_lt hcap (I % m.capacity) i
          omega)
        rw [he] at hdt
        omega
      exact hW.uniq _ i hpt hi hne (by rw [hKt]; exact hI0)
        (hKt.trans hKi.symm)
    have hsome := removeAux_found hW.pow hi hKi hI0 m.capacity
      (I % m.capacity) hhome (distC_lt hcap _ _) hpath
    have heq : m.remove I = { m with
        entries := backshiftAux (m.capacity - 1) m.entries.length
          (m.entries.set i ⟨0, (eAt m.entries i).ord⟩) i
          ((i + 1) % m.capacity),
        load := m.load - 1 } := by
      unfold OrderMap.remove
      rw [hW.hmask, and_mask_eq_mod hW.pow, hsome]
    have hfl : ((m.entries.filter (fun e => !(e.id == 0))).length <
        m.entries.length) := by
      rw [← hW.hload, hW.hlen]
      exact hW.hlt
    obtain ⟨E, hElen, hE⟩ := exists_empty_slot hfl
    have hEcap : E < m.capacity := by rw [← hW.hlen]; exact hElen
    have hEi : E ≠ i := by
      intro h
      rw [h, hKi] at hE
      exact hI0 hE
    have hlen1 : (m.entries.set i ⟨0, (eAt m.entries i).ord⟩).length =
        m.capacity := by simpa using hW.hlen
    have hilen : i < m.entries.length := by rw [hW.hlen]; exact hi
    have hni : (i + 1) % m.capacity < m.capacity := Nat.mod_lt _ hcap
    have hd1 : distC m.capacity i ((i + 1) % m.capacity) = 1 :=
      distC_pos_add hi (by have := hW.two; omega)
    have hEpos : 0 < distC m.capacity i E := by
      rcases Nat.eq_zero_or_pos (distC m.capacity i E) with h0 | h0
      · exact absurd ((distC_eq_zero_iff hi hEcap).mp h0).symm hEi
      · exact h0
    have hspec := backshiftAux_spec hW.pow hW.two hEcap m.entries.length
      (m.entries.set i ⟨0, (eAt m.entries i).ord⟩) i ((i + 1) % m.capacity)
      hlen1 hi hni
      (by rw [eAt_set_self hilen])
      (by rw [eAt_set_ne hEi]; exact hE)
      hEi (by rw [hd1]; omega) (by rw [hd1]; exact hEpos)
      (by rw [hW.hlen]; exact distC_lt hcap _ _)
      ?_ ?_ ?_ ?_
    · obtain ⟨g1, g2, g3, g4, g5⟩ := hspec
      have hfs := filter_length_set m.entries i ⟨0, (eAt m.entries i).ord⟩
        (fun e => !(e.id == 0)) hilen
      rw [if_pos (by simp; rw [hKi]; exact hI0), if_neg (by simp)] at hfs
      have hcs : ∀ x : OMEntry, x.id ≠ 0 → x ≠ eAt m.entries i →
          (m.entries.set i ⟨0, (eAt m.entries i).ord⟩).count x =
            m.entries.count x := by
        intro x hx hxi
        have hc := count_set m.entries i ⟨0, (eAt m.entries i).ord⟩ x hilen
        rw [if_neg (fun h => hxi h.symm), if_neg (by
          intro h
          rw [← h] at hx
          exact hx rfl)] at hc
        omega
      rw [heq]
      refine ⟨⟨hW.pow, hW.two, hW.hmask, g1, ?_, ?_, g3, g2⟩, ?_⟩
      · show m.load - 1 = ((backshiftAux (m.capacity - 1) m.entries.length
          (m.entries.set i ⟨0, (eAt m.entries i).ord⟩) i
          ((i + 1) % m.capacity)).filter (fun e => !(e.id == 0))).length
        rw [g5, hW.hload]
        omega
      · show m.load - 1 < m.capacity
        have := hW.hlt
        omega
      · intro x hx
        show x ∈ backshiftAux _ _ _ _ _ ↔ _
        constructor
        · intro hmem
          have hcnt : 0 < (backshiftAux (m.capacity - 1) m.entries.length
              (m.entries.set i ⟨0, (eAt m.entries i).ord⟩) i
              ((i + 1) % m.capacity)).count x := List.count_pos_iff.mpr hmem
          rw [g4 x hx] at hcnt
          have hmem1 : x ∈ m.entries.set i ⟨0, (eAt m.entries i).ord⟩ :=
            List.count_pos_iff.mp hcnt
          obtain ⟨p, hplen, hp⟩ := mem_iff_eAt.mp hmem1
          have hpcap : p < m.capacity := by rw [← hlen1]; exact hplen
          have hpi : p ≠ i := by
            intro h
            rw [h, eAt_set_self hilen] at hp
            rw [← hp] at hx
            exact hx rfl
          rw [eAt_set_ne hpi] at hp
          refine ⟨hp ▸ eAt_mem (by rw [hW.hlen]; exact hpcap), ?_⟩
          intro hxI
          have huq := hW.uniq p i hpcap hi hpi (by rw [hp]; exact hx)
          rw [hp, hKi, hxI] at huq
          exact huq rfl
        · rintro ⟨hmem, hxI⟩
          have hxi : x ≠ eAt m.entries i := by
            intro h
            rw [h] at hxI
            exact hxI hKi
          have hcnt : 0 < m.entries.count x := List.count_pos_iff.mpr hmem
          refine List.count_pos_iff.mp ?_
          rw [g4 x hx, hcs x hx hxi]
          exact hcnt
    · intro p hp hp0 hplt
      rw [hd1] at hplt
      exact absurd hplt (by omega)
    · intro i2 hi2 hzi2 t ht
      by_cases hii : i2 = i
      · rw [hii, eAt_set_self hilen] at hzi2
        exact absurd rfl hzi2
      · rw [eAt_set_ne hii] at hzi2 ht ⊢
        by_cases hpi : ((eAt m.entries i2).id % m.capacity + t) %
            m.capacity = i
        · exact Or.inr hpi
        · left
          rw [eAt_set_ne hpi]
          exact hW.probe i2 hi2 hzi2 t ht
    · intro i2 hi2 hp0 hplt
      rw [hd1] at hplt
      exact absurd hplt (by omega)
    · intro i2 j2 hi2 hj2 hij hzi2
      by_cases hii : i2 = i
      · rw [hii, eAt_set_self hilen] at hzi2
        exact absurd rfl hzi2
      · rw [eAt_set_ne hii] at hzi2 ⊢
        by_cases hjj : j2 = i
        · rw [hjj, eAt_set_self hilen]
          intro h
          exact hzi2 h
        · rw [eAt_set_ne hjj]
          exact hW.uniq i2 j2 hi2 hj2 hij hzi2
  · have habs : ∀ p, p < m.capacity → (eAt m.entries p).id ≠ 0 →
        (eAt m.entries p).id ≠ I := by
      intro p hp hz hI
      exact hpres ⟨p, hp, hI, by rw [← hI]; exact hz⟩
    rw [habsence habs]
    refine ⟨hW, ?_⟩
    intro x hx
    constructor
    · intro hmem
      refine ⟨hmem, ?_⟩
      intro hxI
      obtain ⟨p, hplen, hp⟩ := mem_iff_eAt.mp hmem
      have hpcap : p < m.capacity := by rw [← hW.hlen]; exact hplen
      exact habs p hpcap (by rw [hp]; exact hx) (by rw [hp]; exact hxI)
    · exact fun h => h.1

/-- Map states reachable by `put` / `remove` with distinct nonzero ids. -/
inductive OMReach : OrderMap → Prop where
  | init (c : Nat) (hc : 2 ≤ c) : OMReach (OrderMap.init c)
  | put (m : OrderMap) (id r : Nat) (hm : OMReach m) (hid : id ≠ 0)
      (hfresh : ∀ e ∈ m.entries, e.id ≠ id) : OMReach (m.put id r)
  | remove (m : OrderMap) (id : Nat) (hm : OMReach m) : OMReach (m.remove id)

theorem OMReach_WF {m : OrderMap} (h : OMReach m) : WFMap m := by
  induction h with
  | init c hc => exact (init_WF hc).1
  | put m id r hm hid hfresh ih => exact (put_WF ih id r hid hfresh).1
  | remove m id hm ih => exact (remove_WF ih id).1

/-!
## C1 — the decoder contract of `parse_message`
-/

/-- **C1** (counterexample).  The claim covers both cited `parse_message`
implementations.  `TemplateParser::parse_message` on the single unknown
byte `'Z'` returns 0 — not 1 — and leaves the parse-error counter alone,
so the claim is false for it. -/
theorem C1_counterexample :
    ¬ ((TemplateParser.parse_message ParserStats.init (fun _ => 'Z') 1).1 = 1 ∧
       (TemplateParser.parse_message ParserStats.init (fun _ => 'Z') 1).2.1.parse_errors =
         ParserStats.init.parse_errors + 1) := by
  decide

/-- **C1** (amended).  `ITCHParser::parse_message` behaves per the decoder
contract: it returns 0 when `max_len = 0`; on an unknown type tag it
increments the parse-error counter only, invokes `on_parse_error` exactly
when a handler is attached, and returns 1; on a known tag with
`max_len < size` it returns 0 with no state change; otherwise it dispatches
the typed callback (when a handler is attached) and increments
`messages_parsed` by 1, `bytes_processed` by the message size and the
per-type count of the tag, and returns the size.
`TemplateParser::parse_message` instead returns 0 on an unknown tag with no
counter change and no error callback. -/
theorem C1_parse_message_contract (p : ITCHParser) (stats : ParserStats)
    (data : Nat → Char) (max_len : Nat) :
    (max_len = 0 → p.parse_message data max_len = (0, p, [])) ∧
    (0 < max_len → get_message_size (data 0) = 0 →
      (p.parse_message data max_len).1 = 1 ∧
      (p.parse_message data max_len).2.1.stats.parse_errors = p.stats.parse_errors + 1 ∧
      (p.parse_message data max_len).2.1.stats.messages_parsed = p.stats.messages_parsed ∧
      (p.parse_message data max_len).2.1.stats.bytes_processed = p.stats.bytes_processed ∧
      (p.parse_message data max_len).2.1.stats.message_type_counts =
        p.stats.message_type_counts ∧
      (p.parse_message data max_len).2.2 =
        (if p.hasHandler then [ParserEvent.parseError "Unknown message type"] else [])) ∧
    (0 < max_len → 0 < get_message_size (data 0) → max_len < get_message_size (data 0) →
      p.parse_message data max_len = (0, p, [])) ∧
    (0 < max_len → 0 < get_message_size (data 0) → get_message_size (data 0) ≤ max_len →
      (p.parse_message data max_len).1 = get_message_size (data 0) ∧
      (p.parse_message data max_len).2.1.stats.messages_parsed =
        p.stats.messages_parsed + 1 ∧
      (p.parse_message data max_len).2.1.stats.bytes_processed =
        p.stats.bytes_processed + get_message_size (data 0) ∧
      (p.parse_message data max_len).2.1.stats.message_type_counts (data 0) =
        p.stats.message_type_counts (data 0) + 1 ∧
      (∀ c, c ≠ data 0 →
        (p.parse_message data max_len).2.1.stats.message_type_counts c =
          p.stats.message_type_counts c) ∧
      (p.parse_message data max_len).2.1.stats.parse_errors = p.stats.parse_errors ∧
      (p.parse_message data max_len).2.2 =
        (if p.hasHandler then [ParserEvent.dispatch (data 0) (extract_timestamp data)]
         else [])) ∧
    (0 < max_len → get_message_size (data 0) = 0 →
      TemplateParser.parse_message stats data max_len = (0, stats, [])) := by
  refine ⟨?_, ?_, ?_, ?_, ?_⟩
  · intro h
    simp [ITCHParser.parse_message, h]
  · intro h0 hz
    simp only [ITCHParser.parse_message]
    rw [if_neg (by omega), if_pos hz]
    exact ⟨rfl, rfl, rfl, rfl, rfl, rfl⟩
  · intro h0 hz hlt
    simp only [ITCHParser.parse_message]
    rw [if_neg (by omega), if_neg (by omega), if_pos hlt]
  · intro h0 hz hle
    simp only [ITCHParser.parse_message]
    rw [if_neg (by omega), if_neg (by omega), if_neg (by omega)]
    refine ⟨rfl, rfl, rfl, ?_, ?_, rfl, rfl⟩
    · simp
    · intro c hc
      simp [hc]
  · intro h0 hz
    simp only [TemplateParser.parse_message]
    rw [if_neg (by omega), if_pos (Or.inl hz)]

/-- **C1** (witness): the amended contract evaluated on the unknown byte
`'Z'` with a handler attached. -/
theorem C1_witness :
    (ITCHParser.parse_message ⟨true, ParserStats.init⟩ (fun _ => 'Z') 1).1 = 1 ∧
    (ITCHParser.parse_message ⟨true, ParserStats.init⟩ (fun _ => 'Z') 1).2.1.stats.parse_errors =
      ParserStats.init.parse_errors + 1 ∧
    (ITCHParser.parse_message ⟨true, ParserStats.init⟩ (fun _ => 'Z') 1).2.2 =
      [ParserEvent.parseError "Unknown message type"] := by
  have h :=
    (C1_parse_message_contract ⟨true, ParserStats.init⟩ ParserStats.init
      (fun _ => 'Z') 1).2.1 (by decide) (by decide)
  exact ⟨h.1, h.2.1, by simpa using h.2.2.2.2.2⟩

/-- Shape of a successful `get_book`. -/
theorem get_book_eq_some {m : OrderBookManager} {L : Nat} {b' : OrderBook}
    {m' : OrderBookManager} (h : m.get_book L = some (b', m')) :
    ∃ hL : L < m.books.length,
      ((m.books.get ⟨L, hL⟩).stock_locate = 0 ∧ b' = OrderBook.init L ∧
        m' = { m with books := m.books.set L (OrderBook.init L) }) ∨
      ((m.books.get ⟨L, hL⟩).stock_locate ≠ 0 ∧ b' = m.books.get ⟨L, hL⟩ ∧ m' = m) := by
  unfold OrderBookManager.get_book at h
  by_cases hL : L < m.books.length
  · rw [dif_pos hL] at h
    refine ⟨hL, ?_⟩
    by_cases hz : (m.books.get ⟨L, hL⟩).stock_locate = 0
    · rw [if_pos hz] at h
      injection h with h
      injection h with h1 h2
      exact Or.inl ⟨hz, h1.symm, h2.symm⟩
    · rw [if_neg hz] at h
      injection h with h
      injection h with h1 h2
      exact Or.inr ⟨hz, h1.symm, h2.symm⟩
  · rw [dif_neg hL] at h
    exact absurd h (by simp)

/-- Reachable managers keep the constructed vector size. -/
theorem MgrReach.length {m : OrderBookManager} (hm : MgrReach m) :
    m.books.length = OrderBookManager.MAX_SYMBOLS := by
  induction hm with
  | init => simp [OrderBookManager.init]
  | get_book m L b' m' _ hsome ih =>
    obtain ⟨hL, hc | hc⟩ := get_book_eq_some hsome
    · rw [hc.2.2]; simpa using ih
    · rw [hc.2.2]; exact ih
  | mutate m L op h _ ih =>
    simpa [OrderBookManager.setBook] using ih

/-- Reachable managers keep slot 0 at locate 0: the lazy-init test of
`get_book` can never latch a book there. -/
theorem MgrReach.slot0 {m : OrderBookManager} (hm : MgrReach m)
    (h0 : 0 < m.books.length) : (m.books.get ⟨0, h0⟩).stock_locate = 0 := by
  induction hm with
  | init =>
    show ((List.replicate OrderBookManager.MAX_SYMBOLS (OrderBook.init 0)).get
      ⟨0, h0⟩).stock_locate = 0
    rw [List.get_eq_getElem, List.getElem_replicate]
    rfl
  | get_book m L b' m' hr hsome ih =>
    obtain ⟨hL, ⟨hz, hb', hm'⟩ | ⟨hz, hb', hm'⟩⟩ := get_book_eq_some hsome
    · subst hm'
      have h0' : 0 < m.books.length := by simpa using h0
      by_cases hL0 : L = 0
      · subst hL0
        rw [List.get_eq_getElem]
        rw [List.getElem_set_self (by simpa using h0)]
        rfl
      · rw [List.get_eq_getElem]
        rw [List.getElem_set_ne (by simpa using hL0)]
        exact List.get_eq_getElem (l := m.books) ⟨0, h0'⟩ ▸ ih h0'
    · subst hm'
      exact ih h0
  | mutate m L op h hr ih =>
    simp only [OrderBookManager.setBook] at h0 ⊢
    have h0' : 0 < m.books.length := by simpa using h0
    by_cases hL0 : L = 0
    · subst hL0
      rw [List.get_eq_getElem]
      rw [List.getElem_set_self (by simpa using h0)]
      rw [stock_locate_applyBookOp]
      exact List.get_eq_getElem (l := m.books) ⟨0, h0'⟩ ▸ ih h0'
    · rw [List.get_eq_getElem]
      rw [List.getElem_set_ne (by simpa using hL0)]
      exact List.get_eq_getElem (l := m.books) ⟨0, h0'⟩ ▸ ih h0'

/-!
## C9 — `has_book` totality versus the unchecked `get_book` access
-/

/-- **C9**.  For a manager whose book vector has its constructed size
(`MAX_SYMBOLS = 8192`): `has_book L` is `false` for every locate
`L ≥ 8192` (the short-circuit range test fails before any vector access),
while the unchecked vector access of `get_book L` is in bounds — i.e. the
modelled access succeeds — precisely when `L < 8192`, although locates
range up to 65535. -/
theorem C9_has_book_total_get_book_bounds (m : OrderBookManager) (L : Nat)
    (hlen : m.books.length = OrderBookManager.MAX_SYMBOLS) :
    (OrderBookManager.MAX_SYMBOLS ≤ L → m.has_book L = false) ∧
    ((m.get_book L).isSome ↔ L < OrderBookManager.MAX_SYMBOLS) := by
  constructor
  · intro hL
    simp only [OrderBookManager.has_book]
    rw [dif_neg (by omega)]
  · simp only [OrderBookManager.get_book]
    by_cases h : L < m.books.length
    · rw [dif_pos h]
      constructor
      · intro _; omega
      · intro _
        split <;> simp
    · rw [dif_neg h]
      simp
      omega

/-- **C9** (witness): the freshly constructed manager, at the 16-bit locate
65535 (out of range) and at locate 5 (in range). -/
theorem C9_witness :
    (OrderBookManager.MAX_SYMBOLS ≤ 65535 ∧
      OrderBookManager.init.has_book 65535 = false) ∧
    ((OrderBookManager.init.get_book 5).isSome ↔ 5 < OrderBookManager.MAX_SYMBOLS) := by
  have hlen : OrderBookManager.init.books.length = OrderBookManager.MAX_SYMBOLS := by
    simp [OrderBookManager.init]
  have h := C9_has_book_total_get_book_bounds OrderBookManager.init 65535 hlen
  have h5 := C9_has_book_total_get_book_bounds OrderBookManager.init 5 hlen
  exact ⟨⟨by norm_num [OrderBookManager.MAX_SYMBOLS], h.1 (by norm_num [OrderBookManager.MAX_SYMBOLS])⟩, h5.2⟩

/-!
## C10 — lazy initialisation of books, and the locate-0 anomaly
-/

/-- **C10**.  On every reachable manager: for a locate `1 ≤ L < 8192`,
`get_book L` succeeds; the first call (slot still at locate 0) installs and
returns the fresh `OrderBook L`, a call on an already-initialised slot
returns the stored book with the manager unchanged, and in either case an
immediate second call returns the very same book and changes nothing.  For
locate 0 the initialisation test never holds, so every `get_book 0` call
reassigns a fresh empty book over slot 0 (orders stored there do not
survive), and `has_book 0` is always `false`. -/
theorem C10_get_book_lazy_init (m : OrderBookManager) (hm : MgrReach m) (L : Nat) :
    (1 ≤ L → L < OrderBookManager.MAX_SYMBOLS →
      ∃ b₁ m₁, m.get_book L = some (b₁, m₁) ∧
        (∀ b₀, m.books[L]? = some b₀ → b₀.stock_locate = 0 →
          b₁ = OrderBook.init L ∧
          m₁ = { m with books := m.books.set L (OrderBook.init L) }) ∧
        (∀ b₀, m.books[L]? = some b₀ → b₀.stock_locate ≠ 0 → b₁ = b₀ ∧ m₁ = m) ∧
        m₁.books[L]? = some b₁ ∧
        m₁.get_book L = some (b₁, m₁)) ∧
    m.get_book 0 =
      some (OrderBook.init 0, { m with books := m.books.set 0 (OrderBook.init 0) }) ∧
    m.has_book 0 = false := by
  have hlen : m.books.length = OrderBookManager.MAX_SYMBOLS := hm.length
  have hMS : OrderBookManager.MAX_SYMBOLS = 8192 := rfl
  refine ⟨?_, ?_, ?_⟩
  · intro h1 hL
    have hLl : L < m.books.length := by omega
    have hget : m.books[L]? = some (m.books.get ⟨L, hLl⟩) := by
      rw [List.get_eq_getElem]
      exact List.getElem?_eq_getElem hLl
    unfold OrderBookManager.get_book
    rw [dif_pos hLl]
    by_cases hz : (m.books.get ⟨L, hLl⟩).stock_locate = 0
    · rw [if_pos hz]
      refine ⟨OrderBook.init L, _, rfl, ?_, ?_, ?_, ?_⟩
      · intro b₀ hb₀ _
        exact ⟨rfl, rfl⟩
      · intro b₀ hb₀ hb₀z
        rw [hget] at hb₀
        injection hb₀ with hb₀
        exact absurd (hb₀ ▸ hz) hb₀z
      · simpa using List.getElem?_set_self (a := OrderBook.init L) hLl
      · have hLl' : L < (m.books.set L (OrderBook.init L)).length := by
          simpa using hLl
        rw [dif_pos hLl']
        rw [show (m.books.set L (OrderBook.init L)).get ⟨L, hLl'⟩ = OrderBook.init L by
          rw [List.get_eq_getElem]; exact List.getElem_set_self hLl']
        rw [if_neg (by simpa [OrderBook.init] using Nat.one_le_iff_ne_zero.mp h1)]
    · rw [if_neg hz]
      refine ⟨m.books.get ⟨L, hLl⟩, m, rfl, ?_, ?_, hget, ?_⟩
      · intro b₀ hb₀ hb₀z
        rw [hget] at hb₀
        injection hb₀ with hb₀
        exact absurd (hb₀ ▸ hb₀z) hz
      · intro b₀ hb₀ _
        rw [hget] at hb₀
        injection hb₀ with hb₀
        exact ⟨hb₀, rfl⟩
      · rw [dif_pos hLl, if_neg hz]
  · have h0 : 0 < m.books.length := by omega
    have hz := hm.slot0 h0
    unfold OrderBookManager.get_book
    rw [dif_pos h0, if_pos hz]
  · have h0 : 0 < m.books.length := by omega
    have hz := hm.slot0 h0
    unfold OrderBookManager.has_book
    rw [dif_pos h0]
    simpa using hz

/-- **C10** (witness): the freshly constructed manager at locate 5. -/
theorem C10_witness :
    ∃ b₁ m₁, OrderBookManager.init.get_book 5 = some (b₁, m₁) ∧
      b₁ = OrderBook.init 5 ∧ m₁.get_book 5 = some (b₁, m₁) ∧
      OrderBookManager.init.has_book 0 = false := by
  have h := C10_get_book_lazy_init OrderBookManager.init MgrReach.init 5
  obtain ⟨b₁, m₁, h1, h2, _, _, h5⟩ :=
    h.1 (by norm_num) (by norm_num [OrderBookManager.MAX_SYMBOLS])
  have hb₀ : OrderBookManager.init.books[5]? = some (OrderBook.init 0) := by
    show (List.replicate OrderBookManager.MAX_SYMBOLS (OrderBook.init 0))[5]? = _
    rw [List.getElem?_replicate_of_lt (by norm_num [OrderBookManager.MAX_SYMBOLS])]
  obtain ⟨hb, _⟩ := h2 (OrderBook.init 0) hb₀ rfl
  exact ⟨b₁, m₁, h1, hb, h5, h.2.2⟩

/-- **C6**: on every OrderMap state reachable by `put` and `remove` with
distinct nonzero order ids, removing an id `I` present in the table makes
`find I` return null, and — after the cyclic backward shift over the probe
cluster — every other stored id `K` still resolves via `find` to the order
reference it was stored with. -/
theorem C6_remove_backshift {m : OrderMap} (hm : OMReach m) {I : Nat}
    (hI : I ≠ 0) {r0 : Nat}
    (hpres : (⟨I, r0⟩ : OMEntry) ∈ m.entries) :
    (m.remove I).find I = none ∧
    (∀ K r : Nat, K ≠ 0 → K ≠ I → (⟨K, r⟩ : OMEntry) ∈ m.entries →
      (m.remove I).find K = some r) := by
  have hW := OMReach_WF hm
  obtain ⟨hW2, hcont⟩ := remove_WF hW I
  constructor
  · refine find_absent hW2 ?_
    intro e he
    by_cases hze : e.id = 0
    · rw [hze]
      exact fun h => hI h.symm
    · exact ((hcont e hze).mp he).2
  · intro K r hK hKI hmem
    refine find_present hW2 hK ?_
    exact (hcont ⟨K, r⟩ hK).mpr ⟨hmem, hKI⟩

/-- **C6** (witness): a four-slot table holding ids 1001 and 1002; removing
1001 keeps 1002 findable at its stored reference. -/
theorem C6_witness :
    ((((OrderMap.init 4).put 1001 7).put 1002 9).remove 1001).find 1001 =
      none ∧
    ((((OrderMap.init 4).put 1001 7).put 1002 9).remove 1001).find 1002 =
      some 9 := by
  have hm : OMReach (((OrderMap.init 4).put 1001 7).put 1002 9) := by
    refine OMReach.put _ 1002 9 ?_ (by decide) (by decide)
    refine OMReach.put _ 1001 7 ?_ (by decide) (by decide)
    exact OMReach.init 4 (by decide)
  have h := C6_remove_backshift hm (show (1001 : Nat) ≠ 0 by decide)
    (show (⟨1001, 7⟩ : OMEntry) ∈
      ((((OrderMap.init 4).put 1001 7).put 1002 9)).entries by decide)
  exact ⟨h.1, h.2 1002 9 (by decide) (by decide) (by decide)⟩

end Itch
